import Mathlib

/-!
Verification of the glib-serde serializer/deserializer pair.

The development shallowly embeds the crate's core data structures and
algorithms:

* `VarTy` models GVariant type signatures (`glib::VariantTy`), including the
  indefinite patterns `*`, `?` and `r` used by `is_of_type` checks.
* `GVariant` models wire values (`glib::Variant`), with doubles represented by
  their IEEE-754 bit patterns (the code never inspects the numeric value of a
  double, it only stores and reloads it).
* `VariantTypeNode` and `childTypeOrDefault` model `src/variant_type.rs` and
  the child-type fallback of `src/variant/serializer.rs`.
* `SerdeVal` models serde's data model: each constructor corresponds to one
  entry point of `serde::Serializer` that the derived `Serialize`
  implementations can invoke.
* `serialize` models `Serializer`/`SeqSerializer`/`TupleSerializer`/
  `TupleVariantSerializer`/`MapSerializer` from `src/variant/serializer.rs`.
* `Shape`/`nodeOf` model concrete Rust types and the node produced for them by
  the `VariantType` derive macro (`glib-serde-derive/src/variant_type.rs`) and
  the built-in impls in `src/variant_type.rs`.
* `deserialize` models the derived `Deserialize` implementations driving the
  `de::Deserializer for &Variant` of `src/variant/deserializer.rs`.

Rust `assert!` failures (panics) are modelled by the distinguished error
`GErr.panicked`, which is not a recoverable `Error` in the source.
-/

namespace GlibSerde

/-- GVariant type strings (`glib::VariantTy`).  `anyTy` is `*`, `anyBasic` is
`?` and `anyTuple` is `r`; together with `maybe anyTy` (`m*`) and
`array (dictEntry anyBasic anyTy)` (`a{?*}`) they cover every indefinite
pattern the crate passes to `is_of_type`. -/
inductive VarTy where
  | bool
  | byte
  | i16
  | u16
  | i32
  | u32
  | i64
  | u64
  | f64
  | str
  | objPath
  | sig
  | maybe (elem : VarTy)
  | array (elem : VarTy)
  | tuple (elems : List VarTy)
  | dictEntry (key value : VarTy)
  | variant
  | anyTy
  | anyBasic
  | anyTuple

/-- `g_variant_type_is_basic` on the definite types. -/
def VarTy.isBasic : VarTy → Bool
  | .bool | .byte | .i16 | .u16 | .i32 | .u32 | .i64 | .u64 | .f64
  | .str | .objPath | .sig => true
  | _ => false

/-- `g_variant_type_is_array`. -/
def VarTy.isArrayTy : VarTy → Bool
  | .array _ => true
  | _ => false

/-- `g_variant_type_is_maybe`. -/
def VarTy.isMaybeTy : VarTy → Bool
  | .maybe _ => true
  | _ => false

/-- `g_variant_type_is_tuple` (unit `()` is a tuple). -/
def VarTy.isTupleTy : VarTy → Bool
  | .tuple _ => true
  | _ => false

/-- `g_variant_type_is_dict_entry`. -/
def VarTy.isDictEntryTy : VarTy → Bool
  | .dictEntry _ _ => true
  | _ => false

/-- `g_variant_type_element` for arrays and maybes (unused elsewhere). -/
def VarTy.element : VarTy → VarTy
  | .array e => e
  | .maybe e => e
  | _ => .anyTy

mutual
/-- `g_variant_type_is_subtype_of`: does a definite (value) type match a
possibly indefinite pattern?  Used to model `is_of_type`. -/
def tyMatches : VarTy → VarTy → Bool
  | _, .anyTy => true
  | t, .anyBasic => t.isBasic
  | .tuple _, .anyTuple => true
  | .maybe a, .maybe p => tyMatches a p
  | .array a, .array p => tyMatches a p
  | .tuple asL, .tuple ps => tyMatchesList asL ps
  | .dictEntry k v, .dictEntry pk pv => tyMatches k pk && tyMatches v pv
  | .bool, .bool => true
  | .byte, .byte => true
  | .i16, .i16 => true
  | .u16, .u16 => true
  | .i32, .i32 => true
  | .u32, .u32 => true
  | .i64, .i64 => true
  | .u64, .u64 => true
  | .f64, .f64 => true
  | .str, .str => true
  | .objPath, .objPath => true
  | .sig, .sig => true
  | .variant, .variant => true
  | _, _ => false

/-- Componentwise `tyMatches` on tuple element lists. -/
def tyMatchesList : List VarTy → List VarTy → Bool
  | [], [] => true
  | a :: asL, p :: ps => tyMatches a p && tyMatchesList asL ps
  | _, _ => false
end

/-- Wire values (`glib::Variant`).  Doubles carry their raw IEEE-754 bit
pattern; `box` is the dynamic `v` wrapper; a `maybe` records its element type
so that `nothing` values remain typed. -/
inductive GVariant where
  | bool (b : Bool)
  | u8 (n : Nat)
  | u16 (n : Nat)
  | u32 (n : Nat)
  | u64 (n : Nat)
  | i16 (n : Int)
  | i32 (n : Int)
  | i64 (n : Int)
  | f64 (bits : Nat)
  | str (s : String)
  | objPath (s : String)
  | sig (s : String)
  | maybe (elem : VarTy) (v : Option GVariant)
  | array (elem : VarTy) (vs : List GVariant)
  | tuple (vs : List GVariant)
  | dictEntry (k v : GVariant)
  | box (v : GVariant)

mutual
/-- `g_variant_get_type`. -/
def typeOf : GVariant → VarTy
  | .bool _ => .bool
  | .u8 _ => .byte
  | .u16 _ => .u16
  | .u32 _ => .u32
  | .u64 _ => .u64
  | .i16 _ => .i16
  | .i32 _ => .i32
  | .i64 _ => .i64
  | .f64 _ => .f64
  | .str _ => .str
  | .objPath _ => .objPath
  | .sig _ => .sig
  | .maybe e _ => .maybe e
  | .array e _ => .array e
  | .tuple vs => .tuple (typeOfList vs)
  | .dictEntry k v => .dictEntry (typeOf k) (typeOf v)
  | .box _ => .variant

/-- Types of a list of wire values. -/
def typeOfList : List GVariant → List VarTy
  | [] => []
  | v :: vs => typeOf v :: typeOfList vs
end

/-- `glib::VariantClass` of a wire value (`g_variant_classify`). -/
inductive VariantClass where
  | boolean | byte | int16 | uint16 | int32 | uint32 | int64 | uint64
  | double | string | objectPath | signature
  | variant | maybe | array | tuple | dictEntry
  deriving DecidableEq, Repr

/-- `Variant::classify`. -/
def classify : GVariant → VariantClass
  | .bool _ => .boolean
  | .u8 _ => .byte
  | .u16 _ => .uint16
  | .u32 _ => .uint32
  | .u64 _ => .uint64
  | .i16 _ => .int16
  | .i32 _ => .int32
  | .i64 _ => .int64
  | .f64 _ => .double
  | .str _ => .string
  | .objPath _ => .objectPath
  | .sig _ => .signature
  | .maybe _ _ => .maybe
  | .array _ _ => .array
  | .tuple _ => .tuple
  | .dictEntry _ _ => .dictEntry
  | .box _ => .variant

/-- `g_variant_is_container`. -/
def isContainer (v : GVariant) : Bool :=
  match classify v with
  | .maybe | .array | .tuple | .dictEntry | .variant => true
  | _ => false

/-- `g_variant_n_children`. -/
def nChildren : GVariant → Nat
  | .maybe _ none => 0
  | .maybe _ (some _) => 1
  | .array _ vs => vs.length
  | .tuple vs => vs.length
  | .dictEntry _ _ => 2
  | .box _ => 1
  | _ => 0

/-- `Variant::try_child_value`. -/
def tryChildValue : GVariant → Nat → Option GVariant
  | .maybe _ (some v), 0 => some v
  | .array _ vs, i => vs[i]?
  | .tuple vs, i => vs[i]?
  | .dictEntry k _, 0 => some k
  | .dictEntry _ v, 1 => some v
  | .box v, 0 => some v
  | _, _ => none

/-- `Variant::as_variant` (unboxing a `v`-typed value). -/
def asVariant : GVariant → Option GVariant
  | .box v => some v
  | _ => none

/-- `Variant::str`: the string content of `s`/`o`/`g` values. -/
def strOf : GVariant → Option String
  | .str s => some s
  | .objPath s => some s
  | .sig s => some s
  | _ => none

/-- The crate's `Error` enum (`src/error.rs`).  `mismatch` carries
`VariantTypeMismatchError`'s actual and expected types, `intErr` is
`Error::Int(TryFromIntError)`, `boolErr` is `Error::Bool`.  The extra
`panicked` constructor models a Rust `assert!`/`panic!`, which in the source
aborts instead of returning an `Error`. -/
inductive GErr where
  | boolErr (msg : String)
  | mismatch (actual expected : VarTy)
  | intErr
  | strMismatch (actual : VarTy)
  | invalidTag (actual : VarTy)
  | unsupportedType (actual : VarTy)
  | expectedChar (s : String)
  | invalidType (s : String)
  | lengthMismatch (actual expected : Nat)
  | custom (msg : String)
  | panicked (msg : String)

/-- `GlibVariantExt::is_of_type`. -/
def isOfType (v : GVariant) (pat : VarTy) : Except GErr Unit :=
  if tyMatches (typeOf v) pat then .ok () else .error (.mismatch (typeOf v) pat)

/-- `variant.try_get::<bool>()`. -/
def tryGetBool : GVariant → Except GErr Bool
  | .bool b => .ok b
  | w => .error (.mismatch (typeOf w) .bool)

/-- `variant.try_get::<u8>()`. -/
def tryGetU8 : GVariant → Except GErr Nat
  | .u8 n => .ok n
  | w => .error (.mismatch (typeOf w) .byte)

/-- `variant.try_get::<u16>()`. -/
def tryGetU16 : GVariant → Except GErr Nat
  | .u16 n => .ok n
  | w => .error (.mismatch (typeOf w) .u16)

/-- `variant.try_get::<u32>()`. -/
def tryGetU32 : GVariant → Except GErr Nat
  | .u32 n => .ok n
  | w => .error (.mismatch (typeOf w) .u32)

/-- `variant.try_get::<u64>()`. -/
def tryGetU64 : GVariant → Except GErr Nat
  | .u64 n => .ok n
  | w => .error (.mismatch (typeOf w) .u64)

/-- `variant.try_get::<i16>()`. -/
def tryGetI16 : GVariant → Except GErr Int
  | .i16 n => .ok n
  | w => .error (.mismatch (typeOf w) .i16)

/-- `variant.try_get::<i32>()`. -/
def tryGetI32 : GVariant → Except GErr Int
  | .i32 n => .ok n
  | w => .error (.mismatch (typeOf w) .i32)

/-- `variant.try_get::<i64>()`. -/
def tryGetI64 : GVariant → Except GErr Int
  | .i64 n => .ok n
  | w => .error (.mismatch (typeOf w) .i64)

/-- `variant.try_get::<f64>()` (bit pattern). -/
def tryGetF64 : GVariant → Except GErr Nat
  | .f64 bits => .ok bits
  | w => .error (.mismatch (typeOf w) .f64)

/-- `variant.try_get::<()>()`. -/
def tryGetUnit : GVariant → Except GErr Unit
  | .tuple [] => .ok ()
  | w => .error (.mismatch (typeOf w) (.tuple []))

/-- `VariantTypeNode` (`src/variant_type.rs`): a wire type together with the
child node for every structurally ambiguous position. -/
inductive VariantTypeNode where
  | mk (ty : VarTy) (children : List VariantTypeNode)

/-- The node's own type (`VariantTypeNode::type_`). -/
def VariantTypeNode.ty : VariantTypeNode → VarTy
  | .mk t _ => t

/-- The node's child nodes (`VariantTypeNode::child_types`). -/
def VariantTypeNode.children : VariantTypeNode → List VariantTypeNode
  | .mk _ cs => cs

/-- `child_type_or_default` (`src/variant/serializer.rs`): the declared child
node at `index` when present, else a childless node derived from the parent
signature (array/maybe element, dict-entry key/value, `index`-th tuple
component), else the wildcard node. -/
def childTypeOrDefault (node : VariantTypeNode) (index : Nat) : VariantTypeNode :=
  match node.children[index]? with
  | some c => c
  | none =>
    let t := node.ty
    let derived : Option VarTy :=
      if t.isArrayTy || t.isMaybeTy then
        match t.element with
        | .dictEntry k v =>
          if index = 0 then some k else if index = 1 then some v else none
        | e => if index = 0 then some e else none
      else
        match t with
        | .tuple ts => ts[index]?
        | _ => none
    match derived with
    | some t => .mk t []
    | none => .mk .anyTy []

/-- `VariantTag` (`src/variant/serializer.rs`): the transient enum tag. -/
inductive VariantTag where
  | strT (s : String)
  | i16T (n : Int)
  | i32T (n : Int)
  | i64T (n : Int)
  | u8T (n : Nat)
  | u16T (n : Nat)
  | u32T (n : Nat)
  | u64T (n : Nat)

/-- `impl ToVariant for VariantTag`. -/
def VariantTag.toVariant : VariantTag → GVariant
  | .strT s => .str s
  | .i16T n => .i16 n
  | .i32T n => .i32 n
  | .i64T n => .i64 n
  | .u8T n => .u8 n
  | .u16T n => .u16 n
  | .u32T n => .u32 n
  | .u64T n => .u64 n

/-- `Serializer::variant_tag`: pick the tag type (first tuple component for a
data-carrying enum node, the node type itself otherwise) and convert the
`u32` variant index accordingly; a failed `try_into` is `Error::Int`, an
unmapped tag type is `Error::InvalidTag`. -/
def variantTag (node : VariantTypeNode) (variantIndex : Nat) (variant : String) :
    Except GErr (VariantTag × Option VariantTypeNode) := do
  let ty := node.ty
  let (tagTy, valueTy) ←
    match ty with
    | .tuple ts =>
      match ts.head? with
      | some t => pure (t, some (childTypeOrDefault node variantIndex))
      | none => throw (GErr.unsupportedType ty)
    | t => pure (t, (none : Option VariantTypeNode))
  let tag ←
    match tagTy with
    | .str => pure (VariantTag.strT variant)
    | .i16 =>
      if variantIndex < 2 ^ 15 then pure (VariantTag.i16T variantIndex)
      else throw GErr.intErr
    | .i32 =>
      if variantIndex < 2 ^ 31 then pure (VariantTag.i32T variantIndex)
      else throw GErr.intErr
    | .i64 => pure (VariantTag.i64T variantIndex)
    | .byte =>
      if variantIndex < 2 ^ 8 then pure (VariantTag.u8T variantIndex)
      else throw GErr.intErr
    | .u16 =>
      if variantIndex < 2 ^ 16 then pure (VariantTag.u16T variantIndex)
      else throw GErr.intErr
    | .u32 => pure (VariantTag.u32T variantIndex)
    | .u64 => pure (VariantTag.u64T variantIndex)
    | t => throw (GErr.invalidTag t)
  pure (tag, valueTy)

/-- The nine fixed-width element codes of the array fast paths. -/
inductive FixedCode where
  | y | q | u | t | n | i | x | d | b
  deriving DecidableEq, Repr

/-- The wire type each fast-path code stands for. -/
def FixedCode.toTy : FixedCode → VarTy
  | .y => .byte
  | .q => .u16
  | .u => .u32
  | .t => .u64
  | .n => .i16
  | .i => .i32
  | .x => .i64
  | .d => .f64
  | .b => .bool

/-- The `match ty.element().as_str()` dispatch shared by `serialize_seq` and
`deserialize_seq`: which fast-path code (if any) an element type selects. -/
def codeOfTy : VarTy → Option FixedCode
  | .byte => some .y
  | .u16 => some .q
  | .u32 => some .u
  | .u64 => some .t
  | .i16 => some .n
  | .i32 => some .i
  | .i64 => some .x
  | .f64 => some .d
  | .bool => some .b
  | _ => none

/-- Two's-complement reinterpretation of `x` (reduced mod `2^w`) as signed. -/
def toSigned (w : Nat) (x : Nat) : Int :=
  if x % 2 ^ w < 2 ^ (w - 1) then ((x % 2 ^ w : Nat) : Int)
  else ((x % 2 ^ w : Nat) : Int) - 2 ^ w

/-- serde's data model, serialize side: one constructor per
`serde::Serializer` entry point reachable from derived `Serialize`
implementations in this crate (there is no `VariantType` impl for `i8`,
`f32`, `char` or raw byte slices, so those entry points are unreachable and
omitted).  Integers carry mathematical values (well-formedness bounds them to
machine ranges); `vF64` carries IEEE-754 bits.  Struct field names are
omitted because `serialize_field` discards its `_key` argument.  The crate's
own `glib_serde::$Variant`/`$ObjectPath`/`$Signature` marker structs are
outside this fragment (their `STRUCT_NAME`s contain `::`/`$` and can never
collide with a derived type's identifier). -/
inductive SerdeVal where
  | vBool (b : Bool)
  | vI16 (n : Int)
  | vI32 (n : Int)
  | vI64 (n : Int)
  | vU8 (n : Nat)
  | vU16 (n : Nat)
  | vU32 (n : Nat)
  | vU64 (n : Nat)
  | vF64 (bits : Nat)
  | vStr (s : String)
  | vUnit
  | vNone
  | vSome (v : SerdeVal)
  | vNewtypeStruct (name : String) (v : SerdeVal)
  | vUnitVariant (name : String) (idx : Nat) (vname : String)
  | vNewtypeVariant (name : String) (idx : Nat) (vname : String) (v : SerdeVal)
  | vSeq (vs : List SerdeVal)
  | vTuple (vs : List SerdeVal)
  | vStruct (name : String) (fields : List SerdeVal)
  | vTupleVariant (name : String) (idx : Nat) (vname : String) (vs : List SerdeVal)
  | vMap (entries : List (SerdeVal × SerdeVal))

/-- `U64Serializer`: scalar-to-`u64` conversion used by the fixed-array fast
path (`v as u64` for integers and booleans, `f64::to_bits` for doubles;
every other shape is rejected with `Error::Custom`). -/
def u64Serialize : SerdeVal → Except GErr Nat
  | .vBool b => .ok (if b then 1 else 0)
  | .vI16 v => .ok ((v % (2 ^ 64 : Int)).toNat)
  | .vI32 v => .ok ((v % (2 ^ 64 : Int)).toNat)
  | .vI64 v => .ok ((v % (2 ^ 64 : Int)).toNat)
  | .vU8 v => .ok v
  | .vU16 v => .ok v
  | .vU32 v => .ok v
  | .vU64 v => .ok v
  | .vF64 bits => .ok bits
  | _ => .error (.custom "Invalid type")

/-- The per-arm narrowing applied to the `U64Serializer` result inside
`SerializeSeq::serialize_element` (`as u8` … `as i64`, `f64::from_bits`,
`!= 0`), yielding the stored fixed-array element. -/
def castFromU64 : FixedCode → Nat → GVariant
  | .y, v => .u8 (v % 2 ^ 8)
  | .q, v => .u16 (v % 2 ^ 16)
  | .u, v => .u32 (v % 2 ^ 32)
  | .t, v => .u64 (v % 2 ^ 64)
  | .n, v => .i16 (toSigned 16 v)
  | .i, v => .i32 (toSigned 32 v)
  | .x, v => .i64 (toSigned 64 v)
  | .d, v => .f64 (v % 2 ^ 64)
  | .b, v => .bool (v ≠ 0)

/-- One fast-path element: `U64Serializer` then the width cast. -/
def serializeFixedElem (c : FixedCode) (v : SerdeVal) : Except GErr GVariant :=
  (u64Serialize v).map (castFromU64 c)

/-- All fast-path elements of a sequence. -/
def serializeFixedElems (c : FixedCode) : List SerdeVal → Except GErr (List GVariant)
  | [] => .ok []
  | v :: vs => do
    let w ← serializeFixedElem c v
    let ws ← serializeFixedElems c vs
    .ok (w :: ws)

/-- A character allowed inside an object-path segment. -/
def isPathChar (c : Char) : Bool :=
  c.isAlphanum || c = '_'

mutual
/-- Modelled from the spec: continuation of an object path after a `/`,
expecting a nonempty segment (external `g_variant_is_object_path`). -/
def objectPathSeg : List Char → Bool
  | [] => false
  | c :: cs => isPathChar c && objectPathRest cs

/-- Modelled from the spec: remainder of an object-path segment. -/
def objectPathRest : List Char → Bool
  | [] => true
  | '/' :: cs => objectPathSeg cs
  | c :: cs => isPathChar c && objectPathRest cs
end

/-- Modelled from the spec: the external container library's object-path
well-formedness predicate (`g_variant_is_object_path`), used by
`ObjectPath::new`. -/
def isValidObjectPath (s : String) : Bool :=
  match s.data with
  | ['/'] => true
  | '/' :: cs => objectPathSeg cs
  | _ => false

mutual
/-- Modelled from the spec: one complete definite GVariant type consumed from
a character list, with fuel (external `g_variant_is_signature`). -/
def parseOneTy : Nat → List Char → Option (List Char)
  | 0, _ => none
  | _ + 1, [] => none
  | fuel + 1, c :: cs =>
    match c with
    | 'b' | 'y' | 'n' | 'q' | 'i' | 'u' | 'x' | 't' | 'd' | 'h'
    | 's' | 'o' | 'g' | 'v' => some cs
    | 'm' => parseOneTy fuel cs
    | 'a' => parseOneTy fuel cs
    | '(' => parseTupleTys fuel cs
    | '{' =>
      match parseOneTy fuel cs with
      | some cs₁ =>
        match parseOneTy fuel cs₁ with
        | some ('}' :: cs₂) => some cs₂
        | _ => none
      | none => none
    | _ => none

/-- Modelled from the spec: tuple components up to the closing parenthesis. -/
def parseTupleTys : Nat → List Char → Option (List Char)
  | 0, _ => none
  | _ + 1, [] => none
  | fuel + 1, c :: cs =>
    if c = ')' then some cs
    else
      match parseOneTy (fuel + 1) (c :: cs) with
      | some cs₁ => parseTupleTys fuel cs₁
      | none => none
end

/-- Modelled from the spec: the external `g_variant_is_signature` predicate
used by `Signature::new` (any concatenation of complete types). -/
def isValidSignature (s : String) : Bool :=
  go (s.data.length + 1) s.data
where
  /-- Consume complete types until the input is exhausted. -/
  go : Nat → List Char → Bool
    | 0, _ => false
    | _ + 1, [] => true
    | fuel + 1, cs =>
      match parseOneTy (cs.length + 1) cs with
      | some cs₁ => go fuel cs₁
      | none => false

/-- `object_path::STRUCT_NAME`. -/
def objectPathStructName : String := "glib_serde::$ObjectPath"

/-- `signature::STRUCT_NAME`. -/
def signatureStructName : String := "glib_serde::$Signature"

/-- `GlibVariantExt::array_from_variant_iter`: asserts the target type is an
array and every child matches its element type (assertion failures are
panics, not `Error`s). -/
def arrayFromVariantIter (ty : VarTy) (ws : List GVariant) : Except GErr GVariant :=
  match ty with
  | .array e =>
    if ws.all fun w => tyMatches (typeOf w) e then .ok (.array e ws)
    else .error (.panicked "array_from_variant_iter: element type mismatch")
  | _ => .error (.panicked "array_from_variant_iter: not an array type")

mutual
/-- The serializer (`impl ser::Serializer for Serializer` together with its
`SeqSerializer`, `TupleSerializer`, `TupleVariantSerializer` and
`MapSerializer` helpers, `src/variant/serializer.rs`).  The node argument is
the `VariantTypeNode` state of the `Serializer`. -/
def serialize : SerdeVal → VariantTypeNode → Except GErr GVariant
  | .vBool b, _ => .ok (.bool b)
  | .vI16 v, _ => .ok (.i16 v)
  | .vI32 v, _ => .ok (.i32 v)
  | .vI64 v, _ => .ok (.i64 v)
  | .vU8 v, _ => .ok (.u8 v)
  | .vU16 v, _ => .ok (.u16 v)
  | .vU32 v, _ => .ok (.u32 v)
  | .vU64 v, _ => .ok (.u64 v)
  | .vF64 bits, _ => .ok (.f64 bits)
  | .vStr s, node =>
    match node.ty with
    | .objPath =>
      if isValidObjectPath s then .ok (.objPath s)
      else .error (.boolErr "Invalid object path")
    | .sig =>
      if isValidSignature s then .ok (.sig s)
      else .error (.boolErr "Invalid signature")
    | .str => .ok (.str s)
    | .anyTy => .ok (.str s)
    | t => .error (.strMismatch t)
  | .vUnit, _ => .ok (.tuple [])
  | .vNone, node =>
    .ok (.maybe (childTypeOrDefault node 0).ty none)
  | .vSome v, node => do
    let child := childTypeOrDefault node 0
    let w ← serialize v child
    let _ ← isOfType w child.ty
    .ok (.maybe (typeOf w) (some w))
  | .vNewtypeStruct name v, node =>
    if name = objectPathStructName then serialize v (.mk .objPath [])
    else if name = signatureStructName then serialize v (.mk .sig [])
    else serialize v node
  | .vUnitVariant _ idx vname, node => do
    let (tag, valueTy) ← variantTag node idx vname
    if valueTy.isSome then .ok (.tuple [tag.toVariant, .box (.tuple [])])
    else .ok tag.toVariant
  | .vNewtypeVariant _ idx vname v, node => do
    let (tag, _) ← variantTag node idx vname
    let w ← serialize v node
    .ok (.tuple [tag.toVariant, .box w])
  | .vSeq vs, node =>
    match node.ty with
    | .array e =>
      match codeOfTy e with
      | some c => do
        let ws ← serializeFixedElems c vs
        .ok (.array e ws)
      | none => do
        let ws ← serializeList vs (childTypeOrDefault node 0)
        arrayFromVariantIter node.ty ws
    | _ => do
      let ws ← serializeList vs (childTypeOrDefault node 0)
      arrayFromVariantIter node.ty ws
  | .vTuple vs, node => do
    let ws ← serializeTupleElems node 0 vs
    .ok (.tuple ws)
  | .vStruct _ fields, node => do
    let ws ← serializeTupleElems node 0 fields
    .ok (.tuple ws)
  | .vTupleVariant _ idx vname vs, node => do
    let (tag, valueTy) ← variantTag node idx vname
    match valueTy with
    | some valueNode => do
      let ws ← serializeTupleElems valueNode 0 vs
      .ok (.tuple [tag.toVariant, .box (.tuple ws)])
    | none => throw (GErr.unsupportedType node.ty)
  | .vMap entries, node => do
    let ws ← serializeMapEntries node entries
    arrayFromVariantIter node.ty ws

/-- `SerializeSeq::serialize_element` over the generic (`Variant`) arm:
every element is serialized against the declared (or derived) element node. -/
def serializeList : List SerdeVal → VariantTypeNode → Except GErr (List GVariant)
  | [], _ => .ok []
  | v :: vs, child => do
    let w ← serialize v child
    let ws ← serializeList vs child
    .ok (w :: ws)

/-- `TupleSerializer::serialize_element` iterated from position `i`: element
`i` is serialized against `child_type_or_default(node, i)`.  The
`glib_serde::$Variant` `STRUCT_NAME` branch is outside the modelled fragment
(derived struct names are Rust identifiers and can never equal it). -/
def serializeTupleElems (node : VariantTypeNode) (i : Nat) :
    List SerdeVal → Except GErr (List GVariant)
  | [] => .ok []
  | v :: vs => do
    let w ← serialize v (childTypeOrDefault node i)
    let ws ← serializeTupleElems node (i + 1) vs
    .ok (w :: ws)

/-- `MapSerializer::serialize_entry`: the key against child 0, the value
against child 1, paired with `from_dict_entry`. -/
def serializeMapEntries (node : VariantTypeNode) :
    List (SerdeVal × SerdeVal) → Except GErr (List GVariant)
  | [] => .ok []
  | (k, v) :: es => do
    let kw ← serialize k (childTypeOrDefault node 0)
    let vw ← serialize v (childTypeOrDefault node 1)
    let ws ← serializeMapEntries node es
    .ok (.dictEntry kw vw :: ws)
end

/-- `variant::STRUCT_NAME` (the `glib_serde::$Variant` marker). -/
def variantStructName : String := "glib_serde::$Variant"

/-- Enum tagging mode in the modelled fragment: default name tagging or
`glib_serde_variant_index` ordinal tagging.  (`glib_serde_repr` tagging is
modelled separately through `tagForRepr`.) -/
inductive TagMode where
  | nameTag
  | indexTag
  deriving DecidableEq, Repr

mutual
/-- Concrete Rust data-type shapes of the modelled fragment: the types for
which the crate provides both `VariantType` (derive macro or built-in impl)
and serde implementations.  There is no `i8`/`f32`/`char` shape because the
crate has no `VariantType` impl for them. -/
inductive Shape where
  | sBool
  | sI16
  | sI32
  | sI64
  | sU8
  | sU16
  | sU32
  | sU64
  | sF64
  | sStr
  | sUnit
  | sOption (s : Shape)
  | sSeq (s : Shape)
  | sTuple (ss : List Shape)
  | sNewtype (name : String) (s : Shape)
  | sStruct (name : String) (fields : List Shape)
  | sMap (k v : Shape)
  | sEnum (name : String) (mode : TagMode) (variants : List (String × VariantShape))

/-- Enum variant payload shapes: unit, newtype (single unnamed field), or a
field list (tuple and struct variants follow identical serializer and
deserializer code paths). -/
inductive VariantShape where
  | unitV
  | newtypeV (s : Shape)
  | fieldsV (ss : List Shape)
end

/-- Is the variant payload the unit payload? -/
def VariantShape.isUnit : VariantShape → Bool
  | .unitV => true
  | _ => false

/-- The derive macro's `has_data` test: does any variant carry data? -/
def hasData (variants : List (String × VariantShape)) : Bool :=
  variants.any fun p => !p.2.isUnit

/-- The tag type of a tagging mode (`STRING` default, `UINT32` for
`glib_serde_variant_index`). -/
def tagTyOf : TagMode → VarTy
  | .nameTag => .str
  | .indexTag => .u32

mutual
/-- `VariantType::variant_type` for a shape: the node produced by the derive
macro (`impl_variant_type`/`impl_for_fields`) and the built-in impls of
`src/variant_type.rs`.  Single-field structs (named or unnamed) are
transparent: the node type is the field's type and the field's node is the
sole child. -/
def nodeOf : Shape → VariantTypeNode
  | .sBool => .mk .bool []
  | .sI16 => .mk .i16 []
  | .sI32 => .mk .i32 []
  | .sI64 => .mk .i64 []
  | .sU8 => .mk .byte []
  | .sU16 => .mk .u16 []
  | .sU32 => .mk .u32 []
  | .sU64 => .mk .u64 []
  | .sF64 => .mk .f64 []
  | .sStr => .mk .str []
  | .sUnit => .mk (.tuple []) []
  | .sOption s => .mk (.maybe (nodeOf s).ty) [nodeOf s]
  | .sSeq s => .mk (.array (nodeOf s).ty) [nodeOf s]
  | .sTuple ss => .mk (.tuple ((nodesOf ss).map VariantTypeNode.ty)) (nodesOf ss)
  | .sNewtype _ s => .mk (nodeOf s).ty [nodeOf s]
  | .sStruct _ fields =>
    match fields with
    | [f] => .mk (nodeOf f).ty [nodeOf f]
    | fs => .mk (.tuple ((nodesOf fs).map VariantTypeNode.ty)) (nodesOf fs)
  | .sMap k v =>
    .mk (.array (.dictEntry (nodeOf k).ty (nodeOf v).ty)) [nodeOf k, nodeOf v]
  | .sEnum _ mode variants =>
    if hasData variants then
      .mk (.tuple [tagTyOf mode, .variant]) (variantNodes variants)
    else .mk (tagTyOf mode) []

/-- Nodes of a list of shapes. -/
def nodesOf : List Shape → List VariantTypeNode
  | [] => []
  | s :: ss => nodeOf s :: nodesOf ss

/-- Per-variant payload nodes (one per variant, in declaration order). -/
def variantNodes : List (String × VariantShape) → List VariantTypeNode
  | [] => []
  | (_, vs) :: rest => variantNode vs :: variantNodes rest

/-- `impl_for_fields` applied to one variant's fields. -/
def variantNode : VariantShape → VariantTypeNode
  | .unitV => .mk (.tuple []) []
  | .newtypeV s => .mk (nodeOf s).ty [nodeOf s]
  | .fieldsV ss =>
    match ss with
    | [f] => .mk (nodeOf f).ty [nodeOf f]
    | fs => .mk (.tuple ((nodesOf fs).map VariantTypeNode.ty)) (nodesOf fs)
end

/-- `to_variant` (`src/variant/serializer.rs`): serialize a value against its
type's statically computed node. -/
def toVariant (s : Shape) (v : SerdeVal) : Except GErr GVariant :=
  serialize v (nodeOf s)

/-- `Variant::fixed_array::<T>`: requires an array of exactly the fixed
element type and yields the scalar elements (the element check is a glib
invariant and cannot fail on values the library itself constructs). -/
def fixedArray (c : FixedCode) (w : GVariant) : Except GErr (List GVariant) :=
  match w with
  | .array e vs =>
    if (codeOfTy e == some c) && vs.all fun v => codeOfTy (typeOf v) == some c then
      .ok vs
    else .error (.mismatch (typeOf (.array e vs)) (.array c.toTy))
  | w => .error (.mismatch (typeOf w) (.array c.toTy))

/-- serde's `IntoDeserializer` for one fixed-array scalar feeding the target
shape's visitor: matching widths visit the value exactly.  Cross-width
combinations (which serde's std visitors would range-check and convert) are
not exercised by any claim and map to `Error::Custom`. -/
def decodePrim : Shape → GVariant → Except GErr SerdeVal
  | .sBool, .bool b => .ok (.vBool b)
  | .sU8, .u8 n => .ok (.vU8 n)
  | .sU16, .u16 n => .ok (.vU16 n)
  | .sU32, .u32 n => .ok (.vU32 n)
  | .sU64, .u64 n => .ok (.vU64 n)
  | .sI16, .i16 n => .ok (.vI16 n)
  | .sI32, .i32 n => .ok (.vI32 n)
  | .sI64, .i64 n => .ok (.vI64 n)
  | .sF64, .f64 bits => .ok (.vF64 bits)
  | _, _ => .error (.custom "invalid type")

/-- All elements of a fixed-array slice decoded into the element shape. -/
def decodePrims (s : Shape) : List GVariant → Except GErr (List SerdeVal)
  | [] => .ok []
  | p :: ps => do
    let x ← decodePrim s p
    let xs ← decodePrims s ps
    .ok (x :: xs)

/-- The derived field visitor reading fixed-array scalars positionally. -/
def decodeFieldsPrim : List Shape → List GVariant → Except GErr (List SerdeVal)
  | [], _ => .ok []
  | s :: ss, p :: ps => do
    let x ← decodePrim s p
    let xs ← decodeFieldsPrim ss ps
    .ok (x :: xs)
  | _ :: _, [] => .error (.custom "invalid length")

/-- First variant index with the given name. -/
def findVariant (variants : List (String × VariantShape)) (s : String) : Option Nat :=
  variants.findIdx? fun p => p.1 == s

/-- The variant-identifier step: `deserialize_identifier` dispatches on the
tag value's classification (unsigned integers and strings reach the derived
identifier visitor, which matches declaration indices and variant names;
signed tags fall into the visitor's default rejection; other categories are
`UnsupportedType`). -/
def decodeIdent (variants : List (String × VariantShape)) (w : GVariant) :
    Except GErr Nat :=
  match w with
  | .u8 n | .u16 n | .u32 n | .u64 n =>
    if n < variants.length then .ok n else .error (.custom "invalid variant index")
  | .str s =>
    match findVariant variants s with
    | some i => .ok i
    | none => .error (.custom "unknown variant")
  | .i16 _ | .i32 _ | .i64 _ => .error (.custom "invalid type")
  | w => .error (.unsupportedType (typeOf w))

/-- `EnumDeserializer::value`: child 1 unboxed, else `UnsupportedType`. -/
def enumValue (w : GVariant) : Except GErr GVariant :=
  match (tryChildValue w 1).bind asVariant with
  | some v => .ok v
  | none => .error (.unsupportedType (typeOf w))

mutual
/-- Computable structural size of a shape (fuel measure for the embedded
deserializer). -/
def shapeSize : Shape → Nat
  | .sOption s => shapeSize s + 1
  | .sSeq s => shapeSize s + 1
  | .sTuple ss => shapeSizes ss + 1
  | .sNewtype _ s => shapeSize s + 1
  | .sStruct _ fs => shapeSizes fs + 1
  | .sMap k v => shapeSize k + shapeSize v + 1
  | .sEnum _ _ vars => variantSizes vars + 1
  | _ => 1

/-- Combined size of a shape list. -/
def shapeSizes : List Shape → Nat
  | [] => 0
  | s :: ss => shapeSize s + shapeSizes ss + 1

/-- Combined size of a variant list. -/
def variantSizes : List (String × VariantShape) → Nat
  | [] => 0
  | (_, p) :: rest => payloadSize p + variantSizes rest + 1

/-- Size of one variant payload. -/
def payloadSize : VariantShape → Nat
  | .unitV => 1
  | .newtypeV s => shapeSize s + 1
  | .fieldsV ss => shapeSizes ss + 1
end

mutual
/-- Computable structural size of a wire value (fuel measure for the embedded
deserializer). -/
def wireSize : GVariant → Nat
  | .maybe _ none => 1
  | .maybe _ (some v) => wireSize v + 1
  | .array _ vs => wireSizes vs + 1
  | .tuple vs => wireSizes vs + 1
  | .dictEntry k v => wireSize k + wireSize v + 1
  | .box v => wireSize v + 1
  | _ => 1

/-- Combined size of a wire-value list. -/
def wireSizes : List GVariant → Nat
  | [] => 0
  | v :: vs => wireSize v + wireSizes vs + 1
end

mutual
/-- The derived `Deserialize` implementation for a shape driving
`de::Deserializer for &Variant` (`src/variant/deserializer.rs`): scalar
targets call their typed entry points (`try_get` of the exact width), string
targets `deserialize_string`, options `deserialize_option`, sequences
`deserialize_seq` (fast fixed-array slices or the `ContainerDeserializer`),
maps `deserialize_map`, tuples and structs `deserialize_tuple` with an arity
check, and enums `deserialize_enum` with the
`EnumDeserializer`/`UnitEnumDeserializer` state machines.

The `fuel` argument is an embedding device making the general recursion
structural (the source recursion terminates because every recursive call
processes a strict subterm of the shape or the wire value); `fromVariant`
supplies a sufficient bound, and the decode lemmas quantify over every
sufficient bound. -/
def deserializeF : Nat → Shape → GVariant → Except GErr SerdeVal
  | 0, _, _ => .error (.custom "recursion fuel exhausted")
  | fuel + 1, shape, w =>
    match shape, w with
    | .sBool, w => (tryGetBool w).map SerdeVal.vBool
    | .sI16, w => (tryGetI16 w).map SerdeVal.vI16
    | .sI32, w => (tryGetI32 w).map SerdeVal.vI32
    | .sI64, w => (tryGetI64 w).map SerdeVal.vI64
    | .sU8, w => (tryGetU8 w).map SerdeVal.vU8
    | .sU16, w => (tryGetU16 w).map SerdeVal.vU16
    | .sU32, w => (tryGetU32 w).map SerdeVal.vU32
    | .sU64, w => (tryGetU64 w).map SerdeVal.vU64
    | .sF64, w => (tryGetF64 w).map SerdeVal.vF64
    | .sStr, w =>
      match strOf w with
      | some s => .ok (.vStr s)
      | none => .error (.strMismatch (typeOf w))
    | .sUnit, w => (tryGetUnit w).map fun _ => SerdeVal.vUnit
    | .sOption s, w => do
      let _ ← isOfType w (.maybe .anyTy)
      match w with
      | .maybe _ none => .ok .vNone
      | .maybe _ (some c) => (deserializeF fuel s c).map SerdeVal.vSome
      | _ => .error (.custom "unreachable: maybe() after is_of_type")
    | .sSeq s, w =>
      match w with
      | .array e vs =>
        match codeOfTy e with
        | some c => do
          let prims ← fixedArray c (.array e vs)
          (decodePrims s prims).map SerdeVal.vSeq
        | none => (deserializeListF fuel s vs).map SerdeVal.vSeq
      | .tuple vs => (deserializeListF fuel s vs).map SerdeVal.vSeq
      | w => .error (.unsupportedType (typeOf w))
    | .sTuple ss, w => (deserializeTupleAsF fuel ss w).map SerdeVal.vTuple
    | .sNewtype name s, w => (deserializeF fuel s w).map (SerdeVal.vNewtypeStruct name)
    | .sStruct name fields, w =>
      (deserializeTupleAsF fuel fields w).map (SerdeVal.vStruct name)
    | .sMap k v, w => do
      let _ ← isOfType w (.array (.dictEntry .anyBasic .anyTy))
      match w with
      | .array _ entries => (deserializeEntriesF fuel k v entries).map SerdeVal.vMap
      | _ => .error (.custom "unreachable: dictionary after is_of_type")
    | .sEnum ename _ variants, w =>
      if isContainer w then do
        let tag ←
          match tryChildValue w 0 with
          | some t => pure t
          | none => throw (GErr.unsupportedType (typeOf w))
        let idx ← decodeIdent variants tag
        match variants[idx]? with
        | some (vn, .unitV) => do
          let val ← enumValue w
          let _ ← isOfType val (.tuple [])
          .ok (.vUnitVariant ename idx vn)
        | some (vn, .newtypeV s) => do
          let val ← enumValue w
          (deserializeF fuel s val).map (SerdeVal.vNewtypeVariant ename idx vn)
        | some (vn, .fieldsV ss) => do
          let val ← enumValue w
          match val with
          | .array e vs =>
            match codeOfTy e with
            | some c => do
              let prims ← fixedArray c (.array e vs)
              (decodeFieldsPrim ss prims).map (SerdeVal.vTupleVariant ename idx vn)
            | none => (decodeFieldsF fuel ss vs).map (SerdeVal.vTupleVariant ename idx vn)
          | .tuple vs => (decodeFieldsF fuel ss vs).map (SerdeVal.vTupleVariant ename idx vn)
          | val => .error (.unsupportedType (typeOf val))
        | none => .error (.custom "unknown variant")
      else do
        let idx ← decodeIdent variants w
        match variants[idx]? with
        | some (vn, .unitV) => .ok (.vUnitVariant ename idx vn)
        | some _ => .error (.unsupportedType (typeOf w))
        | none => .error (.custom "unknown variant")
termination_by structural fuel => fuel

/-- One seed per element, over the `ContainerDeserializer` child stream. -/
def deserializeListF : Nat → Shape → List GVariant → Except GErr (List SerdeVal)
  | 0, _, _ => .error (.custom "recursion fuel exhausted")
  | _ + 1, _, [] => .ok []
  | fuel + 1, s, v :: vs => do
    let x ← deserializeF fuel s v
    let xs ← deserializeListF fuel s vs
    .ok (x :: xs)
termination_by structural fuel _ _ => fuel

/-- `deserialize_tuple(len)`: tuple type check, arity check against
`n_children`, then positional children consumed by the derived visitor with
one seed per component shape. -/
def deserializeTupleAsF : Nat → List Shape → GVariant → Except GErr (List SerdeVal)
  | 0, _, _ => .error (.custom "recursion fuel exhausted")
  | fuel + 1, ss, w => do
    let _ ← isOfType w .anyTuple
    if nChildren w ≠ ss.length then
      throw (GErr.lengthMismatch (nChildren w) ss.length)
    else
      match w with
      | .tuple vs => decodeFieldsF fuel ss vs
      | _ => throw (GErr.custom "unreachable: tuple after is_of_type")
termination_by structural fuel _ _ => fuel

/-- The derived field visitor reading children positionally (extra children
are simply not read; a missing child is an invalid-length error). -/
def decodeFieldsF : Nat → List Shape → List GVariant → Except GErr (List SerdeVal)
  | 0, _, _ => .error (.custom "recursion fuel exhausted")
  | _ + 1, [], _ => .ok []
  | fuel + 1, s :: ss, v :: vs => do
    let x ← deserializeF fuel s v
    let xs ← decodeFieldsF fuel ss vs
    .ok (x :: xs)
  | _ + 1, _ :: _, [] => .error (.custom "invalid length")
termination_by structural fuel _ _ => fuel

/-- `MapAccess::next_entry_seed` over the entry stream. -/
def deserializeEntriesF :
    Nat → Shape → Shape → List GVariant → Except GErr (List (SerdeVal × SerdeVal))
  | 0, _, _, _ => .error (.custom "recursion fuel exhausted")
  | _ + 1, _, _, [] => .ok []
  | fuel + 1, k, v, e :: es =>
    match e with
    | .dictEntry kw vw => do
      let kx ← deserializeF fuel k kw
      let vx ← deserializeF fuel v vw
      let rest ← deserializeEntriesF fuel k v es
      .ok ((kx, vx) :: rest)
    | _ => .error (.custom "unreachable: non-dict-entry in dictionary")
termination_by structural fuel _ _ _ => fuel
end

/-- `from_variant` (`src/variant/deserializer.rs`): run the derived
`Deserialize` for the target shape on a wire value. -/
def fromVariant (s : Shape) (w : GVariant) : Except GErr SerdeVal :=
  deserializeF (2 * (shapeSize s + wireSize w)) s w

mutual
/-- Does a serde value inhabit a shape, with machine-integer ranges respected
and enum data consistent with the declaration?  These are exactly the values
a well-typed Rust value of the shape can present to the serializer. -/
def wfVal : Shape → SerdeVal → Bool
  | .sBool, .vBool _ => true
  | .sI16, .vI16 n => decide (-(2 ^ 15) ≤ n) && decide (n < 2 ^ 15)
  | .sI32, .vI32 n => decide (-(2 ^ 31) ≤ n) && decide (n < 2 ^ 31)
  | .sI64, .vI64 n => decide (-(2 ^ 63) ≤ n) && decide (n < 2 ^ 63)
  | .sU8, .vU8 n => decide (n < 2 ^ 8)
  | .sU16, .vU16 n => decide (n < 2 ^ 16)
  | .sU32, .vU32 n => decide (n < 2 ^ 32)
  | .sU64, .vU64 n => decide (n < 2 ^ 64)
  | .sF64, .vF64 b => decide (b < 2 ^ 64)
  | .sStr, .vStr _ => true
  | .sUnit, .vUnit => true
  | .sOption _, .vNone => true
  | .sOption s, .vSome v => wfVal s v
  | .sSeq s, .vSeq vs => wfValList s vs
  | .sTuple ss, .vTuple vs => wfValZip ss vs
  | .sNewtype name s, .vNewtypeStruct name' v => name' == name && wfVal s v
  | .sStruct name fields, .vStruct name' vs => name' == name && wfValZip fields vs
  | .sMap k v, .vMap entries => wfValEntries k v entries
  | .sEnum ename _ variants, .vUnitVariant n i vn =>
    match variants[i]? with
    | some (vn', .unitV) => n == ename && vn' == vn
    | _ => false
  | .sEnum ename _ variants, .vNewtypeVariant n i vn v =>
    match variants[i]? with
    | some (vn', .newtypeV s) => n == ename && vn' == vn && wfVal s v
    | _ => false
  | .sEnum ename _ variants, .vTupleVariant n i vn vs =>
    match variants[i]? with
    | some (vn', .fieldsV ss) => n == ename && vn' == vn && wfValZip ss vs
    | _ => false
  | _, _ => false

/-- All elements well formed at the element shape. -/
def wfValList (s : Shape) : List SerdeVal → Bool
  | [] => true
  | v :: vs => wfVal s v && wfValList s vs

/-- Positional well-formedness of a field list. -/
def wfValZip : List Shape → List SerdeVal → Bool
  | [], [] => true
  | s :: ss, v :: vs => wfVal s v && wfValZip ss vs
  | _, _ => false

/-- Entrywise well-formedness of map entries. -/
def wfValEntries (k v : Shape) : List (SerdeVal × SerdeVal) → Bool
  | [] => true
  | (kx, vx) :: es => wfVal k kx && wfVal v vx && wfValEntries k v es
end

/-- A shape whose serialization reads nothing from the serializer node at all
(plain integers, doubles, booleans, unit): the only payload shapes that
survive `serialize_newtype_variant`, which serializes the payload against the
enum's own node. -/
def nodeBlind : Shape → Bool
  | .sBool | .sI16 | .sI32 | .sI64 | .sU8 | .sU16 | .sU32 | .sU64 | .sF64
  | .sUnit => true
  | _ => false

/-- A shape whose serialization depends only on the node's type, never on its
children (scalars, strings, unit, fixed-width sequences): safe as a
newtype-struct inner, whose node nests the inner's own node as its sole
child. -/
def childBlind : Shape → Bool
  | .sStr => true
  | .sSeq s => (codeOfTy (nodeOf s).ty).isSome
  | s => nodeBlind s

mutual
/-- Does a successful serialization of the shape produce a wire value of
exactly the node's declared type?  Single-field named structs break this:
their wire value is a 1-tuple while the declared type is the bare field
type. -/
def tyFaithful : Shape → Bool
  | .sTuple ss => tyFaithfulList ss
  | .sStruct _ fields =>
    match fields with
    | [_] => false
    | fs => tyFaithfulList fs
  | .sNewtype _ s => tyFaithful s
  | _ => true

/-- All components type-faithful. -/
def tyFaithfulList : List Shape → Bool
  | [] => true
  | s :: ss => tyFaithful s && tyFaithfulList ss
end

/-- A map key shape must be a basic wire type. -/
def basicKey (s : Shape) : Bool :=
  (nodeOf s).ty.isBasic

/-- The nine bare fixed-width scalar shapes. -/
def scalarShape : Shape → Bool
  | .sBool | .sI16 | .sI32 | .sI64 | .sU8 | .sU16 | .sU32 | .sU64 | .sF64 => true
  | _ => false

/-- A sequence element shape is fast-path compatible when its declared type
selecting a fixed-array code implies the shape IS that bare scalar: a
transparent wrapper over a scalar (`Vec<W(i32)>`) declares the scalar type,
sends every element into the fast path's `U64Serializer`, and is rejected
there (`serialize_newtype_struct` is `Error::Custom`), so such sequences
never encode. -/
def fixedCompatible (s : Shape) : Bool :=
  !(codeOfTy (nodeOf s).ty).isSome || scalarShape s

mutual
/-- Structural size of a serde value (induction measure). -/
def valSize : SerdeVal → Nat
  | .vSome v => valSize v + 1
  | .vNewtypeStruct _ v => valSize v + 1
  | .vNewtypeVariant _ _ _ v => valSize v + 1
  | .vSeq vs => valSizes vs + 1
  | .vTuple vs => valSizes vs + 1
  | .vStruct _ vs => valSizes vs + 1
  | .vTupleVariant _ _ _ vs => valSizes vs + 1
  | .vMap es => entrySizes es + 1
  | _ => 1

/-- Combined size of a value list. -/
def valSizes : List SerdeVal → Nat
  | [] => 0
  | v :: vs => valSize v + valSizes vs + 1

/-- Combined size of an entry list. -/
def entrySizes : List (SerdeVal × SerdeVal) → Nat
  | [] => 0
  | (k, v) :: es => valSize k + valSize v + entrySizes es + 1
end

mutual
/-- The modelled supported fragment: shapes for which encode and decode both
work.  The restrictions are forced by the implementation: enum
newtype-variant payloads must ignore the serializer node (`nodeBlind`),
newtype-struct inners must not read node children (`childBlind`),
option/sequence element shapes and map value shapes must be type-faithful
(`tyFaithful`), map keys must be basic, variant names must be distinct for
the name-tagged decode lookup, and derived struct names are Rust identifiers
(never the crate's special `STRUCT_NAME` markers). -/
def supportedShape : Shape → Bool
  | .sBool | .sI16 | .sI32 | .sI64 | .sU8 | .sU16 | .sU32 | .sU64 | .sF64
  | .sStr | .sUnit => true
  | .sOption s => supportedShape s && tyFaithful s
  | .sSeq s => supportedShape s && tyFaithful s && fixedCompatible s
  | .sTuple ss => supportedList ss
  | .sNewtype name s =>
    supportedShape s && childBlind s &&
    name != objectPathStructName && name != signatureStructName
  | .sStruct name fields => supportedList fields && name != variantStructName
  | .sMap k v =>
    supportedShape k && basicKey k && tyFaithful k &&
    supportedShape v && tyFaithful v
  | .sEnum _ _ variants =>
    supportedVariants variants &&
    decide ((variants.map Prod.fst).Nodup) &&
    decide (variants.length ≤ 2 ^ 32)

/-- All components supported. -/
def supportedList : List Shape → Bool
  | [] => true
  | s :: ss => supportedShape s && supportedList ss

/-- All variant payloads supported. -/
def supportedVariants : List (String × VariantShape) → Bool
  | [] => true
  | (_, p) :: rest => supportedPayload p && supportedVariants rest

/-- One variant payload supported. -/
def supportedPayload : VariantShape → Bool
  | .unitV => true
  | .newtypeV s => supportedShape s && nodeBlind s
  | .fieldsV ss => supportedList ss
end

/-- The entry point `deserialize_any` dispatches to, as data: a faithful
projection of the `match self.classify()` in `src/variant/deserializer.rs`.
Note that the source sends `VariantClass::Double` to `self.deserialize_bool`.
(The `Handle` class has no wire-value counterpart in the model; its arm is
the `UnsupportedType` catch-all.) -/
inductive AnyRoute where
  | toBool
  | toU8
  | toI16
  | toU16
  | toI32
  | toU32
  | toI64
  | toU64
  | toStr
  | toUnbox
  | toOption
  | toBytes
  | toMap
  | toSeq
  | toTuple (len : Nat)
  | toUnit
  deriving DecidableEq, Repr

/-- The dispatch of `deserialize_any` (`src/variant/deserializer.rs`,
`match self.classify()`). -/
def anyRoute (w : GVariant) : AnyRoute :=
  match classify w with
  | .boolean => .toBool
  | .byte => .toU8
  | .int16 => .toI16
  | .uint16 => .toU16
  | .int32 => .toI32
  | .uint32 => .toU32
  | .int64 => .toI64
  | .uint64 => .toU64
  | .double => .toBool
  | .string | .objectPath | .signature => .toStr
  | .variant => .toUnbox
  | .maybe => .toOption
  | .array =>
    match (typeOf w).element with
    | .byte => .toBytes
    | .dictEntry _ _ => .toMap
    | _ => .toSeq
  | .tuple => if nChildren w > 0 then .toTuple (nChildren w) else .toUnit
  | .dictEntry => .toTuple 2

/-- Rust `usize` subtraction as it behaves inside the `size_hint`
implementations: underflow is a panic (debug profile), modelled as `none`. -/
def usizeSub (a b : Nat) : Option Nat :=
  if b ≤ a then some (a - b) else none

/-- `ContainerDeserializer::size_hint` (identical formula in
`FixedSeqDeserializer::size_hint` and `VariantDeserializer::size_hint`):
`Some(self.input.n_children() - self.index - 1)`, with `n` the child (or
slice) count and `k` the index of the next unconsumed element. -/
def sizeHintCompute (n k : Nat) : Option (Option Nat) :=
  match usizeSub n k with
  | none => none
  | some a =>
    match usizeSub a 1 with
    | none => none
    | some r => some (some r)

/-- `deserialize_i8` (`src/variant/deserializer.rs`): read a 16-bit signed
wire value (`try_get::<i16>`) and narrow it with `try_into`, turning
`TryFromIntError` into `Error::Int`. -/
def deserializeI8 (w : GVariant) : Except GErr Int := do
  let v ← tryGetI16 w
  if -(2 ^ 7) ≤ v ∧ v < 2 ^ 7 then .ok v else .error GErr.intErr

/-- Integer `repr` attribute widths accepted alongside `glib_serde_repr`. -/
inductive IntRepr where
  | ri8
  | ri16
  | ri32
  | ri64
  | ru8
  | ru16
  | ru32
  | ru64
  deriving DecidableEq, Repr

/-- `tag_for_repr` (`glib-serde-derive/src/variant_type.rs`): the `VariantTy`
constant and wire type character of the enum tag for a declared
representation width. -/
def tagForRepr : IntRepr → VarTy × Char
  | .ri8 | .ri16 => (.i16, 'n')
  | .ri32 => (.i32, 'i')
  | .ri64 => (.i64, 'x')
  | .ru8 => (.byte, 'y')
  | .ru16 => (.u16, 'q')
  | .ru32 => (.u32, 'u')
  | .ru64 => (.u64, 't')

/-- The scalar shape whose values a fast-path code serializes. -/
def shapeOfCode : FixedCode → Shape
  | .y => .sU8
  | .q => .sU16
  | .u => .sU32
  | .t => .sU64
  | .n => .sI16
  | .i => .sI32
  | .x => .sI64
  | .d => .sF64
  | .b => .sBool

/-- The generic (`SeqSerializer::Variant`) arm of `serialize_seq` and its
`end`: element-by-element serialization against the declared (or derived)
element node, assembled with `array_from_variant_iter`.  This is the code
path a sequence takes when the fast-path `match` does not fire; restated
standalone to compare the two paths. -/
def genericSeqEncode (node : VariantTypeNode) (vs : List SerdeVal) :
    Except GErr GVariant := do
  let ws ← serializeList vs (childTypeOrDefault node 0)
  arrayFromVariantIter node.ty ws

/-- The fast (`SeqSerializer::U8` … `Bool`) arm of `serialize_seq` and its
`end`: `U64Serializer` plus width cast per element, assembled with
`array_from_fixed_array`. -/
def fastSeqEncode (c : FixedCode) (vs : List SerdeVal) : Except GErr GVariant := do
  let ws ← serializeFixedElems c vs
  .ok (.array c.toTy ws)

/-- The tag wire value for a variant under the given mode. -/
def tagWire (mode : TagMode) (idx : Nat) (vname : String) : GVariant :=
  match mode with
  | .nameTag => .str vname
  | .indexTag => .u32 idx

mutual
/-- The wire value a supported well-formed value serializes to: the closed
form of `serialize` with no error cases (`serialize_eq` proves agreement).
Non-well-formed inputs map to garbage. -/
def expectedWire : Shape → SerdeVal → GVariant
  | .sBool, .vBool b => .bool b
  | .sI16, .vI16 n => .i16 n
  | .sI32, .vI32 n => .i32 n
  | .sI64, .vI64 n => .i64 n
  | .sU8, .vU8 n => .u8 n
  | .sU16, .vU16 n => .u16 n
  | .sU32, .vU32 n => .u32 n
  | .sU64, .vU64 n => .u64 n
  | .sF64, .vF64 b => .f64 b
  | .sStr, .vStr s => .str s
  | .sUnit, _ => .tuple []
  | .sOption s, .vSome v =>
    .maybe (typeOf (expectedWire s v)) (some (expectedWire s v))
  | .sOption s, _ => .maybe (nodeOf s).ty none
  | .sSeq s, .vSeq vs => .array (nodeOf s).ty (expectedWireList s vs)
  | .sTuple ss, .vTuple vs => .tuple (expectedWireZip ss vs)
  | .sNewtype _ s, .vNewtypeStruct _ v => expectedWire s v
  | .sStruct _ fields, .vStruct _ vs => .tuple (expectedWireZip fields vs)
  | .sMap k v, .vMap entries =>
    .array (.dictEntry (nodeOf k).ty (nodeOf v).ty) (expectedWireEntries k v entries)
  | .sEnum _ mode variants, .vUnitVariant _ i vn =>
    if hasData variants then .tuple [tagWire mode i vn, .box (.tuple [])]
    else tagWire mode i vn
  | .sEnum _ mode variants, .vNewtypeVariant _ i vn v =>
    match variants[i]? with
    | some (_, .newtypeV s) => .tuple [tagWire mode i vn, .box (expectedWire s v)]
    | _ => .tuple []
  | .sEnum _ mode variants, .vTupleVariant _ i vn vs =>
    match variants[i]? with
    | some (_, .fieldsV ss) =>
      .tuple [tagWire mode i vn, .box (.tuple (expectedWireZip ss vs))]
    | _ => .tuple []
  | _, _ => .tuple []

/-- Expected wire values of sequence elements. -/
def expectedWireList (s : Shape) : List SerdeVal → List GVariant
  | [] => []
  | v :: vs => expectedWire s v :: expectedWireList s vs

/-- Expected wire values of positional fields. -/
def expectedWireZip : List Shape → List SerdeVal → List GVariant
  | s :: ss, v :: vs => expectedWire s v :: expectedWireZip ss vs
  | _, _ => []

/-- Expected wire values of map entries. -/
def expectedWireEntries (k v : Shape) : List (SerdeVal × SerdeVal) → List GVariant
  | [] => []
  | (kx, vx) :: es =>
    .dictEntry (expectedWire k kx) (expectedWire v vx) :: expectedWireEntries k v es
end

/-- One registered flags value: nick and `u32` bit value.  The registry
(`FlagsClass::values`, external enum registry) is a list in declaration
order. -/
structure FlagsEntry where
  nick : String
  value : Nat
  deriving DecidableEq, Repr

/-- The loop body of `FlagsValue::fmt` (`src/flags.rs`): walk the registry in
declaration order; whenever all of an entry's bits remain in the value,
clear them (`value &= !v` on `u32`) and append the nick, `|`-separated. -/
def flagsFmtGo : List FlagsEntry → Nat → String → String
  | [], _, s => s
  | e :: rest, value, s =>
    if value &&& e.value = e.value then
      flagsFmtGo rest (value &&& (2 ^ 32 - 1 - e.value))
        ((if s.isEmpty then s else s ++ "|") ++ e.nick)
    else flagsFmtGo rest value s

/-- `FlagsValue::fmt` / `Display` (also `FlagsReprValue`'s identical copy). -/
def flagsToString (reg : List FlagsEntry) (value : Nat) : String :=
  flagsFmtGo reg value ""

/-- `FlagsClass::value_by_nick` (external registry lookup). -/
def valueByNick (reg : List FlagsEntry) (nick : String) : Option Nat :=
  (reg.find? fun e => e.nick == nick).map FlagsEntry.value

/-- The scanning loop of `FlagsValue::from_str`: accumulate the current
token until `|` or the end, look it up, OR its value.  The source slices
bytes; on the ASCII nicks the encoder emits this coincides with the
character-level scan. -/
def flagsParseGo (reg : List FlagsEntry) : List Char → List Char → Nat → Option Nat
  | [], cur, acc =>
    match valueByNick reg (String.mk cur.reverse) with
    | some v => some (acc ||| v)
    | none => none
  | c :: cs, cur, acc =>
    if c = '|' then
      match valueByNick reg (String.mk cur.reverse) with
      | some v => flagsParseGo reg cs [] (acc ||| v)
      | none => none
    else flagsParseGo reg cs (c :: cur) acc

/-- `FlagsValue::from_str` (`src/flags.rs`): the empty string is the zero
value; otherwise `|`-separated tokens are looked up by nick and OR-ed; an
unknown token is a `ParseFlagsError` (modelled as `none`). -/
def flagsFromStr (reg : List FlagsEntry) (s : String) : Option Nat :=
  if s.isEmpty then some 0
  else flagsParseGo reg s.data [] 0

/-- Induction package: one value serializes to its expected wire form, and
type-faithful shapes put out the declared type (statement of `serialize_eq`,
size-indexed for the strong induction). -/
def SerOne (n : Nat) : Prop :=
  ∀ s v, valSize v ≤ n → supportedShape s = true → wfVal s v = true →
    serialize v (nodeOf s) = .ok (expectedWire s v) ∧
    (tyFaithful s = true → typeOf (expectedWire s v) = (nodeOf s).ty)

/-- Induction package: sequence elements against the element node. -/
def SerList (n : Nat) : Prop :=
  ∀ s vs, valSizes vs ≤ n → supportedShape s = true → tyFaithful s = true →
    wfValList s vs = true →
    serializeList vs (nodeOf s) = .ok (expectedWireList s vs) ∧
    (expectedWireList s vs).all
      (fun w => tyMatches (typeOf w) (nodeOf s).ty) = true

/-- Induction package: positional fields against a node whose children from
position `i` are the field nodes. -/
def SerFields (n : Nat) : Prop :=
  ∀ ss vs node i, valSizes vs ≤ n → supportedList ss = true →
    wfValZip ss vs = true →
    (∀ j : Nat, node.children[i + j]? = (nodesOf ss)[j]?) →
    serializeTupleElems node i vs = .ok (expectedWireZip ss vs) ∧
    (tyFaithfulList ss = true →
      typeOfList (expectedWireZip ss vs) = (nodesOf ss).map VariantTypeNode.ty)

/-- Induction package: map entries against the key/value child nodes. -/
def SerEntries (n : Nat) : Prop :=
  ∀ k v es node, entrySizes es ≤ n →
    supportedShape k = true → basicKey k = true → tyFaithful k = true →
    supportedShape v = true → tyFaithful v = true →
    wfValEntries k v es = true →
    node.children[0]? = some (nodeOf k) → node.children[1]? = some (nodeOf v) →
    serializeMapEntries node es = .ok (expectedWireEntries k v es) ∧
    (expectedWireEntries k v es).all
      (fun w => tyMatches (typeOf w)
        (.dictEntry (nodeOf k).ty (nodeOf v).ty)) = true

/-- Induction package, decode side: sufficient fuel decodes an expected wire
value back to the originating value (size-capped for the strong induction,
fuel arbitrary above the cap). -/
def DeOne (n : Nat) : Prop :=
  ∀ fuel s v, supportedShape s = true → wfVal s v = true →
    2 * shapeSize s + wireSize (expectedWire s v) ≤ n →
    2 * shapeSize s + wireSize (expectedWire s v) ≤ fuel →
    deserializeF fuel s (expectedWire s v) = .ok v

/-- Decode side, sequence elements. -/
def DeList (n : Nat) : Prop :=
  ∀ fuel s vs, supportedShape s = true → wfValList s vs = true →
    2 * shapeSize s + wireSizes (expectedWireList s vs) + 1 ≤ n →
    2 * shapeSize s + wireSizes (expectedWireList s vs) + 1 ≤ fuel →
    deserializeListF fuel s (expectedWireList s vs) = .ok vs

/-- Decode side, positional fields. -/
def DeFields (n : Nat) : Prop :=
  ∀ fuel ss vs, supportedList ss = true → wfValZip ss vs = true →
    2 * shapeSizes ss + wireSizes (expectedWireZip ss vs) + 1 ≤ n →
    2 * shapeSizes ss + wireSizes (expectedWireZip ss vs) + 1 ≤ fuel →
    decodeFieldsF fuel ss (expectedWireZip ss vs) = .ok vs

/-- Decode side, map entries. -/
def DeEntries (n : Nat) : Prop :=
  ∀ fuel k v es, supportedShape k = true → supportedShape v = true →
    wfValEntries k v es = true →
    2 * (shapeSize k + shapeSize v) + wireSizes (expectedWireEntries k v es) + 1 ≤ n →
    2 * (shapeSize k + shapeSize v) + wireSizes (expectedWireEntries k v es) + 1 ≤ fuel →
    deserializeEntriesF fuel k v (expectedWireEntries k v es) = .ok es

/-- Registry entries whose bits are all present in the value, in declaration
order — the entries `FlagsValue::fmt` prints (for single-bit registries,
exactly the set bits' entries). -/
def selectedEntries (reg : List FlagsEntry) (value : Nat) : List FlagsEntry :=
  reg.filter fun e => decide (value &&& e.value = e.value)

/-- The nicks `FlagsValue::fmt` prints, in declaration order. -/
def selectedNicks (reg : List FlagsEntry) (value : Nat) : List String :=
  (selectedEntries reg value).map FlagsEntry.nick

/-- The `|`-joined rendering of a token list (empty for no tokens). -/
def joinBar : List String → String
  | [] => ""
  | n :: rest => rest.foldl (fun acc m => acc ++ "|" ++ m) n

/-!  Theorems.  -/

/-- Claim C2 (code bug): `deserialize_any` dispatches on the wire value's own
top-level classification, but for a value classified as a double the source
invokes `self.deserialize_bool` instead of `self.deserialize_f64`; its
`try_get::<bool>` then always fails with a type mismatch, so the visitor
never receives the value's f64 content — which `deserialize_f64` would have
presented exactly. -/
theorem deserialize_any_double_misroutes :
    (∀ bits : Nat, anyRoute (.f64 bits) = .toBool) ∧
    tryGetBool (.f64 4621819117588971520) = .error (.mismatch .f64 .bool) ∧
    tryGetF64 (.f64 4621819117588971520) = .ok 4621819117588971520 :=
  ⟨fun _ => rfl, rfl, rfl⟩

/-- Claim C10 (code bug): every `size_hint` implementation computes
`n_children - index - 1`, which is one less than the number of unconsumed
elements, and is an underflowing `usize` subtraction (modelled `none`) once
every element has been consumed — in particular `VariantDeserializer` over a
childless inner value underflows immediately. -/
theorem size_hint_off_by_one :
    sizeHintCompute 3 0 = some (some 2) ∧
    sizeHintCompute 1 1 = none ∧
    sizeHintCompute 0 0 = none ∧
    ∀ n k, k < n → sizeHintCompute n k = some (some (n - k - 1)) := by
  refine ⟨rfl, rfl, rfl, fun n k h => ?_⟩
  have h1 : usizeSub n k = some (n - k) := by
    unfold usizeSub
    rw [if_pos (by omega)]
  have h2 : usizeSub (n - k) 1 = some (n - k - 1) := by
    unfold usizeSub
    rw [if_pos (by omega)]
  simp [sizeHintCompute, h1, h2]

/-- Claim C10 witness: the general off-by-one formula at a concrete input. -/
theorem size_hint_off_by_one_witness :
    sizeHintCompute 5 0 = some (some 4) := by
  have h := size_hint_off_by_one.2.2.2 5 0 (by omega)
  simpa using h

/-- Claim C6 counterexample: a 64-bit signed wire value decoded at the
32-bit target is rejected by the strict-width `try_get` with a type
mismatch; it is not range-checked and truncated as the claim states (5 fits
in `i32`, yet the decode fails rather than returning 5). -/
theorem narrowing_64bit_counterexample :
    fromVariant .sI32 (.i64 5) = .error (.mismatch .i64 .i32) ∧
    ∀ x, fromVariant .sI32 (.i64 5) ≠ .ok x := by
  refine ⟨rfl, fun x h => ?_⟩
  rw [show fromVariant .sI32 (.i64 5) = .error (.mismatch .i64 .i32) from rfl] at h
  exact Except.noConfusion h

/-- Claim C6 (amended): narrower integer targets require wire values of
their exact width — a 64-bit wire value at a narrower target is a
`Mismatch` error, neither truncated nor overflow-checked.  The one widening
is the `i8` target, which reads a 16-bit signed wire value and range-checks
it: in-range values decode unchanged, out-of-range values fail with the
integer-overflow error `Error::Int`, never wrapping. -/
theorem narrowing_exact_width (n : Int) (m : Nat) :
    (deserializeI8 (.i16 n) =
      if -(2 ^ 7) ≤ n ∧ n < 2 ^ 7 then .ok n else .error GErr.intErr) ∧
    (∀ q : Int, fromVariant .sI32 (.i64 q) = .error (.mismatch .i64 .i32)) ∧
    (∀ q : Int, fromVariant .sI16 (.i64 q) = .error (.mismatch .i64 .i16)) ∧
    (fromVariant .sU8 (.u64 m) = .error (.mismatch .u64 .byte)) ∧
    (fromVariant .sU16 (.u64 m) = .error (.mismatch .u64 .u16)) ∧
    (fromVariant .sU32 (.u64 m) = .error (.mismatch .u64 .u32)) :=
  ⟨rfl, fun _ => rfl, fun _ => rfl, rfl, rfl, rfl⟩

/-- Claim C4: `glib_serde_repr` tag-width selection — the derive macro's
`tag_for_repr` maps i8 and i16 to `n` (16-bit signed: 8-bit signed is
promoted on the wire), i32 to `i`, i64 to `x`, u8 to `y`, u16 to `q`, u32 to
`u`, u64 to `t`; and `Serializer::variant_tag`, handed a node of the
selected tag type, emits a tag whose wire value has exactly that type. -/
theorem enum_repr_tag_table (r : IntRepr) (idx : Nat) (vname : String)
    (h : idx < 2 ^ 8) :
    tagForRepr .ri8 = (.i16, 'n') ∧ tagForRepr .ri16 = (.i16, 'n') ∧
    tagForRepr .ri32 = (.i32, 'i') ∧ tagForRepr .ri64 = (.i64, 'x') ∧
    tagForRepr .ru8 = (.byte, 'y') ∧ tagForRepr .ru16 = (.u16, 'q') ∧
    tagForRepr .ru32 = (.u32, 'u') ∧ tagForRepr .ru64 = (.u64, 't') ∧
    ∃ tag, variantTag (.mk (tagForRepr r).1 []) idx vname = .ok (tag, none) ∧
      typeOf tag.toVariant = (tagForRepr r).1 := by
  refine ⟨rfl, rfl, rfl, rfl, rfl, rfl, rfl, rfl, ?_⟩
  cases r
  case ri8 =>
    refine ⟨.i16T idx, ?_, rfl⟩
    simp [variantTag, VariantTypeNode.ty, tagForRepr]
    rw [if_pos (show idx < 32768 by omega)]
    rfl
  case ri16 =>
    refine ⟨.i16T idx, ?_, rfl⟩
    simp [variantTag, VariantTypeNode.ty, tagForRepr]
    rw [if_pos (show idx < 32768 by omega)]
    rfl
  case ri32 =>
    refine ⟨.i32T idx, ?_, rfl⟩
    simp [variantTag, VariantTypeNode.ty, tagForRepr]
    rw [if_pos (show idx < 2147483648 by omega)]
    rfl
  case ri64 => exact ⟨.i64T idx, rfl, rfl⟩
  case ru8 =>
    refine ⟨.u8T idx, ?_, rfl⟩
    simp [variantTag, VariantTypeNode.ty, tagForRepr]
    rw [if_pos (show idx < 256 by omega)]
    rfl
  case ru16 =>
    refine ⟨.u16T idx, ?_, rfl⟩
    simp [variantTag, VariantTypeNode.ty, tagForRepr]
    rw [if_pos (show idx < 65536 by omega)]
    rfl
  case ru32 => exact ⟨.u32T idx, rfl, rfl⟩
  case ru64 => exact ⟨.u64T idx, rfl, rfl⟩

/-- Claim C4 witness: table and serializer connection at the `u16`
representation width, variant index 3. -/
theorem enum_repr_tag_table_witness :
    ∃ tag, variantTag (.mk (tagForRepr .ru16).1 []) 3 "B" = .ok (tag, none) ∧
      typeOf tag.toVariant = (tagForRepr .ru16).1 :=
  (enum_repr_tag_table .ru16 3 "B" (by omega)).2.2.2.2.2.2.2.2

/-- Two's-complement 16-bit cast round-trip on the `i16` range. -/
theorem toSigned16_rt (n : Int) (h1 : -32768 ≤ n) (h2 : n < 32768) :
    toSigned 16 ((n % (2 ^ 64 : Int)).toNat) = n := by
  simp only [toSigned]
  split <;> omega

/-- Two's-complement 32-bit cast round-trip on the `i32` range. -/
theorem toSigned32_rt (n : Int) (h1 : -2147483648 ≤ n) (h2 : n < 2147483648) :
    toSigned 32 ((n % (2 ^ 64 : Int)).toNat) = n := by
  simp only [toSigned]
  split <;> omega

/-- Two's-complement 64-bit cast round-trip on the `i64` range. -/
theorem toSigned64_rt (n : Int) (h1 : -9223372036854775808 ≤ n)
    (h2 : n < 9223372036854775808) :
    toSigned 64 ((n % (2 ^ 64 : Int)).toNat) = n := by
  simp only [toSigned]
  split <;> omega

/-- The nine fixed element types match themselves. -/
theorem fixed_tyMatches_self (c : FixedCode) : tyMatches c.toTy c.toTy = true := by
  cases c <;> rfl

/-- One well-formed scalar element: the fast path (`U64Serializer` plus
width cast) equals the generic `Serializer` output, which ignores the node,
and its wire type is the element code's type. -/
theorem fast_elem_eq (c : FixedCode) (v : SerdeVal)
    (h : wfVal (shapeOfCode c) v = true) :
    serializeFixedElem c v = .ok (expectedWire (shapeOfCode c) v) ∧
    (∀ node, serialize v node = .ok (expectedWire (shapeOfCode c) v)) ∧
    typeOf (expectedWire (shapeOfCode c) v) = c.toTy := by
  cases c
  case y =>
    cases v
    case vU8 n =>
      replace h : decide (n < 2 ^ 8) = true := h
      have hn := of_decide_eq_true h
      refine ⟨?_, fun node => rfl, rfl⟩
      show (Except.ok (GVariant.u8 (n % 2 ^ 8)) : Except GErr GVariant) =
        Except.ok (GVariant.u8 n)
      rw [Nat.mod_eq_of_lt hn]
    all_goals exact Bool.noConfusion h
  case q =>
    cases v
    case vU16 n =>
      replace h : decide (n < 2 ^ 16) = true := h
      have hn := of_decide_eq_true h
      refine ⟨?_, fun node => rfl, rfl⟩
      show (Except.ok (GVariant.u16 (n % 2 ^ 16)) : Except GErr GVariant) =
        Except.ok (GVariant.u16 n)
      rw [Nat.mod_eq_of_lt hn]
    all_goals exact Bool.noConfusion h
  case u =>
    cases v
    case vU32 n =>
      replace h : decide (n < 2 ^ 32) = true := h
      have hn := of_decide_eq_true h
      refine ⟨?_, fun node => rfl, rfl⟩
      show (Except.ok (GVariant.u32 (n % 2 ^ 32)) : Except GErr GVariant) =
        Except.ok (GVariant.u32 n)
      rw [Nat.mod_eq_of_lt hn]
    all_goals exact Bool.noConfusion h
  case t =>
    cases v
    case vU64 n =>
      replace h : decide (n < 2 ^ 64) = true := h
      have hn := of_decide_eq_true h
      refine ⟨?_, fun node => rfl, rfl⟩
      show (Except.ok (GVariant.u64 (n % 2 ^ 64)) : Except GErr GVariant) =
        Except.ok (GVariant.u64 n)
      rw [Nat.mod_eq_of_lt hn]
    all_goals exact Bool.noConfusion h
  case d =>
    cases v
    case vF64 n =>
      replace h : decide (n < 2 ^ 64) = true := h
      have hn := of_decide_eq_true h
      refine ⟨?_, fun node => rfl, rfl⟩
      show (Except.ok (GVariant.f64 (n % 2 ^ 64)) : Except GErr GVariant) =
        Except.ok (GVariant.f64 n)
      rw [Nat.mod_eq_of_lt hn]
    all_goals exact Bool.noConfusion h
  case n =>
    cases v
    case vI16 n =>
      replace h : (decide (-(2 ^ 15) ≤ n) && decide (n < 2 ^ 15)) = true := h
      rw [Bool.and_eq_true] at h
      obtain ⟨h1, h2⟩ := h
      have hn1 := of_decide_eq_true h1
      have hn2 := of_decide_eq_true h2
      refine ⟨?_, fun node => rfl, rfl⟩
      show (Except.ok (GVariant.i16 (toSigned 16 ((n % (2 ^ 64 : Int)).toNat))) :
        Except GErr GVariant) = Except.ok (GVariant.i16 n)
      rw [toSigned16_rt n (by omega) (by omega)]
    all_goals exact Bool.noConfusion h
  case i =>
    cases v
    case vI32 n =>
      replace h : (decide (-(2 ^ 31) ≤ n) && decide (n < 2 ^ 31)) = true := h
      rw [Bool.and_eq_true] at h
      obtain ⟨h1, h2⟩ := h
      have hn1 := of_decide_eq_true h1
      have hn2 := of_decide_eq_true h2
      refine ⟨?_, fun node => rfl, rfl⟩
      show (Except.ok (GVariant.i32 (toSigned 32 ((n % (2 ^ 64 : Int)).toNat))) :
        Except GErr GVariant) = Except.ok (GVariant.i32 n)
      rw [toSigned32_rt n (by omega) (by omega)]
    all_goals exact Bool.noConfusion h
  case x =>
    cases v
    case vI64 n =>
      replace h : (decide (-(2 ^ 63) ≤ n) && decide (n < 2 ^ 63)) = true := h
      rw [Bool.and_eq_true] at h
      obtain ⟨h1, h2⟩ := h
      have hn1 := of_decide_eq_true h1
      have hn2 := of_decide_eq_true h2
      refine ⟨?_, fun node => rfl, rfl⟩
      show (Except.ok (GVariant.i64 (toSigned 64 ((n % (2 ^ 64 : Int)).toNat))) :
        Except GErr GVariant) = Except.ok (GVariant.i64 n)
      rw [toSigned64_rt n (by omega) (by omega)]
    all_goals exact Bool.noConfusion h
  case b =>
    cases v
    case vBool b =>
      refine ⟨?_, fun node => rfl, rfl⟩
      cases b
      · show (Except.ok (GVariant.bool (decide ¬(0 : Nat) = 0)) : Except GErr GVariant) =
          Except.ok (GVariant.bool false)
        simp
      · show (Except.ok (GVariant.bool (decide ¬(1 : Nat) = 0)) : Except GErr GVariant) =
          Except.ok (GVariant.bool true)
        simp
    all_goals exact Bool.noConfusion h

/-- Elementwise fast/generic agreement lifted to lists. -/
theorem fast_elems_eq (c : FixedCode) :
    ∀ vs : List SerdeVal, wfValList (shapeOfCode c) vs = true →
      ∀ child : VariantTypeNode,
        serializeFixedElems c vs = .ok (expectedWireList (shapeOfCode c) vs) ∧
        serializeList vs child = .ok (expectedWireList (shapeOfCode c) vs) ∧
        (expectedWireList (shapeOfCode c) vs).all
          (fun w => tyMatches (typeOf w) c.toTy) = true := by
  intro vs
  induction vs with
  | nil => exact fun h child => ⟨rfl, rfl, rfl⟩
  | cons v vs ih =>
    intro h child
    replace h : (wfVal (shapeOfCode c) v && wfValList (shapeOfCode c) vs) = true := h
    rw [Bool.and_eq_true] at h
    obtain ⟨h1, h2⟩ := h
    obtain ⟨e1, e2, e3⟩ := fast_elem_eq c v h1
    obtain ⟨l1, l2, l3⟩ := ih h2 child
    refine ⟨?_, ?_, ?_⟩
    · simp only [serializeFixedElems, expectedWireList]
      rw [e1, l1]
      rfl
    · simp only [serializeList, expectedWireList]
      rw [e2 child, l2]
      rfl
    · simp only [expectedWireList, List.all_cons]
      rw [e3, l3, fixed_tyMatches_self]
      rfl

/-- Claim C9: for a sequence whose element signature is one of the nine
fixed-width codes, `serialize_seq` takes the packed fast path, and that
path's wire value is byte-identical to what the generic per-element path
(`SeqSerializer::Variant` plus `array_from_variant_iter`) would produce for
the same well-formed sequence. -/
theorem fixed_array_fast_path_equiv (c : FixedCode) (vs : List SerdeVal)
    (node : VariantTypeNode) (hty : node.ty = .array c.toTy)
    (hwf : wfValList (shapeOfCode c) vs = true) :
    serialize (.vSeq vs) node = fastSeqEncode c vs ∧
    fastSeqEncode c vs = genericSeqEncode node vs ∧
    fastSeqEncode c vs = .ok (.array c.toTy (expectedWireList (shapeOfCode c) vs)) := by
  obtain ⟨f1, g1, a1⟩ := fast_elems_eq c vs hwf (childTypeOrDefault node 0)
  have hcode : codeOfTy c.toTy = some c := by cases c <;> rfl
  have hfast : fastSeqEncode c vs =
      .ok (.array c.toTy (expectedWireList (shapeOfCode c) vs)) := by
    simp only [fastSeqEncode]
    rw [f1]
    rfl
  refine ⟨?_, ?_, hfast⟩
  · simp only [serialize, hty, hcode]
    simp only [fastSeqEncode]
  · rw [hfast]
    simp only [genericSeqEncode]
    rw [g1]
    show _ = arrayFromVariantIter node.ty (expectedWireList (shapeOfCode c) vs)
    rw [hty]
    simp only [arrayFromVariantIter]
    rw [a1]
    rfl

/-- Claim C9 witness: `[1u32, 2, 3]` encoded both ways, byte-identical. -/
theorem fixed_array_fast_path_equiv_witness :
    serialize (.vSeq [.vU32 1, .vU32 2, .vU32 3]) (nodeOf (.sSeq .sU32)) =
      fastSeqEncode .u [.vU32 1, .vU32 2, .vU32 3] ∧
    fastSeqEncode .u [.vU32 1, .vU32 2, .vU32 3] =
      genericSeqEncode (nodeOf (.sSeq .sU32)) [.vU32 1, .vU32 2, .vU32 3] ∧
    fastSeqEncode .u [.vU32 1, .vU32 2, .vU32 3] =
      .ok (.array .u32 (expectedWireList (shapeOfCode .u) [.vU32 1, .vU32 2, .vU32 3])) :=
  fixed_array_fast_path_equiv .u _ _ rfl rfl

end GlibSerde

namespace GlibSerde
theorem map_eq_error {α β : Type} (g : α → β) (x : Except GErr α) (e : GErr) :
    x.map g = .error e ↔ x = .error e := by
  cases x <;> simp [Except.map]

theorem bind_eq_error {α β : Type} (x : Except GErr α) (f : α → Except GErr β) (e : GErr) :
    (x >>= f) = .error e ↔ (x = .error e ∨ ∃ a, x = .ok a ∧ f a = .error e) := by
  cases x <;> simp [Bind.bind, Except.bind]

theorem decodePrim_no_lm (s : Shape) (w : GVariant) (a : Nat) :
    decodePrim s w ≠ .error (.lengthMismatch a a) := by
  intro h
  cases s <;> cases w <;> simp [decodePrim] at h

theorem decodePrims_no_lm (s : Shape) : ∀ ps (a : Nat),
    decodePrims s ps ≠ .error (.lengthMismatch a a) := by
  intro ps
  induction ps with
  | nil => intro a h; simp [decodePrims] at h
  | cons p ps ih =>
    intro a h
    rw [decodePrims, bind_eq_error] at h
    rcases h with h | ⟨x, hx, h⟩
    · exact decodePrim_no_lm s p a h
    · rw [bind_eq_error] at h
      rcases h with h | ⟨y, hy, h⟩
      · exact ih a h
      · simp at h

theorem decodeFieldsPrim_no_lm : ∀ ss ps (a : Nat),
    decodeFieldsPrim ss ps ≠ .error (.lengthMismatch a a) := by
  intro ss
  induction ss with
  | nil => intro ps a h; simp [decodeFieldsPrim] at h
  | cons s ss ih =>
    intro ps a h
    match ps with
    | [] => simp [decodeFieldsPrim] at h
    | p :: ps =>
      rw [decodeFieldsPrim, bind_eq_error] at h
      rcases h with h | ⟨x, hx, h⟩
      · exact decodePrim_no_lm s p a h
      · rw [bind_eq_error] at h
        rcases h with h | ⟨y, hy, h⟩
        · exact ih ps a h
        · simp at h
end GlibSerde

namespace GlibSerde
theorem isOfType_no_lm (w : GVariant) (p : VarTy) (a : Nat) :
    isOfType w p ≠ .error (.lengthMismatch a a) := by
  intro h
  unfold isOfType at h
  split at h <;> simp at h

theorem decodeIdent_no_lm (variants : List (String × VariantShape)) (w : GVariant)
    (a : Nat) : decodeIdent variants w ≠ .error (.lengthMismatch a a) := by
  intro h
  cases w <;> simp [decodeIdent] at h <;> split at h <;> simp at h

theorem enumValue_no_lm (w : GVariant) (a : Nat) :
    enumValue w ≠ .error (.lengthMismatch a a) := by
  intro h
  unfold enumValue at h
  split at h <;> simp at h

theorem fixedArray_no_lm (c : FixedCode) (w : GVariant) (a : Nat) :
    fixedArray c w ≠ .error (.lengthMismatch a a) := by
  intro h
  cases w <;> simp [fixedArray] at h <;> split at h <;> simp at h
end GlibSerde

namespace GlibSerde
theorem throw_eq_error {A : Type} (e e2 : GErr) :
    (throw e : Except GErr A) = .error e2 ↔ e = e2 := by
  constructor
  · intro h; exact Except.error.inj h
  · intro h; rw [h]; rfl

theorem no_diag_lm : ∀ fuel : Nat,
    (∀ s w a, deserializeF fuel s w ≠ .error (.lengthMismatch a a)) ∧
    (∀ s vs a, deserializeListF fuel s vs ≠ .error (.lengthMismatch a a)) ∧
    (∀ ss w a, deserializeTupleAsF fuel ss w ≠ .error (.lengthMismatch a a)) ∧
    (∀ ss vs a, decodeFieldsF fuel ss vs ≠ .error (.lengthMismatch a a)) ∧
    (∀ k v es a, deserializeEntriesF fuel k v es ≠ .error (.lengthMismatch a a)) := by
  intro fuel
  induction fuel with
  | zero =>
    refine ⟨fun s w a h => ?_, fun s vs a h => ?_, fun ss w a h => ?_,
      fun ss vs a h => ?_, fun k v es a h => ?_⟩
    · simp [deserializeF] at h
    · simp [deserializeListF] at h
    · simp [deserializeTupleAsF] at h
    · simp [decodeFieldsF] at h
    · simp [deserializeEntriesF] at h
  | succ fuel ih =>
    obtain ⟨ihD, ihL, ihT, ihF, ihE⟩ := ih
    refine ⟨fun s w a h => ?_, fun s vs a h => ?_, fun ss w a h => ?_,
      fun ss vs a h => ?_, fun k v es a h => ?_⟩
    · cases s
      case sBool =>
        replace h : Except.map SerdeVal.vBool (tryGetBool w)
            = Except.error (GErr.lengthMismatch a a) := h
        rw [map_eq_error] at h; cases w <;> simp [tryGetBool] at h
      case sI16 =>
        replace h : Except.map SerdeVal.vI16 (tryGetI16 w)
            = Except.error (GErr.lengthMismatch a a) := h
        rw [map_eq_error] at h; cases w <;> simp [tryGetI16] at h
      case sI32 =>
        replace h : Except.map SerdeVal.vI32 (tryGetI32 w)
            = Except.error (GErr.lengthMismatch a a) := h
        rw [map_eq_error] at h; cases w <;> simp [tryGetI32] at h
      case sI64 =>
        replace h : Except.map SerdeVal.vI64 (tryGetI64 w)
            = Except.error (GErr.lengthMismatch a a) := h
        rw [map_eq_error] at h; cases w <;> simp [tryGetI64] at h
      case sU8 =>
        replace h : Except.map SerdeVal.vU8 (tryGetU8 w)
            = Except.error (GErr.lengthMismatch a a) := h
        rw [map_eq_error] at h; cases w <;> simp [tryGetU8] at h
      case sU16 =>
        replace h : Except.map SerdeVal.vU16 (tryGetU16 w)
            = Except.error (GErr.lengthMismatch a a) := h
        rw [map_eq_error] at h; cases w <;> simp [tryGetU16] at h
      case sU32 =>
        replace h : Except.map SerdeVal.vU32 (tryGetU32 w)
            = Except.error (GErr.lengthMismatch a a) := h
        rw [map_eq_error] at h; cases w <;> simp [tryGetU32] at h
      case sU64 =>
        replace h : Except.map SerdeVal.vU64 (tryGetU64 w)
            = Except.error (GErr.lengthMismatch a a) := h
        rw [map_eq_error] at h; cases w <;> simp [tryGetU64] at h
      case sF64 =>
        replace h : Except.map SerdeVal.vF64 (tryGetF64 w)
            = Except.error (GErr.lengthMismatch a a) := h
        rw [map_eq_error] at h; cases w <;> simp [tryGetF64] at h
      case sStr =>
        replace h : (match strOf w with
            | some s => Except.ok (SerdeVal.vStr s)
            | none => Except.error (GErr.strMismatch (typeOf w)))
            = Except.error (GErr.lengthMismatch a a) := h
        split at h <;> simp at h
      case sUnit =>
        replace h : Except.map (fun _ => SerdeVal.vUnit) (tryGetUnit w)
            = Except.error (GErr.lengthMismatch a a) := h
        rw [map_eq_error] at h
        cases w <;> (try simp [tryGetUnit] at h) <;>
          (rename_i vs; cases vs <;> simp [tryGetUnit] at h)
      case sOption s =>
        replace h : (isOfType w (VarTy.maybe .anyTy) >>= fun _ =>
            match w with
            | GVariant.maybe _ none => Except.ok SerdeVal.vNone
            | GVariant.maybe _ (some c) =>
              Except.map SerdeVal.vSome (deserializeF fuel s c)
            | _ => Except.error (GErr.custom "unreachable: maybe() after is_of_type"))
            = Except.error (GErr.lengthMismatch a a) := h
        rw [bind_eq_error] at h
        rcases h with h | ⟨x, hx, h⟩
        · exact isOfType_no_lm _ _ _ h
        · split at h
          · simp at h
          · rw [map_eq_error] at h; exact ihD _ _ _ h
          · simp at h
      case sSeq s =>
        replace h : (match w with
            | GVariant.array e vs =>
              match codeOfTy e with
              | some c =>
                fixedArray c (GVariant.array e vs) >>= fun prims =>
                  Except.map SerdeVal.vSeq (decodePrims s prims)
              | none => Except.map SerdeVal.vSeq (deserializeListF fuel s vs)
            | GVariant.tuple vs => Except.map SerdeVal.vSeq (deserializeListF fuel s vs)
            | w => Except.error (GErr.unsupportedType (typeOf w)))
            = Except.error (GErr.lengthMismatch a a) := h
        split at h
        · split at h
          · rw [bind_eq_error] at h
            rcases h with h | ⟨p, hp, h⟩
            · exact fixedArray_no_lm _ _ _ h
            · rw [map_eq_error] at h; exact decodePrims_no_lm _ _ _ h
          · rw [map_eq_error] at h; exact ihL _ _ _ h
        · rw [map_eq_error] at h; exact ihL _ _ _ h
        · simp at h
      case sTuple ss =>
        replace h : Except.map SerdeVal.vTuple (deserializeTupleAsF fuel ss w)
            = Except.error (GErr.lengthMismatch a a) := h
        rw [map_eq_error] at h; exact ihT _ _ _ h
      case sNewtype name s =>
        replace h : Except.map (SerdeVal.vNewtypeStruct name) (deserializeF fuel s w)
            = Except.error (GErr.lengthMismatch a a) := h
        rw [map_eq_error] at h; exact ihD _ _ _ h
      case sStruct name fields =>
        replace h : Except.map (SerdeVal.vStruct name) (deserializeTupleAsF fuel fields w)
            = Except.error (GErr.lengthMismatch a a) := h
        rw [map_eq_error] at h; exact ihT _ _ _ h
      case sMap k v =>
        replace h : (isOfType w (VarTy.array (.dictEntry .anyBasic .anyTy)) >>= fun _ =>
            match w with
            | GVariant.array _ entries =>
              Except.map SerdeVal.vMap (deserializeEntriesF fuel k v entries)
            | _ => Except.error (GErr.custom "unreachable: dictionary after is_of_type"))
            = Except.error (GErr.lengthMismatch a a) := h
        rw [bind_eq_error] at h
        rcases h with h | ⟨x, hx, h⟩
        · exact isOfType_no_lm _ _ _ h
        · split at h
          · rw [map_eq_error] at h; exact ihE _ _ _ _ h
          · simp at h
      case sEnum ename mode variants =>
        simp only [deserializeF] at h
        split at h
        · split at h
          · rw [bind_eq_error] at h
            rcases h with h | ⟨tag, htag, h⟩
            · simp [pure, Except.pure] at h
            · rw [bind_eq_error] at h
              rcases h with h | ⟨idx, hidx, h⟩
              · exact decodeIdent_no_lm _ _ _ h
              · split at h
                · rw [bind_eq_error] at h
                  rcases h with h | ⟨val, hval, h⟩
                  · exact enumValue_no_lm _ _ h
                  · rw [bind_eq_error] at h
                    rcases h with h | ⟨u, hu, h⟩
                    · exact isOfType_no_lm _ _ _ h
                    · simp at h
                · rw [bind_eq_error] at h
                  rcases h with h | ⟨val, hval, h⟩
                  · exact enumValue_no_lm _ _ h
                  · rw [map_eq_error] at h; exact ihD _ _ _ h
                · rw [bind_eq_error] at h
                  rcases h with h | ⟨val, hval, h⟩
                  · exact enumValue_no_lm _ _ h
                  · split at h
                    · split at h
                      · rw [bind_eq_error] at h
                        rcases h with h | ⟨p, hp, h⟩
                        · exact fixedArray_no_lm _ _ _ h
                        · rw [map_eq_error] at h
                          exact decodeFieldsPrim_no_lm _ _ _ h
                      · rw [map_eq_error] at h; exact ihF _ _ _ h
                    · rw [map_eq_error] at h; exact ihF _ _ _ h
                    · simp at h
                · simp at h
          · rw [bind_eq_error] at h
            rcases h with h | ⟨tag, htag, h⟩
            · exact GErr.noConfusion (Except.error.inj h)
            · exact Except.noConfusion htag
        · rw [bind_eq_error] at h
          rcases h with h | ⟨idx, hidx, h⟩
          · exact decodeIdent_no_lm _ _ _ h
          · split at h <;> simp at h
    · cases vs with
      | nil => rw [deserializeListF] at h; exact Except.noConfusion h
      | cons v vs =>
        rw [deserializeListF, bind_eq_error] at h
        rcases h with h | ⟨x, hx, h⟩
        · exact ihD _ _ _ h
        · rw [bind_eq_error] at h
          rcases h with h | ⟨y, hy, h⟩
          · exact ihL _ _ _ h
          · simp at h
    · cases w
      case tuple vs =>
        replace h : (isOfType (GVariant.tuple vs) VarTy.anyTuple >>= fun _ =>
            if vs.length ≠ ss.length then
              (throw (GErr.lengthMismatch vs.length ss.length) :
                Except GErr (List SerdeVal))
            else decodeFieldsF fuel ss vs)
            = Except.error (GErr.lengthMismatch a a) := h
        rw [bind_eq_error] at h
        rcases h with h | ⟨x, hx, h⟩
        · exact isOfType_no_lm _ _ _ h
        · by_cases hn : vs.length ≠ ss.length
          · rw [if_pos hn] at h
            have h2 : GErr.lengthMismatch vs.length ss.length
                = GErr.lengthMismatch a a := Except.error.inj h
            injection h2 with hb hc
            omega
          · rw [if_neg hn] at h
            exact ihF _ _ _ h
      all_goals exact GErr.noConfusion (Except.error.inj h)
    · cases ss with
      | nil => rw [decodeFieldsF] at h; exact Except.noConfusion h
      | cons s ss =>
        cases vs with
        | nil => rw [decodeFieldsF] at h; simp at h
        | cons v vs =>
          rw [decodeFieldsF, bind_eq_error] at h
          rcases h with h | ⟨x, hx, h⟩
          · exact ihD _ _ _ h
          · rw [bind_eq_error] at h
            rcases h with h | ⟨y, hy, h⟩
            · exact ihF _ _ _ h
            · simp at h
    · cases es with
      | nil => rw [deserializeEntriesF] at h; exact Except.noConfusion h
      | cons e es =>
        cases e
        case dictEntry kw vw =>
          replace h : (deserializeF fuel k kw >>= fun kx =>
              deserializeF fuel v vw >>= fun vx =>
              deserializeEntriesF fuel k v es >>= fun rest =>
              Except.ok ((kx, vx) :: rest))
              = Except.error (GErr.lengthMismatch a a) := h
          rw [bind_eq_error] at h
          rcases h with h | ⟨x, hx, h⟩
          · exact ihD _ _ _ h
          · rw [bind_eq_error] at h
            rcases h with h | ⟨y, hy, h⟩
            · exact ihD _ _ _ h
            · rw [bind_eq_error] at h
              rcases h with h | ⟨z, hz, h⟩
              · exact ihE _ _ _ _ h
              · simp at h
        all_goals exact GErr.noConfusion (Except.error.inj h)
end GlibSerde

namespace GlibSerde
theorem deserializeTupleAsF_tuple (fuel : Nat) (ss : List Shape) (vs : List GVariant) :
    deserializeTupleAsF (fuel + 1) ss (GVariant.tuple vs) =
      if vs.length ≠ ss.length then
        Except.error (GErr.lengthMismatch vs.length ss.length)
      else decodeFieldsF fuel ss vs := by
  rfl

/-- C7: for every wire value of tuple type and every requested component list,
decoding fails with `LengthMismatch` reporting the wire tuple's actual child
count and the expected arity if and only if the child count differs from the
requested arity; when the counts are equal the children are presented to the
derived visitor positionally, in order, one per component shape
(`decodeFieldsF`).  The quantified `fuel + 1` covers every sufficient fuel
bound, in particular the one supplied by `fromVariant`. -/
theorem tuple_arity_check (fuel : Nat) (ss : List Shape) (vs : List GVariant) :
    (deserializeTupleAsF (fuel + 1) ss (GVariant.tuple vs)
        = .error (.lengthMismatch vs.length ss.length) ↔ vs.length ≠ ss.length) ∧
    (vs.length = ss.length →
      deserializeTupleAsF (fuel + 1) ss (GVariant.tuple vs) = decodeFieldsF fuel ss vs) := by
  constructor
  · constructor
    · intro h heq
      rw [deserializeTupleAsF_tuple, if_neg (not_not_intro heq)] at h
      rw [← heq] at h
      exact (no_diag_lm fuel).2.2.2.1 ss vs vs.length h
    · intro hne
      rw [deserializeTupleAsF_tuple, if_pos hne]
  · intro heq
    rw [deserializeTupleAsF_tuple, if_neg (not_not_intro heq)]

theorem tuple_arity_check_witness :
    deserializeTupleAsF 3 [Shape.sI32, Shape.sI32] (GVariant.tuple [GVariant.i32 1])
      = Except.error (GErr.lengthMismatch 1 2) :=
  (tuple_arity_check 2 [Shape.sI32, Shape.sI32] [GVariant.i32 1]).1.mpr (by decide)
end GlibSerde

namespace GlibSerde
/-- Node-ignoring serialization: a `nodeBlind` shape's well-formed values
serialize to their `expectedWire` form under every serializer node. -/
theorem serialize_nodeBlind (s : Shape) (v : SerdeVal) (hnb : nodeBlind s = true)
    (hwf : wfVal s v = true) (n : VariantTypeNode) :
    serialize v n = .ok (expectedWire s v) := by
  cases s <;>
    first
    | exact Bool.noConfusion hnb
    | (cases v <;> first | exact Bool.noConfusion hwf | rfl)

/-- The fixed-array fast path of `serialize_seq` fires from the node type
alone and never consults the node's children. -/
theorem serialize_vSeq_fixed (vs : List SerdeVal) (e : VarTy) (c0 : FixedCode)
    (hc : codeOfTy e = some c0) (cs : List VariantTypeNode) :
    serialize (.vSeq vs) (.mk (.array e) cs) =
      serializeFixedElems c0 vs >>= fun ws => Except.ok (GVariant.array e ws) := by
  have hL : serialize (.vSeq vs) (.mk (.array e) cs) =
      (match codeOfTy e with
       | some c => serializeFixedElems c vs >>= fun ws =>
           Except.ok (GVariant.array e ws)
       | none =>
         serializeList vs (childTypeOrDefault (.mk (.array e) cs) 0) >>= fun ws =>
           arrayFromVariantIter (VarTy.array e) ws) := rfl
  rw [hL, hc]

/-- Child-ignoring serialization: a `childBlind` shape's well-formed values
serialize identically under every node carrying the declared type — in
particular under the nested node a newtype wrapper hands them. -/
theorem serialize_childBlind (s : Shape) (v : SerdeVal) (hcb : childBlind s = true)
    (hwf : wfVal s v = true) (n : VariantTypeNode)
    (hty : n.ty = (nodeOf s).ty) :
    serialize v n = serialize v (nodeOf s) := by
  cases s
  case sStr =>
    cases n with
    | mk t c =>
      have ht : t = VarTy.str := hty
      subst ht
      cases v <;> first | exact Bool.noConfusion hwf | rfl
  case sSeq inner =>
    cases n with
    | mk t c =>
      have ht : t = VarTy.array (nodeOf inner).ty := hty
      subst ht
      replace hcb : (codeOfTy (nodeOf inner).ty).isSome = true := hcb
      obtain ⟨c0, hc0⟩ := Option.isSome_iff_exists.mp hcb
      cases v <;>
        first
        | exact Bool.noConfusion hwf
        | (rename_i vs
           rw [show nodeOf (.sSeq inner) =
                 VariantTypeNode.mk (VarTy.array (nodeOf inner).ty) [nodeOf inner]
               from rfl,
             serialize_vSeq_fixed vs _ c0 hc0, serialize_vSeq_fixed vs _ c0 hc0])
  all_goals
    first
    | exact Bool.noConfusion hcb
    | (cases v <;> first | exact Bool.noConfusion hwf | rfl)

/-- Claim C3 counterexample: transparency fails.  A NAMED single-field struct
`W { a: i32 }` declares the transparent type `i` but serde drives it through
`serialize_struct`/`TupleSerializer`, producing the 1-tuple `(5,)` of type
`(i)` — not the bare `i32` wire value `5`.  An UNNAMED newtype over a
container inner also diverges: the wrapper node nests the inner node as its
sole child, so `W(Option<i32>)` serializes `None` with one maybe level too
many (`mmi` against the inner's `mi`). -/
theorem newtype_transparency_counterexample :
    toVariant (.sStruct "W" [.sI32]) (.vStruct "W" [.vI32 5])
        = .ok (.tuple [.i32 5]) ∧
    toVariant .sI32 (.vI32 5) = .ok (.i32 5) ∧
    toVariant (.sNewtype "W" (.sOption .sI32)) (.vNewtypeStruct "W" .vNone)
        = .ok (.maybe (.maybe .i32) none) ∧
    toVariant (.sOption .sI32) .vNone = .ok (.maybe .i32 none) := by
  exact ⟨rfl, rfl, rfl, rfl⟩

/-- C3 (amended): newtype transparency holds for unnamed single-field
wrappers whose inner shape never reads the serializer node's children
(`childBlind`: scalars, strings, unit, fixed-width element sequences) and
whose name is an ordinary Rust identifier (never the crate's reserved
`glib_serde::$ObjectPath`/`$Signature` markers): the wrapper's wire value is
the inner value's wire value, byte for byte.  (Named single-field structs
and container inners break the general claim, per the counterexample.) -/
theorem newtype_transparency (name : String) (s : Shape) (v : SerdeVal)
    (hcb : childBlind s = true) (hwf : wfVal s v = true)
    (h1 : name ≠ objectPathStructName) (h2 : name ≠ signatureStructName) :
    toVariant (.sNewtype name s) (.vNewtypeStruct name v) = toVariant s v := by
  rw [toVariant, toVariant]
  have hstep : serialize (.vNewtypeStruct name v) (nodeOf (.sNewtype name s)) =
      if name = objectPathStructName then serialize v (.mk .objPath [])
      else if name = signatureStructName then serialize v (.mk .sig [])
      else serialize v (nodeOf (.sNewtype name s)) := rfl
  rw [hstep, if_neg h1, if_neg h2]
  exact serialize_childBlind s v hcb hwf _ rfl

/-- C3 witness: the amended transparency at the test-suite's own newtype
fixture (`MyNewtypeStruct(52)`). -/
theorem newtype_transparency_witness :
    toVariant (.sNewtype "MyNewtypeStruct" .sI32)
        (.vNewtypeStruct "MyNewtypeStruct" (.vI32 52))
      = toVariant .sI32 (.vI32 52) :=
  newtype_transparency "MyNewtypeStruct" .sI32 (.vI32 52)
    (by decide) (by decide) (by decide) (by decide)
end GlibSerde

namespace GlibSerde
/-- The derive macro's node for an enum: the `(tag v)` pair node with one
child per variant when any variant carries data, the bare tag type
otherwise. -/
theorem nodeOf_sEnum (ename : String) (mode : TagMode)
    (variants : List (String × VariantShape)) :
    nodeOf (.sEnum ename mode variants) =
      if hasData variants then
        VariantTypeNode.mk (.tuple [tagTyOf mode, .variant]) (variantNodes variants)
      else VariantTypeNode.mk (tagTyOf mode) [] := rfl

/-- Claim C5 counterexample: in an enum that also has data-carrying
variants, a unit variant does not serialize to the bare tag — the node is
the `(sv)` pair node, `variant_tag` returns a payload slot, and the wire
value is `(tag, box unit)`. -/
theorem unit_variant_bare_tag_counterexample :
    toVariant (.sEnum "E" .nameTag [("A", .unitV), ("B", .newtypeV .sI32)])
        (.vUnitVariant "E" 0 "A")
      = .ok (.tuple [.str "A", .box (.tuple [])]) ∧
    ∀ w, toVariant (.sEnum "E" .nameTag [("A", .unitV), ("B", .newtypeV .sI32)])
        (.vUnitVariant "E" 0 "A") = .ok w → w ≠ .str "A" := by
  refine ⟨rfl, fun w h => ?_⟩
  rw [show toVariant (.sEnum "E" .nameTag [("A", .unitV), ("B", .newtypeV .sI32)])
        (.vUnitVariant "E" 0 "A")
      = .ok (.tuple [.str "A", .box (.tuple [])]) from rfl] at h
  intro hw
  rw [hw] at h
  simp at h

/-- C5 (amended): the wire form of a serialized enum variant.  A unit
variant is the bare tag only when NO variant of the enum carries data; in a
mixed enum a unit variant is `(tag, box unit)`.  A newtype variant is
`(tag, box w)` where `w` is the payload's encoding — against the enum's own
node, whatever the result.  A tuple/struct variant is
`(tag, box (tuple ws))` with the fields encoded against the variant's child
node.  The tag is the variant name under default tagging and the `u32`
index under `glib_serde_variant_index`. -/
theorem enum_variant_encoding (ename vname : String) (mode : TagMode)
    (variants : List (String × VariantShape)) (idx : Nat) :
    (hasData variants = false →
      toVariant (.sEnum ename mode variants) (.vUnitVariant ename idx vname)
        = .ok (tagWire mode idx vname)) ∧
    (hasData variants = true →
      toVariant (.sEnum ename mode variants) (.vUnitVariant ename idx vname)
        = .ok (.tuple [tagWire mode idx vname, .box (.tuple [])])) ∧
    (∀ v w, serialize v (nodeOf (.sEnum ename mode variants)) = .ok w →
      toVariant (.sEnum ename mode variants) (.vNewtypeVariant ename idx vname v)
        = .ok (.tuple [tagWire mode idx vname, .box w])) ∧
    (∀ vs ws, hasData variants = true →
      serializeTupleElems
          (childTypeOrDefault (nodeOf (.sEnum ename mode variants)) idx) 0 vs
        = .ok ws →
      toVariant (.sEnum ename mode variants) (.vTupleVariant ename idx vname vs)
        = .ok (.tuple [tagWire mode idx vname, .box (.tuple ws)])) := by
  refine ⟨?_, ?_, ?_, ?_⟩
  · intro hd
    rw [toVariant, nodeOf_sEnum, hd, if_neg Bool.false_ne_true]
    cases mode <;> rfl
  · intro hd
    rw [toVariant, nodeOf_sEnum, hd, if_pos rfl]
    cases mode <;> rfl
  · intro v w hw
    cases hhd : hasData variants with
    | true =>
      rw [toVariant, nodeOf_sEnum, hhd, if_pos rfl]
      rw [nodeOf_sEnum, hhd, if_pos rfl] at hw
      cases mode with
      | nameTag =>
        have hexp : serialize (.vNewtypeVariant ename idx vname v)
            (VariantTypeNode.mk (.tuple [tagTyOf .nameTag, .variant])
              (variantNodes variants)) =
            (serialize v (VariantTypeNode.mk (.tuple [tagTyOf .nameTag, .variant])
                (variantNodes variants)) >>= fun w2 =>
              Except.ok (GVariant.tuple [GVariant.str vname, GVariant.box w2])) := rfl
        rw [hexp, hw]
        rfl
      | indexTag =>
        have hexp : serialize (.vNewtypeVariant ename idx vname v)
            (VariantTypeNode.mk (.tuple [tagTyOf .indexTag, .variant])
              (variantNodes variants)) =
            (serialize v (VariantTypeNode.mk (.tuple [tagTyOf .indexTag, .variant])
                (variantNodes variants)) >>= fun w2 =>
              Except.ok (GVariant.tuple [GVariant.u32 idx, GVariant.box w2])) := rfl
        rw [hexp, hw]
        rfl
    | false =>
      rw [toVariant, nodeOf_sEnum, hhd, if_neg Bool.false_ne_true]
      rw [nodeOf_sEnum, hhd, if_neg Bool.false_ne_true] at hw
      cases mode with
      | nameTag =>
        have hexp : serialize (.vNewtypeVariant ename idx vname v)
            (VariantTypeNode.mk (tagTyOf .nameTag) []) =
            (serialize v (VariantTypeNode.mk (tagTyOf .nameTag) []) >>= fun w2 =>
              Except.ok (GVariant.tuple [GVariant.str vname, GVariant.box w2])) := rfl
        rw [hexp, hw]
        rfl
      | indexTag =>
        have hexp : serialize (.vNewtypeVariant ename idx vname v)
            (VariantTypeNode.mk (tagTyOf .indexTag) []) =
            (serialize v (VariantTypeNode.mk (tagTyOf .indexTag) []) >>= fun w2 =>
              Except.ok (GVariant.tuple [GVariant.u32 idx, GVariant.box w2])) := rfl
        rw [hexp, hw]
        rfl
  · intro vs ws hd hws
    rw [toVariant, nodeOf_sEnum, hd, if_pos rfl]
    rw [nodeOf_sEnum, hd, if_pos rfl] at hws
    cases mode with
    | nameTag =>
      have hexp : serialize (.vTupleVariant ename idx vname vs)
          (VariantTypeNode.mk (.tuple [tagTyOf .nameTag, .variant])
            (variantNodes variants)) =
          (serializeTupleElems
              (childTypeOrDefault
                (VariantTypeNode.mk (.tuple [tagTyOf .nameTag, .variant])
                  (variantNodes variants)) idx) 0 vs >>= fun ws2 =>
            Except.ok (GVariant.tuple
              [GVariant.str vname, GVariant.box (GVariant.tuple ws2)])) := rfl
      rw [hexp, hws]
      rfl
    | indexTag =>
      have hexp : serialize (.vTupleVariant ename idx vname vs)
          (VariantTypeNode.mk (.tuple [tagTyOf .indexTag, .variant])
            (variantNodes variants)) =
          (serializeTupleElems
              (childTypeOrDefault
                (VariantTypeNode.mk (.tuple [tagTyOf .indexTag, .variant])
                  (variantNodes variants)) idx) 0 vs >>= fun ws2 =>
            Except.ok (GVariant.tuple
              [GVariant.u32 idx, GVariant.box (GVariant.tuple ws2)])) := rfl
      rw [hexp, hws]
      rfl

/-- C5 witness: the amended encoding at the test-suite's mixed enum — a unit
variant gives `('A', <()>)` and a newtype variant gives `('B', <7>)`. -/
theorem enum_variant_encoding_witness :
    toVariant (.sEnum "E" .nameTag [("A", .unitV), ("B", .newtypeV .sI32)])
        (.vUnitVariant "E" 0 "A")
      = .ok (.tuple [.str "A", .box (.tuple [])]) ∧
    toVariant (.sEnum "E" .nameTag [("A", .unitV), ("B", .newtypeV .sI32)])
        (.vNewtypeVariant "E" 1 "B" (.vI32 7))
      = .ok (.tuple [.str "B", .box (.i32 7)]) :=
  ⟨(enum_variant_encoding "E" "A" .nameTag [("A", .unitV), ("B", .newtypeV .sI32)]
      0).2.1 (by decide),
   (enum_variant_encoding "E" "B" .nameTag [("A", .unitV), ("B", .newtypeV .sI32)]
      1).2.2.1 (.vI32 7) (.i32 7) rfl⟩
end GlibSerde

namespace GlibSerde
theorem valSize_pos (v : SerdeVal) : 1 ≤ valSize v := by
  cases v <;> simp [valSize]

theorem shapeSize_pos (s : Shape) : 1 ≤ shapeSize s := by
  cases s <;> simp [shapeSize]

theorem tyMatches_anyTy (t : VarTy) : tyMatches t .anyTy = true := by
  cases t <;> rfl

theorem bind_ok {α β : Type} (a : α) (f : α → Except GErr β) :
    (Except.ok a >>= f) = f a := rfl

/-- `FixedCode` basics shared by the fast-path lemmas. -/
theorem codeOfTy_toTy (c : FixedCode) : codeOfTy c.toTy = some c := by
  cases c <;> rfl

theorem nodeOf_shapeOfCode_ty (c : FixedCode) :
    (nodeOf (shapeOfCode c)).ty = c.toTy := by
  cases c <;> rfl

theorem scalar_code_shape (s : Shape) (c : FixedCode)
    (hsc : scalarShape s = true) (h : codeOfTy (nodeOf s).ty = some c) :
    s = shapeOfCode c := by
  cases s <;>
    first
    | exact Bool.noConfusion hsc
    | (injection h with h2; subst h2; rfl)

/-- Reflexivity of `tyMatches` on every declared node type. -/
theorem tyMatches_nodeOf_refl : ∀ n : Nat,
    (∀ s : Shape, shapeSize s ≤ n →
      tyMatches (nodeOf s).ty (nodeOf s).ty = true) ∧
    (∀ ss : List Shape, shapeSizes ss ≤ n →
      tyMatchesList ((nodesOf ss).map VariantTypeNode.ty)
        ((nodesOf ss).map VariantTypeNode.ty) = true) := by
  intro n
  induction n with
  | zero =>
    constructor
    · intro s h
      have := shapeSize_pos s
      omega
    · intro ss hsz0
      cases ss with
      | nil => rfl
      | cons s rest =>
        replace hsz0 : shapeSize s + shapeSizes rest + 1 ≤ 0 := hsz0
        omega
  | succ n ih =>
    obtain ⟨ihS, ihL⟩ := ih
    constructor
    · intro s hsz
      cases s
      case sOption inner =>
        replace hsz : shapeSize inner + 1 ≤ n + 1 := hsz
        show tyMatches (.maybe (nodeOf inner).ty) (.maybe (nodeOf inner).ty) = true
        show tyMatches (nodeOf inner).ty (nodeOf inner).ty = true
        exact ihS inner (by omega)
      case sSeq inner =>
        replace hsz : shapeSize inner + 1 ≤ n + 1 := hsz
        show tyMatches (nodeOf inner).ty (nodeOf inner).ty = true
        exact ihS inner (by omega)
      case sTuple ss =>
        replace hsz : shapeSizes ss + 1 ≤ n + 1 := hsz
        show tyMatchesList ((nodesOf ss).map VariantTypeNode.ty)
          ((nodesOf ss).map VariantTypeNode.ty) = true
        exact ihL ss (by omega)
      case sNewtype name inner =>
        replace hsz : shapeSize inner + 1 ≤ n + 1 := hsz
        show tyMatches (nodeOf inner).ty (nodeOf inner).ty = true
        exact ihS inner (by omega)
      case sStruct name fields =>
        replace hsz : shapeSizes fields + 1 ≤ n + 1 := hsz
        cases fields with
        | nil =>
          show tyMatchesList [] [] = true
          rfl
        | cons f rest =>
          cases rest with
          | nil =>
            show tyMatches (nodeOf f).ty (nodeOf f).ty = true
            have : shapeSize f ≤ n := by
              have := shapeSize_pos f
              simp [shapeSizes] at hsz
              omega
            exact ihS f this
          | cons f2 rest2 =>
            show tyMatchesList ((nodesOf (f :: f2 :: rest2)).map VariantTypeNode.ty)
              ((nodesOf (f :: f2 :: rest2)).map VariantTypeNode.ty) = true
            exact ihL (f :: f2 :: rest2) (by omega)
      case sMap k v =>
        replace hsz : shapeSize k + shapeSize v + 1 ≤ n + 1 := hsz
        show (tyMatches (nodeOf k).ty (nodeOf k).ty &&
          tyMatches (nodeOf v).ty (nodeOf v).ty) = true
        rw [ihS k (by omega), ihS v (by omega)]
        rfl
      case sEnum ename mode variants =>
        rw [nodeOf_sEnum]
        cases hasData variants <;> cases mode <;> rfl
      all_goals rfl
    · intro ss hsz
      cases ss with
      | nil => rfl
      | cons s rest =>
        replace hsz : shapeSize s + shapeSizes rest + 1 ≤ n + 1 := hsz
        show (tyMatches (nodeOf s).ty (nodeOf s).ty &&
          tyMatchesList ((nodesOf rest).map VariantTypeNode.ty)
            ((nodesOf rest).map VariantTypeNode.ty)) = true
        have := shapeSize_pos s
        rw [ihS s (by omega), ihL rest (by omega)]
        rfl
end GlibSerde

namespace GlibSerde
theorem getElem?_lt_length {α : Type} (l : List α) (i : Nat) (x : α)
    (h : l[i]? = some x) : i < l.length := by
  cases hlt : decide (i < l.length) with
  | true => exact of_decide_eq_true hlt
  | false =>
    have : l.length ≤ i := by
      have := of_decide_eq_false hlt
      omega
    rw [List.getElem?_eq_none this] at h
    exact Option.noConfusion h

/-- A nodup-named variant table looks its own entry's name back up at the
entry's index (`deserialize_identifier` by string). -/
theorem findVariant_nodup :
    ∀ (variants : List (String × VariantShape)) (i : Nat) (vn : String)
      (p : VariantShape),
      (variants.map Prod.fst).Nodup → variants[i]? = some (vn, p) →
      findVariant variants vn = some i := by
  intro variants
  induction variants with
  | nil => intro i vn p _ h; simp at h
  | cons e rest ih =>
    intro i vn p hnd h
    rw [List.map_cons, List.nodup_cons] at hnd
    obtain ⟨hnotin, hnd⟩ := hnd
    cases i with
    | zero =>
      simp at h
      subst h
      rw [findVariant, List.findIdx?_cons, if_pos (by simp)]
    | succ i =>
      simp at h
      have hvn : vn ∈ rest.map Prod.fst := by
        have hm : (vn, p) ∈ rest := List.getElem?_mem h
        exact List.mem_map_of_mem Prod.fst hm
      have hne : ¬(e.1 == vn) = true := by
        intro hb
        exact hnotin (eq_of_beq hb ▸ hvn)
      rw [findVariant, List.findIdx?_cons, if_neg hne, List.findIdx?_succ]
      have := ih i vn p hnd h
      rw [findVariant] at this
      rw [this]
      rfl

theorem payloadSize_le_variantSizes :
    ∀ (variants : List (String × VariantShape)) (i : Nat) (vn : String)
      (p : VariantShape), variants[i]? = some (vn, p) →
      payloadSize p ≤ variantSizes variants := by
  intro variants
  induction variants with
  | nil => intro i vn p h; simp at h
  | cons e rest ih =>
    intro i vn p h
    cases i with
    | zero =>
      simp at h
      subst h
      rw [show variantSizes ((vn, p) :: rest)
        = payloadSize p + variantSizes rest + 1 from rfl]
      omega
    | succ i =>
      simp at h
      have := ih i vn p h
      rw [show variantSizes (e :: rest)
        = payloadSize e.2 + variantSizes rest + 1 from rfl]
      omega

theorem supportedVariants_lookup :
    ∀ (variants : List (String × VariantShape)) (i : Nat) (vn : String)
      (p : VariantShape), supportedVariants variants = true →
      variants[i]? = some (vn, p) → supportedPayload p = true := by
  intro variants
  induction variants with
  | nil => intro i vn p _ h; simp at h
  | cons e rest ih =>
    intro i vn p hs h
    replace hs : (supportedPayload e.2 && supportedVariants rest) = true := by
      cases e; exact hs
    rw [Bool.and_eq_true] at hs
    cases i with
    | zero =>
      simp at h
      subst h
      exact hs.1
    | succ i =>
      simp at h
      exact ih i vn p hs.2 h

theorem variantNodes_lookup :
    ∀ (variants : List (String × VariantShape)) (i : Nat),
      (variantNodes variants)[i]? = (variants[i]?).map fun e => variantNode e.2 := by
  intro variants
  induction variants with
  | nil => intro i; rfl
  | cons e rest ih =>
    intro i
    cases e with
    | mk a b =>
      cases i with
      | zero =>
        rw [show variantNodes ((a, b) :: rest)
          = variantNode b :: variantNodes rest from rfl]
        rw [List.getElem?_cons_zero, List.getElem?_cons_zero]
        rfl
      | succ i =>
        rw [show variantNodes ((a, b) :: rest)
          = variantNode b :: variantNodes rest from rfl]
        rw [List.getElem?_cons_succ, List.getElem?_cons_succ]
        exact ih i

theorem wfValZip_lengths : ∀ (ss : List Shape) (vs : List SerdeVal),
    wfValZip ss vs = true →
    vs.length = ss.length ∧ (expectedWireZip ss vs).length = ss.length := by
  intro ss
  induction ss with
  | nil =>
    intro vs h
    cases vs with
    | nil => exact ⟨rfl, rfl⟩
    | cons v vs => exact Bool.noConfusion h
  | cons s rest ih =>
    intro vs h
    cases vs with
    | nil => exact Bool.noConfusion h
    | cons v vs =>
      replace h : (wfVal s v && wfValZip rest vs) = true := h
      rw [Bool.and_eq_true] at h
      obtain ⟨h1, h2⟩ := h
      obtain ⟨l1, l2⟩ := ih vs h2
      constructor
      · show vs.length + 1 = rest.length + 1
        omega
      · show (expectedWireZip rest vs).length + 1 = rest.length + 1
        omega

/-- Fast-path slice elements decode back by the `IntoDeserializer` visit. -/
theorem decodePrim_expected (c : FixedCode) (v : SerdeVal)
    (h : wfVal (shapeOfCode c) v = true) :
    decodePrim (shapeOfCode c) (expectedWire (shapeOfCode c) v) = .ok v := by
  cases c <;> cases v <;> first | exact Bool.noConfusion h | rfl

theorem decodePrims_expected (c : FixedCode) : ∀ (vs : List SerdeVal),
    wfValList (shapeOfCode c) vs = true →
    decodePrims (shapeOfCode c) (expectedWireList (shapeOfCode c) vs) = .ok vs := by
  intro vs
  induction vs with
  | nil => intro h; rfl
  | cons v vs ih =>
    intro h
    replace h : (wfVal (shapeOfCode c) v && wfValList (shapeOfCode c) vs) = true := h
    rw [Bool.and_eq_true] at h
    obtain ⟨h1, h2⟩ := h
    show decodePrims (shapeOfCode c)
      (expectedWire (shapeOfCode c) v :: expectedWireList (shapeOfCode c) vs) = _
    rw [decodePrims, decodePrim_expected c v h1, bind_ok, ih h2, bind_ok]

theorem fixed_elem_codes (c : FixedCode) : ∀ (vs : List SerdeVal),
    wfValList (shapeOfCode c) vs = true →
    (expectedWireList (shapeOfCode c) vs).all
      (fun w => codeOfTy (typeOf w) == some c) = true := by
  intro vs
  induction vs with
  | nil => intro h; rfl
  | cons v vs ih =>
    intro h
    replace h : (wfVal (shapeOfCode c) v && wfValList (shapeOfCode c) vs) = true := h
    rw [Bool.and_eq_true] at h
    obtain ⟨h1, h2⟩ := h
    obtain ⟨_, _, e3⟩ := fast_elem_eq c v h1
    show ((codeOfTy (typeOf (expectedWire (shapeOfCode c) v)) == some c) &&
      (expectedWireList (shapeOfCode c) vs).all
        (fun w => codeOfTy (typeOf w) == some c)) = true
    rw [e3, codeOfTy_toTy, ih h2]
    simp
end GlibSerde

namespace GlibSerde
theorem isOfType_ok (a : GVariant) (p : VarTy)
    (h : tyMatches (typeOf a) p = true) : isOfType a p = .ok () := by
  unfold isOfType
  rw [if_pos h]

theorem childTypeOrDefault_eq (node : VariantTypeNode) (i : Nat)
    (c : VariantTypeNode) (h : node.children[i]? = some c) :
    childTypeOrDefault node i = c := by
  rw [childTypeOrDefault, h]

theorem nodeOf_sStruct_children (name : String) (fields : List Shape) :
    (nodeOf (.sStruct name fields)).children = nodesOf fields := by
  cases fields with
  | nil => rfl
  | cons f rest => cases rest <;> rfl

theorem variantNode_fieldsV_children (ss : List Shape) :
    (variantNode (.fieldsV ss)).children = nodesOf ss := by
  cases ss with
  | nil => rfl
  | cons f rest => cases rest <;> rfl

theorem hasData_of_fieldsV (variants : List (String × VariantShape)) (i : Nat)
    (vn : String) (ss : List Shape) (h : variants[i]? = some (vn, .fieldsV ss)) :
    hasData variants = true := by
  apply List.any_eq_true.mpr
  exact ⟨(vn, .fieldsV ss), List.getElem?_mem h, rfl⟩
end GlibSerde

namespace GlibSerde
theorem serOne_zero : SerOne 0 := by
  intro s v hsz _ _
  have := valSize_pos v
  omega

theorem serList_zero : SerList 0 := by
  intro s vs hsz _ _ _
  cases vs with
  | nil => exact ⟨rfl, rfl⟩
  | cons v rest =>
    replace hsz : valSize v + valSizes rest + 1 ≤ 0 := hsz
    omega

theorem serFields_zero : SerFields 0 := by
  intro ss vs node i hsz hsup hwf _
  cases vs with
  | nil =>
    cases ss with
    | nil => exact ⟨rfl, fun _ => rfl⟩
    | cons s rest => exact Bool.noConfusion hwf
  | cons v rest =>
    replace hsz : valSize v + valSizes rest + 1 ≤ 0 := hsz
    omega

theorem serEntries_zero : SerEntries 0 := by
  intro k v es node hsz _ _ _ _ _ _ _ _
  cases es with
  | nil => exact ⟨rfl, rfl⟩
  | cons e rest =>
    cases e with
    | mk kx vx =>
      replace hsz : valSize kx + valSize vx + entrySizes rest + 1 ≤ 0 := hsz
      omega

theorem serList_step (n : Nat) (ihA : SerOne n) (ihB : SerList n) :
    SerList (n + 1) := by
  intro s vs hsz hsup htf hwf
  cases vs with
  | nil => exact ⟨rfl, rfl⟩
  | cons v rest =>
    replace hsz : valSize v + valSizes rest + 1 ≤ n + 1 := hsz
    replace hwf : (wfVal s v && wfValList s rest) = true := hwf
    rw [Bool.and_eq_true] at hwf
    obtain ⟨hw1, hw2⟩ := hwf
    have hvrest : valSizes rest ≤ n := by have := valSize_pos v; omega
    obtain ⟨hser, hty⟩ := ihA s v (by omega) hsup hw1
    obtain ⟨lser, lall⟩ := ihB s rest hvrest hsup htf hw2
    constructor
    · show (serialize v (nodeOf s) >>= fun w =>
        serializeList rest (nodeOf s) >>= fun ws =>
        Except.ok (w :: ws)) = Except.ok
          (expectedWire s v :: expectedWireList s rest)
      rw [hser, bind_ok, lser, bind_ok]
    · show (tyMatches (typeOf (expectedWire s v)) (nodeOf s).ty &&
        (expectedWireList s rest).all
          (fun w => tyMatches (typeOf w) (nodeOf s).ty)) = true
      rw [hty htf, (tyMatches_nodeOf_refl (shapeSize s)).1 s (by omega), lall]
      rfl

theorem serFields_step (n : Nat) (ihA : SerOne n) (ihC : SerFields n) :
    SerFields (n + 1) := by
  intro ss vs node i hsz hsup hwf hch
  cases vs with
  | nil =>
    cases ss with
    | nil => exact ⟨rfl, fun _ => rfl⟩
    | cons s rest => exact Bool.noConfusion hwf
  | cons v rest =>
    cases ss with
    | nil => exact Bool.noConfusion hwf
    | cons s srest =>
      replace hsz : valSize v + valSizes rest + 1 ≤ n + 1 := hsz
      replace hwf : (wfVal s v && wfValZip srest rest) = true := hwf
      rw [Bool.and_eq_true] at hwf
      obtain ⟨hw1, hw2⟩ := hwf
      replace hsup : (supportedShape s && supportedList srest) = true := hsup
      rw [Bool.and_eq_true] at hsup
      obtain ⟨hs1, hs2⟩ := hsup
      have hchild : childTypeOrDefault node i = nodeOf s := by
        apply childTypeOrDefault_eq
        have := hch 0
        rw [Nat.add_zero] at this
        rw [this]
        rw [show nodesOf (s :: srest) = nodeOf s :: nodesOf srest from rfl,
          List.getElem?_cons_zero]
      have hch2 : ∀ j : Nat, node.children[i + 1 + j]? = (nodesOf srest)[j]? := by
        intro j
        rw [show i + 1 + j = i + (j + 1) by omega, hch (j + 1),
          show nodesOf (s :: srest) = nodeOf s :: nodesOf srest from rfl,
          List.getElem?_cons_succ]
      obtain ⟨hser, hty⟩ := ihA s v (by omega) hs1 hw1
      obtain ⟨fser, fty⟩ := ihC srest rest node (i + 1)
        (by have := valSize_pos v; omega) hs2 hw2 hch2
      constructor
      · show (serialize v (childTypeOrDefault node i) >>= fun w =>
          serializeTupleElems node (i + 1) rest >>= fun ws =>
          Except.ok (w :: ws)) = Except.ok
            (expectedWire s v :: expectedWireZip srest rest)
        rw [hchild, hser, bind_ok, fser, bind_ok]
      · intro htf
        replace htf : (tyFaithful s && tyFaithfulList srest) = true := htf
        rw [Bool.and_eq_true] at htf
        show typeOf (expectedWire s v) :: typeOfList (expectedWireZip srest rest)
          = (nodeOf s).ty :: (nodesOf srest).map VariantTypeNode.ty
        rw [hty htf.1, fty htf.2]

theorem serEntries_step (n : Nat) (ihA : SerOne n) (ihD : SerEntries n) :
    SerEntries (n + 1) := by
  intro k v es node hsz hsk hbk htk hsv htv hwf hc0 hc1
  cases es with
  | nil => exact ⟨rfl, rfl⟩
  | cons e rest =>
    cases e with
    | mk kx vx =>
      replace hsz : valSize kx + valSize vx + entrySizes rest + 1 ≤ n + 1 := hsz
      replace hwf : (wfVal k kx && wfVal v vx && wfValEntries k v rest) = true := hwf
      rw [Bool.and_eq_true, Bool.and_eq_true] at hwf
      obtain ⟨⟨hw1, hw2⟩, hw3⟩ := hwf
      have hk := valSize_pos kx
      have hv := valSize_pos vx
      obtain ⟨kser, kty⟩ := ihA k kx (by omega) hsk hw1
      obtain ⟨vser, vty⟩ := ihA v vx (by omega) hsv hw2
      obtain ⟨eser, eall⟩ := ihD k v rest node (by omega)
        hsk hbk htk hsv htv hw3 hc0 hc1
      constructor
      · show (serialize kx (childTypeOrDefault node 0) >>= fun kw =>
          serialize vx (childTypeOrDefault node 1) >>= fun vw =>
          serializeMapEntries node rest >>= fun ws =>
          Except.ok (GVariant.dictEntry kw vw :: ws)) = Except.ok
            (GVariant.dictEntry (expectedWire k kx) (expectedWire v vx)
              :: expectedWireEntries k v rest)
        rw [childTypeOrDefault_eq node 0 _ hc0, childTypeOrDefault_eq node 1 _ hc1,
          kser, bind_ok, vser, bind_ok, eser, bind_ok]
      · show ((tyMatches (typeOf (expectedWire k kx)) (nodeOf k).ty &&
          tyMatches (typeOf (expectedWire v vx)) (nodeOf v).ty) &&
          (expectedWireEntries k v rest).all
            (fun w => tyMatches (typeOf w)
              (.dictEntry (nodeOf k).ty (nodeOf v).ty))) = true
        rw [kty htk, vty htv,
          (tyMatches_nodeOf_refl (shapeSize k)).1 k (by omega),
          (tyMatches_nodeOf_refl (shapeSize v)).1 v (by omega), eall]
        rfl
end GlibSerde

namespace GlibSerde
theorem hasData_of_newtypeV (variants : List (String × VariantShape)) (i : Nat)
    (vn : String) (sp : Shape) (h : variants[i]? = some (vn, .newtypeV sp)) :
    hasData variants = true := by
  apply List.any_eq_true.mpr
  exact ⟨(vn, .newtypeV sp), List.getElem?_mem h, rfl⟩

theorem serOne_step (n : Nat) (ihA : SerOne n) (ihB : SerList n)
    (ihC : SerFields n) (ihD : SerEntries n) : SerOne (n + 1) := by
  intro s v hsz hsup hwf
  cases s
  case sOption inner =>
    replace hsup : (supportedShape inner && tyFaithful inner) = true := hsup
    rw [Bool.and_eq_true] at hsup
    obtain ⟨hsi, hti⟩ := hsup
    have hchild : childTypeOrDefault (nodeOf (.sOption inner)) 0 = nodeOf inner := by
      apply childTypeOrDefault_eq
      rw [show (nodeOf (.sOption inner)).children = [nodeOf inner] from rfl,
        List.getElem?_cons_zero]
    cases v
    case vNone =>
      constructor
      · show Except.ok
            (GVariant.maybe (childTypeOrDefault (nodeOf (.sOption inner)) 0).ty none)
          = Except.ok (GVariant.maybe (nodeOf inner).ty none)
        rw [hchild]
      · intro _
        rfl
    case vSome v0 =>
      replace hwf : wfVal inner v0 = true := hwf
      replace hsz : valSize v0 + 1 ≤ n + 1 := hsz
      obtain ⟨hser, hty⟩ := ihA inner v0 (by omega) hsi hwf
      have hexp : serialize (.vSome v0) (nodeOf (.sOption inner)) =
          (serialize v0 (childTypeOrDefault (nodeOf (.sOption inner)) 0) >>= fun w =>
           isOfType w (childTypeOrDefault (nodeOf (.sOption inner)) 0).ty >>= fun _ =>
           Except.ok (GVariant.maybe (typeOf w) (some w))) := rfl
      constructor
      · rw [hexp, hchild, hser, bind_ok,
          isOfType_ok _ _ (by
            rw [hty hti]
            exact (tyMatches_nodeOf_refl (shapeSize inner)).1 inner (by omega)),
          bind_ok]
        rfl
      · intro _
        show VarTy.maybe (typeOf (expectedWire inner v0)) = VarTy.maybe (nodeOf inner).ty
        rw [hty hti]
    all_goals exact Bool.noConfusion hwf
  case sSeq inner =>
    replace hsup :
        ((supportedShape inner && tyFaithful inner) && fixedCompatible inner) = true := hsup
    rw [Bool.and_eq_true, Bool.and_eq_true] at hsup
    obtain ⟨⟨hsi, hti⟩, hfc⟩ := hsup
    cases v
    case vSeq vs =>
      replace hwf : wfValList inner vs = true := hwf
      replace hsz : valSizes vs + 1 ≤ n + 1 := hsz
      cases hc : codeOfTy (nodeOf inner).ty with
      | some c =>
        have hscalar : scalarShape inner = true := by
          replace hfc :
              (!(codeOfTy (nodeOf inner).ty).isSome || scalarShape inner) = true := hfc
          rw [hc] at hfc
          simpa using hfc
        have hinner := scalar_code_shape inner c hscalar hc
        subst hinner
        obtain ⟨f1, _, _⟩ := fast_elems_eq c vs hwf (nodeOf (shapeOfCode c))
        constructor
        · rw [show nodeOf (.sSeq (shapeOfCode c)) =
              VariantTypeNode.mk (VarTy.array (nodeOf (shapeOfCode c)).ty)
                [nodeOf (shapeOfCode c)] from rfl,
            serialize_vSeq_fixed vs _ c hc, f1, bind_ok]
          rfl
        · intro _
          rfl
      | none =>
        have hchild : childTypeOrDefault (nodeOf (.sSeq inner)) 0 = nodeOf inner := by
          apply childTypeOrDefault_eq
          rw [show (nodeOf (.sSeq inner)).children = [nodeOf inner] from rfl,
            List.getElem?_cons_zero]
        obtain ⟨lser, lall⟩ := ihB inner vs (by omega) hsi hti hwf
        have hexp : serialize (.vSeq vs) (nodeOf (.sSeq inner)) =
            (match codeOfTy (nodeOf inner).ty with
             | some c => serializeFixedElems c vs >>= fun ws =>
                 Except.ok (GVariant.array (nodeOf inner).ty ws)
             | none =>
               serializeList vs (childTypeOrDefault (nodeOf (.sSeq inner)) 0) >>=
                 fun ws => arrayFromVariantIter (VarTy.array (nodeOf inner).ty) ws) := rfl
        constructor
        · rw [hexp, hc, hchild, lser, bind_ok]
          have harr : arrayFromVariantIter (VarTy.array (nodeOf inner).ty)
              (expectedWireList inner vs) =
              if (expectedWireList inner vs).all
                  (fun w => tyMatches (typeOf w) (nodeOf inner).ty) then
                Except.ok (GVariant.array (nodeOf inner).ty (expectedWireList inner vs))
              else
                Except.error
                  (.panicked "array_from_variant_iter: element type mismatch") := rfl
          rw [harr, if_pos lall]
          rfl
        · intro _
          rfl
    all_goals exact Bool.noConfusion hwf
  case sTuple ss =>
    cases v
    case vTuple vs =>
      replace hwf : wfValZip ss vs = true := hwf
      replace hsup : supportedList ss = true := hsup
      replace hsz : valSizes vs + 1 ≤ n + 1 := hsz
      have hch : ∀ j : Nat,
          (nodeOf (.sTuple ss)).children[0 + j]? = (nodesOf ss)[j]? := by
        intro j
        rw [Nat.zero_add]
        rfl
      obtain ⟨fser, fty⟩ := ihC ss vs (nodeOf (.sTuple ss)) 0 (by omega) hsup hwf hch
      constructor
      · show (serializeTupleElems (nodeOf (.sTuple ss)) 0 vs >>= fun ws =>
          Except.ok (GVariant.tuple ws)) = _
        rw [fser, bind_ok]
        rfl
      · intro htf
        replace htf : tyFaithfulList ss = true := htf
        show VarTy.tuple (typeOfList (expectedWireZip ss vs))
          = VarTy.tuple ((nodesOf ss).map VariantTypeNode.ty)
        rw [fty htf]
    all_goals exact Bool.noConfusion hwf
  case sNewtype name inner =>
    replace hsup : (((supportedShape inner && childBlind inner) &&
        (name != objectPathStructName)) && (name != signatureStructName)) = true := hsup
    rw [Bool.and_eq_true, Bool.and_eq_true, Bool.and_eq_true] at hsup
    obtain ⟨⟨⟨hsi, hcb⟩, hn1⟩, hn2⟩ := hsup
    have hn1' : name ≠ objectPathStructName := bne_iff_ne.mp hn1
    have hn2' : name ≠ signatureStructName := bne_iff_ne.mp hn2
    cases v
    case vNewtypeStruct name2 v0 =>
      replace hwf : (name2 == name && wfVal inner v0) = true := hwf
      rw [Bool.and_eq_true] at hwf
      obtain ⟨hname, hw0⟩ := hwf
      have hname' : name = name2 := (eq_of_beq hname).symm
      subst hname'
      replace hsz : valSize v0 + 1 ≤ n + 1 := hsz
      obtain ⟨hser, hty⟩ := ihA inner v0 (by omega) hsi hw0
      have hexp : serialize (.vNewtypeStruct name v0) (nodeOf (.sNewtype name inner)) =
          if name = objectPathStructName then serialize v0 (.mk .objPath [])
          else if name = signatureStructName then serialize v0 (.mk .sig [])
          else serialize v0 (nodeOf (.sNewtype name inner)) := rfl
      constructor
      · rw [hexp, if_neg hn1', if_neg hn2',
          serialize_childBlind inner v0 hcb hw0
            (nodeOf (.sNewtype name inner)) rfl, hser]
        rfl
      · intro htf
        exact hty htf
    all_goals exact Bool.noConfusion hwf
  case sStruct name fields =>
    replace hsup : (supportedList fields && (name != variantStructName)) = true := hsup
    rw [Bool.and_eq_true] at hsup
    obtain ⟨hsl, _⟩ := hsup
    cases v
    case vStruct name2 vs =>
      replace hwf : (name2 == name && wfValZip fields vs) = true := hwf
      rw [Bool.and_eq_true] at hwf
      obtain ⟨hname, hwzip⟩ := hwf
      replace hsz : valSizes vs + 1 ≤ n + 1 := hsz
      have hch : ∀ j : Nat,
          (nodeOf (.sStruct name fields)).children[0 + j]? = (nodesOf fields)[j]? := by
        intro j
        rw [Nat.zero_add, nodeOf_sStruct_children]
      obtain ⟨fser, fty⟩ :=
        ihC fields vs (nodeOf (.sStruct name fields)) 0 (by omega) hsl hwzip hch
      constructor
      · show (serializeTupleElems (nodeOf (.sStruct name fields)) 0 vs >>= fun ws =>
          Except.ok (GVariant.tuple ws)) = _
        rw [fser, bind_ok]
        rfl
      · intro htf
        cases fields with
        | nil =>
          cases vs with
          | nil => rfl
          | cons a b => exact Bool.noConfusion hwzip
        | cons f rest =>
          cases rest with
          | nil => exact Bool.noConfusion htf
          | cons f2 r2 =>
            replace htf : tyFaithfulList (f :: f2 :: r2) = true := htf
            show VarTy.tuple (typeOfList (expectedWireZip (f :: f2 :: r2) vs))
              = VarTy.tuple ((nodesOf (f :: f2 :: r2)).map VariantTypeNode.ty)
            rw [fty htf]
    all_goals exact Bool.noConfusion hwf
  case sMap sk sv =>
    replace hsup : ((((supportedShape sk && basicKey sk) && tyFaithful sk) &&
        supportedShape sv) && tyFaithful sv) = true := hsup
    rw [Bool.and_eq_true, Bool.and_eq_true, Bool.and_eq_true, Bool.and_eq_true] at hsup
    obtain ⟨⟨⟨⟨hks, hkb⟩, hkt⟩, hvs⟩, hvt⟩ := hsup
    cases v
    case vMap es =>
      replace hwf : wfValEntries sk sv es = true := hwf
      replace hsz : entrySizes es + 1 ≤ n + 1 := hsz
      have hc0 : (nodeOf (.sMap sk sv)).children[0]? = some (nodeOf sk) := by
        rw [show (nodeOf (.sMap sk sv)).children = [nodeOf sk, nodeOf sv] from rfl,
          List.getElem?_cons_zero]
      have hc1 : (nodeOf (.sMap sk sv)).children[1]? = some (nodeOf sv) := by
        rw [show (nodeOf (.sMap sk sv)).children = [nodeOf sk, nodeOf sv] from rfl,
          List.getElem?_cons_succ, List.getElem?_cons_zero]
      obtain ⟨eser, eall⟩ := ihD sk sv es (nodeOf (.sMap sk sv)) (by omega)
        hks hkb hkt hvs hvt hwf hc0 hc1
      constructor
      · have hexp : serialize (.vMap es) (nodeOf (.sMap sk sv)) =
            (serializeMapEntries (nodeOf (.sMap sk sv)) es >>= fun ws =>
             arrayFromVariantIter (nodeOf (.sMap sk sv)).ty ws) := rfl
        rw [hexp, eser, bind_ok]
        have harr : arrayFromVariantIter (nodeOf (.sMap sk sv)).ty
            (expectedWireEntries sk sv es) =
            if (expectedWireEntries sk sv es).all
                (fun w => tyMatches (typeOf w)
                  (.dictEntry (nodeOf sk).ty (nodeOf sv).ty)) then
              Except.ok (GVariant.array (.dictEntry (nodeOf sk).ty (nodeOf sv).ty)
                (expectedWireEntries sk sv es))
            else
              Except.error
                (.panicked "array_from_variant_iter: element type mismatch") := rfl
        rw [harr, if_pos eall]
        rfl
      · intro _
        rfl
    all_goals exact Bool.noConfusion hwf
  case sEnum ename mode variants =>
    replace hsup : ((supportedVariants variants &&
        decide ((variants.map Prod.fst).Nodup)) &&
        decide (variants.length ≤ 2 ^ 32)) = true := hsup
    rw [Bool.and_eq_true, Bool.and_eq_true] at hsup
    obtain ⟨⟨hsv, _⟩, _⟩ := hsup
    cases v
    case vUnitVariant name2 i vn =>
      replace hwf : (match variants[i]? with
        | some (vn', .unitV) => name2 == ename && vn' == vn
        | _ => false) = true := hwf
      rcases hvar : variants[i]? with _ | ⟨vn', p⟩ <;> rw [hvar] at hwf
      · exact Bool.noConfusion hwf
      · cases p <;> (try exact Bool.noConfusion hwf)
        rw [Bool.and_eq_true] at hwf
        obtain ⟨hn2, hvn⟩ := hwf
        have he1 : ename = name2 := (eq_of_beq hn2).symm
        subst he1
        have he2 : vn = vn' := (eq_of_beq hvn).symm
        subst he2
        have he : expectedWire (.sEnum ename mode variants)
            (.vUnitVariant ename i vn) =
            if hasData variants then
              GVariant.tuple [tagWire mode i vn, .box (.tuple [])]
            else tagWire mode i vn := rfl
        cases hhd : hasData variants with
        | false =>
          have hn : nodeOf (.sEnum ename mode variants)
              = .mk (tagTyOf mode) [] := by
            rw [nodeOf_sEnum, hhd, if_neg Bool.false_ne_true]
          rw [he, hhd, if_neg Bool.false_ne_true, hn]
          constructor
          · cases mode <;> rfl
          · intro _
            cases mode <;> rfl
        | true =>
          have hn : nodeOf (.sEnum ename mode variants)
              = .mk (.tuple [tagTyOf mode, .variant]) (variantNodes variants) := by
            rw [nodeOf_sEnum, hhd, if_pos rfl]
          rw [he, hhd, if_pos rfl, hn]
          constructor
          · cases mode <;> rfl
          · intro _
            cases mode <;> rfl
    case vNewtypeVariant name2 i vn pv =>
      replace hwf : (match variants[i]? with
        | some (vn', .newtypeV sp) => (name2 == ename && vn' == vn) && wfVal sp pv
        | _ => false) = true := hwf
      rcases hvar : variants[i]? with _ | ⟨vn', p⟩ <;> rw [hvar] at hwf
      · exact Bool.noConfusion hwf
      · cases p <;> (try exact Bool.noConfusion hwf)
        rename_i sp
        rw [Bool.and_eq_true, Bool.and_eq_true] at hwf
        obtain ⟨⟨hn2, hvn⟩, hwp⟩ := hwf
        have he1 : ename = name2 := (eq_of_beq hn2).symm
        subst he1
        have he2 : vn = vn' := (eq_of_beq hvn).symm
        subst he2
        have hpay := supportedVariants_lookup variants i vn (.newtypeV sp) hsv hvar
        replace hpay : (supportedShape sp && nodeBlind sp) = true := hpay
        rw [Bool.and_eq_true] at hpay
        obtain ⟨hps, hpb⟩ := hpay
        have hhd := hasData_of_newtypeV variants i vn sp hvar
        have hn : nodeOf (.sEnum ename mode variants)
            = .mk (.tuple [tagTyOf mode, .variant]) (variantNodes variants) := by
          rw [nodeOf_sEnum, hhd, if_pos rfl]
        have he : expectedWire (.sEnum ename mode variants)
            (.vNewtypeVariant ename i vn pv) =
            GVariant.tuple [tagWire mode i vn, .box (expectedWire sp pv)] := by
          rw [show expectedWire (.sEnum ename mode variants)
              (.vNewtypeVariant ename i vn pv) =
            (match variants[i]? with
             | some (_, .newtypeV s) =>
               GVariant.tuple [tagWire mode i vn, .box (expectedWire s pv)]
             | _ => GVariant.tuple []) from rfl, hvar]
        rw [he, hn]
        have hser := serialize_nodeBlind sp pv hpb hwp
          (VariantTypeNode.mk (.tuple [tagTyOf mode, .variant]) (variantNodes variants))
        constructor
        · cases mode with
          | nameTag =>
            have hexp : serialize (.vNewtypeVariant ename i vn pv)
                (VariantTypeNode.mk (.tuple [tagTyOf .nameTag, .variant])
                  (variantNodes variants)) =
                (serialize pv (VariantTypeNode.mk (.tuple [tagTyOf .nameTag, .variant])
                    (variantNodes variants)) >>= fun w =>
                  Except.ok (GVariant.tuple [GVariant.str vn, GVariant.box w])) := rfl
            rw [hexp, hser, bind_ok]
            rfl
          | indexTag =>
            have hexp : serialize (.vNewtypeVariant ename i vn pv)
                (VariantTypeNode.mk (.tuple [tagTyOf .indexTag, .variant])
                  (variantNodes variants)) =
                (serialize pv (VariantTypeNode.mk (.tuple [tagTyOf .indexTag, .variant])
                    (variantNodes variants)) >>= fun w =>
                  Except.ok (GVariant.tuple [GVariant.u32 i, GVariant.box w])) := rfl
            rw [hexp, hser, bind_ok]
            rfl
        · intro _
          cases mode <;> rfl
    case vTupleVariant name2 i vn vs =>
      replace hwf : (match variants[i]? with
        | some (vn', .fieldsV ss) => (name2 == ename && vn' == vn) && wfValZip ss vs
        | _ => false) = true := hwf
      rcases hvar : variants[i]? with _ | ⟨vn', p⟩ <;> rw [hvar] at hwf
      · exact Bool.noConfusion hwf
      · cases p <;> (try exact Bool.noConfusion hwf)
        rename_i ss
        rw [Bool.and_eq_true, Bool.and_eq_true] at hwf
        obtain ⟨⟨hn2, hvn⟩, hwz⟩ := hwf
        have he1 : ename = name2 := (eq_of_beq hn2).symm
        subst he1
        have he2 : vn = vn' := (eq_of_beq hvn).symm
        subst he2
        have hpay := supportedVariants_lookup variants i vn (.fieldsV ss) hsv hvar
        replace hpay : supportedList ss = true := hpay
        have hhd := hasData_of_fieldsV variants i vn ss hvar
        have hn : nodeOf (.sEnum ename mode variants)
            = .mk (.tuple [tagTyOf mode, .variant]) (variantNodes variants) := by
          rw [nodeOf_sEnum, hhd, if_pos rfl]
        have hvnode : childTypeOrDefault
            (VariantTypeNode.mk (.tuple [tagTyOf mode, .variant])
              (variantNodes variants)) i = variantNode (.fieldsV ss) := by
          apply childTypeOrDefault_eq
          show (variantNodes variants)[i]? = _
          rw [variantNodes_lookup variants i, hvar]
          rfl
        have hch : ∀ j : Nat,
            (variantNode (.fieldsV ss)).children[0 + j]? = (nodesOf ss)[j]? := by
          intro j
          rw [Nat.zero_add, variantNode_fieldsV_children]
        replace hsz : valSizes vs + 1 ≤ n + 1 := hsz
        obtain ⟨fser, _⟩ :=
          ihC ss vs (variantNode (.fieldsV ss)) 0 (by omega) hpay hwz hch
        have he : expectedWire (.sEnum ename mode variants)
            (.vTupleVariant ename i vn vs) =
            GVariant.tuple [tagWire mode i vn,
              .box (.tuple (expectedWireZip ss vs))] := by
          rw [show expectedWire (.sEnum ename mode variants)
              (.vTupleVariant ename i vn vs) =
            (match variants[i]? with
             | some (_, .fieldsV ss2) =>
               GVariant.tuple [tagWire mode i vn,
                 .box (.tuple (expectedWireZip ss2 vs))]
             | _ => GVariant.tuple []) from rfl, hvar]
        rw [he, hn]
        constructor
        · cases mode with
          | nameTag =>
            have hexp : serialize (.vTupleVariant ename i vn vs)
                (VariantTypeNode.mk (.tuple [tagTyOf .nameTag, .variant])
                  (variantNodes variants)) =
                (serializeTupleElems (childTypeOrDefault
                    (VariantTypeNode.mk (.tuple [tagTyOf .nameTag, .variant])
                      (variantNodes variants)) i) 0 vs >>= fun ws =>
                  Except.ok (GVariant.tuple
                    [GVariant.str vn, GVariant.box (GVariant.tuple ws)])) := rfl
            rw [hexp, hvnode, fser, bind_ok]
            rfl
          | indexTag =>
            have hexp : serialize (.vTupleVariant ename i vn vs)
                (VariantTypeNode.mk (.tuple [tagTyOf .indexTag, .variant])
                  (variantNodes variants)) =
                (serializeTupleElems (childTypeOrDefault
                    (VariantTypeNode.mk (.tuple [tagTyOf .indexTag, .variant])
                      (variantNodes variants)) i) 0 vs >>= fun ws =>
                  Except.ok (GVariant.tuple
                    [GVariant.u32 i, GVariant.box (GVariant.tuple ws)])) := rfl
            rw [hexp, hvnode, fser, bind_ok]
            rfl
        · intro _
          cases mode <;> rfl
    all_goals exact Bool.noConfusion hwf
  all_goals
    cases v <;> first | exact Bool.noConfusion hwf | exact ⟨rfl, fun _ => rfl⟩
end GlibSerde

namespace GlibSerde
/-- The serializer sends every supported well-formed value to its expected
wire form (all four packages, by strong induction on value size). -/
theorem serialize_eq (n : Nat) :
    SerOne n ∧ SerList n ∧ SerFields n ∧ SerEntries n := by
  induction n with
  | zero => exact ⟨serOne_zero, serList_zero, serFields_zero, serEntries_zero⟩
  | succ n ih =>
    obtain ⟨a, b, c, d⟩ := ih
    exact ⟨serOne_step n a b c d, serList_step n a b,
      serFields_step n a c, serEntries_step n a d⟩

/-- `to_variant` on the supported fragment: success, with the closed-form
wire value. -/
theorem toVariant_expected (s : Shape) (v : SerdeVal)
    (hsup : supportedShape s = true) (hwf : wfVal s v = true) :
    toVariant s v = .ok (expectedWire s v) := by
  rw [toVariant]
  exact ((serialize_eq (valSize v)).1 s v (Nat.le_refl _) hsup hwf).1
end GlibSerde

namespace GlibSerde
theorem deOne_zero : DeOne 0 := by
  intro fuel s v _ _ hn _
  have := shapeSize_pos s
  omega

theorem deList_zero : DeList 0 := by
  intro fuel s vs _ _ hn _
  omega

theorem deFields_zero : DeFields 0 := by
  intro fuel ss vs _ _ hn _
  omega

theorem deEntries_zero : DeEntries 0 := by
  intro fuel k v es _ _ _ hn _
  omega

theorem wireSize_pos (w : GVariant) : 1 ≤ wireSize w := by
  cases w <;>
    first
    | simp [wireSize]
    | (rename_i o; cases o <;> simp [wireSize])

theorem deList_step (n : Nat) (ihA : DeOne n) (ihB : DeList n) : DeList (n + 1) := by
  intro fuel s vs hsup hwf hn hf
  cases vs with
  | nil =>
    obtain ⟨f, rfl⟩ : ∃ f, fuel = f + 1 := ⟨fuel - 1, by omega⟩
    rfl
  | cons v rest =>
    replace hwf : (wfVal s v && wfValList s rest) = true := hwf
    rw [Bool.and_eq_true] at hwf
    obtain ⟨hw1, hw2⟩ := hwf
    replace hn : 2 * shapeSize s + (wireSize (expectedWire s v) +
      wireSizes (expectedWireList s rest) + 1) + 1 ≤ n + 1 := hn
    replace hf : 2 * shapeSize s + (wireSize (expectedWire s v) +
      wireSizes (expectedWireList s rest) + 1) + 1 ≤ fuel := hf
    have hv := wireSize_pos (expectedWire s v)
    have hs := shapeSize_pos s
    obtain ⟨f, rfl⟩ : ∃ f, fuel = f + 1 := ⟨fuel - 1, by omega⟩
    show (deserializeF f s (expectedWire s v) >>= fun x =>
      deserializeListF f s (expectedWireList s rest) >>= fun xs =>
      Except.ok (x :: xs)) = Except.ok (v :: rest)
    rw [ihA f s v hsup hw1 (by omega) (by omega), bind_ok,
      ihB f s rest hsup hw2 (by omega) (by omega), bind_ok]

theorem deFields_step (n : Nat) (ihA : DeOne n) (ihC : DeFields n) :
    DeFields (n + 1) := by
  intro fuel ss vs hsup hwf hn hf
  cases ss with
  | nil =>
    cases vs with
    | nil =>
      obtain ⟨f, rfl⟩ : ∃ f, fuel = f + 1 := ⟨fuel - 1, by omega⟩
      rfl
    | cons v rest => exact Bool.noConfusion hwf
  | cons s srest =>
    cases vs with
    | nil => exact Bool.noConfusion hwf
    | cons v rest =>
      replace hwf : (wfVal s v && wfValZip srest rest) = true := hwf
      rw [Bool.and_eq_true] at hwf
      obtain ⟨hw1, hw2⟩ := hwf
      replace hsup : (supportedShape s && supportedList srest) = true := hsup
      rw [Bool.and_eq_true] at hsup
      obtain ⟨hs1, hs2⟩ := hsup
      replace hn : 2 * (shapeSize s + shapeSizes srest + 1) +
        (wireSize (expectedWire s v) +
          wireSizes (expectedWireZip srest rest) + 1) + 1 ≤ n + 1 := hn
      replace hf : 2 * (shapeSize s + shapeSizes srest + 1) +
        (wireSize (expectedWire s v) +
          wireSizes (expectedWireZip srest rest) + 1) + 1 ≤ fuel := hf
      have hv := wireSize_pos (expectedWire s v)
      have hs := shapeSize_pos s
      obtain ⟨f, rfl⟩ : ∃ f, fuel = f + 1 := ⟨fuel - 1, by omega⟩
      show (deserializeF f s (expectedWire s v) >>= fun x =>
        decodeFieldsF f srest (expectedWireZip srest rest) >>= fun xs =>
        Except.ok (x :: xs)) = Except.ok (v :: rest)
      rw [ihA f s v hs1 hw1 (by omega) (by omega), bind_ok,
        ihC f srest rest hs2 hw2 (by omega) (by omega), bind_ok]

theorem deEntries_step (n : Nat) (ihA : DeOne n) (ihD : DeEntries n) :
    DeEntries (n + 1) := by
  intro fuel k v es hsk hsv hwf hn hf
  cases es with
  | nil =>
    obtain ⟨f, rfl⟩ : ∃ f, fuel = f + 1 := ⟨fuel - 1, by omega⟩
    rfl
  | cons e rest =>
    cases e with
    | mk kx vx =>
      replace hwf : (wfVal k kx && wfVal v vx && wfValEntries k v rest) = true := hwf
      rw [Bool.and_eq_true, Bool.and_eq_true] at hwf
      obtain ⟨⟨hw1, hw2⟩, hw3⟩ := hwf
      replace hn : 2 * (shapeSize k + shapeSize v) +
        ((wireSize (expectedWire k kx) + wireSize (expectedWire v vx) + 1) +
          wireSizes (expectedWireEntries k v rest) + 1) + 1 ≤ n + 1 := hn
      replace hf : 2 * (shapeSize k + shapeSize v) +
        ((wireSize (expectedWire k kx) + wireSize (expectedWire v vx) + 1) +
          wireSizes (expectedWireEntries k v rest) + 1) + 1 ≤ fuel := hf
      have hk := wireSize_pos (expectedWire k kx)
      have hv2 := wireSize_pos (expectedWire v vx)
      have hpk := shapeSize_pos k
      have hpv := shapeSize_pos v
      obtain ⟨f, rfl⟩ : ∃ f, fuel = f + 1 := ⟨fuel - 1, by omega⟩
      show (deserializeF f k (expectedWire k kx) >>= fun x =>
        deserializeF f v (expectedWire v vx) >>= fun y =>
        deserializeEntriesF f k v (expectedWireEntries k v rest) >>= fun zs =>
        Except.ok ((x, y) :: zs)) = Except.ok ((kx, vx) :: rest)
      rw [ihA f k kx hsk hw1 (by omega) (by omega), bind_ok,
        ihA f v vx hsv hw2 (by omega) (by omega), bind_ok,
        ihD f k v rest hsk hsv hw3 (by omega) (by omega), bind_ok]
end GlibSerde

namespace GlibSerde
theorem tyMatches_anyBasic (t : VarTy) : tyMatches t .anyBasic = t.isBasic := by
  cases t <;> rfl

theorem deOne_step (n : Nat) (ihA : DeOne n) (ihB : DeList n)
    (ihC : DeFields n) (ihD : DeEntries n) : DeOne (n + 1) := by
  intro fuel s v hsup hwf hn hf
  obtain ⟨f, rfl⟩ : ∃ f, fuel = f + 1 :=
    ⟨fuel - 1, by have := valSize_pos v; have := shapeSize_pos s; omega⟩
  cases s
  case sOption inner =>
    replace hsup : (supportedShape inner && tyFaithful inner) = true := hsup
    rw [Bool.and_eq_true] at hsup
    obtain ⟨hsi, hti⟩ := hsup
    cases v
    case vNone =>
      have hexp : deserializeF (f + 1) (.sOption inner)
          (expectedWire (.sOption inner) .vNone) =
          (isOfType (.maybe (nodeOf inner).ty none) (.maybe .anyTy) >>= fun _ =>
           Except.ok SerdeVal.vNone) := rfl
      rw [hexp, isOfType_ok _ _ (by
        show tyMatches (nodeOf inner).ty VarTy.anyTy = true
        exact tyMatches_anyTy _), bind_ok]
    case vSome v0 =>
      replace hwf : wfVal inner v0 = true := hwf
      replace hn : 2 * (shapeSize inner + 1) +
        (wireSize (expectedWire inner v0) + 1) ≤ n + 1 := hn
      replace hf : 2 * (shapeSize inner + 1) +
        (wireSize (expectedWire inner v0) + 1) ≤ f + 1 := hf
      have hexp : deserializeF (f + 1) (.sOption inner)
          (expectedWire (.sOption inner) (.vSome v0)) =
          (isOfType (.maybe (typeOf (expectedWire inner v0))
              (some (expectedWire inner v0))) (.maybe .anyTy) >>= fun _ =>
           (deserializeF f inner (expectedWire inner v0)).map SerdeVal.vSome) := rfl
      rw [hexp, isOfType_ok _ _ (by
        show tyMatches (typeOf (expectedWire inner v0)) VarTy.anyTy = true
        exact tyMatches_anyTy _), bind_ok,
        ihA f inner v0 hsi hwf (by omega) (by omega)]
      rfl
    all_goals exact Bool.noConfusion hwf
  case sSeq inner =>
    replace hsup :
        ((supportedShape inner && tyFaithful inner) && fixedCompatible inner) = true := hsup
    rw [Bool.and_eq_true, Bool.and_eq_true] at hsup
    obtain ⟨⟨hsi, hti⟩, hfc⟩ := hsup
    cases v
    case vSeq vs =>
      replace hwf : wfValList inner vs = true := hwf
      replace hn : 2 * (shapeSize inner + 1) +
        (wireSizes (expectedWireList inner vs) + 1) ≤ n + 1 := hn
      replace hf : 2 * (shapeSize inner + 1) +
        (wireSizes (expectedWireList inner vs) + 1) ≤ f + 1 := hf
      cases hc : codeOfTy (nodeOf inner).ty with
      | some c =>
        have hscalar : scalarShape inner = true := by
          replace hfc :
              (!(codeOfTy (nodeOf inner).ty).isSome || scalarShape inner) = true := hfc
          rw [hc] at hfc
          simpa using hfc
        have hinner := scalar_code_shape inner c hscalar hc
        subst hinner
        rw [show expectedWire (.sSeq (shapeOfCode c)) (.vSeq vs)
          = GVariant.array (nodeOf (shapeOfCode c)).ty
              (expectedWireList (shapeOfCode c) vs) from rfl,
          nodeOf_shapeOfCode_ty c]
        have hexp : deserializeF (f + 1) (.sSeq (shapeOfCode c))
            (GVariant.array c.toTy (expectedWireList (shapeOfCode c) vs)) =
            (match codeOfTy c.toTy with
             | some c2 =>
               fixedArray c2 (GVariant.array c.toTy
                   (expectedWireList (shapeOfCode c) vs)) >>= fun prims =>
                 (decodePrims (shapeOfCode c) prims).map SerdeVal.vSeq
             | none =>
               (deserializeListF f (shapeOfCode c)
                 (expectedWireList (shapeOfCode c) vs)).map SerdeVal.vSeq) := rfl
        rw [hexp, codeOfTy_toTy]
        show (fixedArray c (GVariant.array c.toTy
            (expectedWireList (shapeOfCode c) vs)) >>= fun prims =>
          Except.map SerdeVal.vSeq (decodePrims (shapeOfCode c) prims))
          = Except.ok (SerdeVal.vSeq vs)
        have hfa : fixedArray c (GVariant.array c.toTy
            (expectedWireList (shapeOfCode c) vs))
            = .ok (expectedWireList (shapeOfCode c) vs) := by
          rw [show fixedArray c (GVariant.array c.toTy
              (expectedWireList (shapeOfCode c) vs)) =
            (if (codeOfTy c.toTy == some c) &&
                (expectedWireList (shapeOfCode c) vs).all
                  (fun w => codeOfTy (typeOf w) == some c) then
              Except.ok (expectedWireList (shapeOfCode c) vs)
            else
              Except.error (.mismatch
                (typeOf (.array c.toTy (expectedWireList (shapeOfCode c) vs)))
                (.array c.toTy))) from rfl,
            codeOfTy_toTy, fixed_elem_codes c vs hwf, beq_self_eq_true]
          rfl
        rw [hfa, bind_ok, decodePrims_expected c vs hwf]
        rfl
      | none =>
        have hexp : deserializeF (f + 1) (.sSeq inner)
            (expectedWire (.sSeq inner) (.vSeq vs)) =
            (match codeOfTy (nodeOf inner).ty with
             | some c2 =>
               fixedArray c2 (GVariant.array (nodeOf inner).ty
                   (expectedWireList inner vs)) >>= fun prims =>
                 (decodePrims inner prims).map SerdeVal.vSeq
             | none =>
               (deserializeListF f inner
                 (expectedWireList inner vs)).map SerdeVal.vSeq) := rfl
        rw [hexp, hc]
        show Except.map SerdeVal.vSeq
            (deserializeListF f inner (expectedWireList inner vs))
          = Except.ok (SerdeVal.vSeq vs)
        rw [ihB f inner vs hsi hwf (by omega) (by omega)]
        rfl
    all_goals exact Bool.noConfusion hwf
  case sTuple ss =>
    cases v
    case vTuple vs =>
      replace hwf : wfValZip ss vs = true := hwf
      replace hsup : supportedList ss = true := hsup
      replace hn : 2 * (shapeSizes ss + 1) +
        (wireSizes (expectedWireZip ss vs) + 1) ≤ n + 1 := hn
      replace hf : 2 * (shapeSizes ss + 1) +
        (wireSizes (expectedWireZip ss vs) + 1) ≤ f + 1 := hf
      have lens := wfValZip_lengths ss vs hwf
      obtain ⟨f2, rfl⟩ : ∃ f2, f = f2 + 1 := ⟨f - 1, by omega⟩
      show (deserializeTupleAsF (f2 + 1) ss
          (.tuple (expectedWireZip ss vs))).map SerdeVal.vTuple
        = Except.ok (SerdeVal.vTuple vs)
      rw [deserializeTupleAsF_tuple, if_neg (by rw [lens.2]; simp),
        ihC f2 ss vs hsup hwf (by omega) (by omega)]
      rfl
    all_goals exact Bool.noConfusion hwf
  case sNewtype name inner =>
    replace hsup : (((supportedShape inner && childBlind inner) &&
        (name != objectPathStructName)) && (name != signatureStructName)) = true := hsup
    rw [Bool.and_eq_true, Bool.and_eq_true, Bool.and_eq_true] at hsup
    obtain ⟨⟨⟨hsi, _⟩, _⟩, _⟩ := hsup
    cases v
    case vNewtypeStruct name2 v0 =>
      replace hwf : (name2 == name && wfVal inner v0) = true := hwf
      rw [Bool.and_eq_true] at hwf
      obtain ⟨hname, hw0⟩ := hwf
      have hname' : name = name2 := (eq_of_beq hname).symm
      subst hname'
      replace hn : 2 * (shapeSize inner + 1) +
        wireSize (expectedWire inner v0) ≤ n + 1 := hn
      replace hf : 2 * (shapeSize inner + 1) +
        wireSize (expectedWire inner v0) ≤ f + 1 := hf
      show (deserializeF f inner (expectedWire inner v0)).map
          (SerdeVal.vNewtypeStruct name) = Except.ok (SerdeVal.vNewtypeStruct name v0)
      rw [ihA f inner v0 hsi hw0 (by omega) (by omega)]
      rfl
    all_goals exact Bool.noConfusion hwf
  case sStruct name fields =>
    replace hsup : (supportedList fields && (name != variantStructName)) = true := hsup
    rw [Bool.and_eq_true] at hsup
    obtain ⟨hsl, _⟩ := hsup
    cases v
    case vStruct name2 vs =>
      replace hwf : (name2 == name && wfValZip fields vs) = true := hwf
      rw [Bool.and_eq_true] at hwf
      obtain ⟨hname, hwz⟩ := hwf
      have hname' : name = name2 := (eq_of_beq hname).symm
      subst hname'
      replace hn : 2 * (shapeSizes fields + 1) +
        (wireSizes (expectedWireZip fields vs) + 1) ≤ n + 1 := hn
      replace hf : 2 * (shapeSizes fields + 1) +
        (wireSizes (expectedWireZip fields vs) + 1) ≤ f + 1 := hf
      have lens := wfValZip_lengths fields vs hwz
      obtain ⟨f2, rfl⟩ : ∃ f2, f = f2 + 1 := ⟨f - 1, by omega⟩
      show (deserializeTupleAsF (f2 + 1) fields
          (.tuple (expectedWireZip fields vs))).map (SerdeVal.vStruct name)
        = Except.ok (SerdeVal.vStruct name vs)
      rw [deserializeTupleAsF_tuple, if_neg (by rw [lens.2]; simp),
        ihC f2 fields vs hsl hwz (by omega) (by omega)]
      rfl
    all_goals exact Bool.noConfusion hwf
  case sMap sk sv =>
    replace hsup : ((((supportedShape sk && basicKey sk) && tyFaithful sk) &&
        supportedShape sv) && tyFaithful sv) = true := hsup
    rw [Bool.and_eq_true, Bool.and_eq_true, Bool.and_eq_true, Bool.and_eq_true] at hsup
    obtain ⟨⟨⟨⟨hks, hkb⟩, hkt⟩, hvs⟩, hvt⟩ := hsup
    replace hkb : (nodeOf sk).ty.isBasic = true := hkb
    cases v
    case vMap es =>
      replace hwf : wfValEntries sk sv es = true := hwf
      replace hn : 2 * (shapeSize sk + shapeSize sv + 1) +
        (wireSizes (expectedWireEntries sk sv es) + 1) ≤ n + 1 := hn
      replace hf : 2 * (shapeSize sk + shapeSize sv + 1) +
        (wireSizes (expectedWireEntries sk sv es) + 1) ≤ f + 1 := hf
      have hexp : deserializeF (f + 1) (.sMap sk sv)
          (expectedWire (.sMap sk sv) (.vMap es)) =
          (isOfType (.array (.dictEntry (nodeOf sk).ty (nodeOf sv).ty)
              (expectedWireEntries sk sv es))
            (.array (.dictEntry .anyBasic .anyTy)) >>= fun _ =>
           (deserializeEntriesF f sk sv
             (expectedWireEntries sk sv es)).map SerdeVal.vMap) := rfl
      rw [hexp, isOfType_ok _ _ (by
          show (tyMatches (nodeOf sk).ty VarTy.anyBasic &&
            tyMatches (nodeOf sv).ty VarTy.anyTy) = true
          rw [tyMatches_anyBasic, tyMatches_anyTy, hkb]
          rfl), bind_ok,
        ihD f sk sv es hks hvs hwf (by omega) (by omega)]
      rfl
    all_goals exact Bool.noConfusion hwf
  case sEnum ename mode variants =>
    replace hsup : ((supportedVariants variants &&
        decide ((variants.map Prod.fst).Nodup)) &&
        decide (variants.length ≤ 2 ^ 32)) = true := hsup
    rw [Bool.and_eq_true, Bool.and_eq_true] at hsup
    obtain ⟨⟨hsv, hnd0⟩, _⟩ := hsup
    have hnd := of_decide_eq_true hnd0
    cases v
    case vUnitVariant name2 i vn =>
      replace hwf : (match variants[i]? with
        | some (vn', .unitV) => name2 == ename && vn' == vn
        | _ => false) = true := hwf
      rcases hvar : variants[i]? with _ | ⟨vn', p⟩ <;> rw [hvar] at hwf
      · exact Bool.noConfusion hwf
      · cases p <;> (try exact Bool.noConfusion hwf)
        rw [Bool.and_eq_true] at hwf
        obtain ⟨hn2, hvn⟩ := hwf
        have he1 : ename = name2 := (eq_of_beq hn2).symm
        subst he1
        have he2 : vn = vn' := (eq_of_beq hvn).symm
        subst he2
        have hlen := getElem?_lt_length variants i _ hvar
        have hdi : decodeIdent variants (tagWire mode i vn) = .ok i := by
          cases mode with
          | nameTag =>
            rw [show decodeIdent variants (tagWire .nameTag i vn) =
              (match findVariant variants vn with
               | some j => Except.ok j
               | none => Except.error (.custom "unknown variant")) from rfl,
              findVariant_nodup variants i vn .unitV hnd hvar]
          | indexTag =>
            rw [show decodeIdent variants (tagWire .indexTag i vn) =
              (if i < variants.length then Except.ok i
               else Except.error (.custom "invalid variant index")) from rfl,
              if_pos hlen]
        cases hhd : hasData variants with
        | false =>
          rw [show expectedWire (.sEnum ename mode variants)
              (.vUnitVariant ename i vn) =
            (if hasData variants then
              GVariant.tuple [tagWire mode i vn, .box (.tuple [])]
            else tagWire mode i vn) from rfl, hhd, if_neg Bool.false_ne_true]
          have hexp : deserializeF (f + 1) (.sEnum ename mode variants)
              (tagWire mode i vn) =
              (decodeIdent variants (tagWire mode i vn) >>= fun idx =>
               match variants[idx]? with
               | some (vn2, .unitV) =>
                 Except.ok (SerdeVal.vUnitVariant ename idx vn2)
               | some _ => Except.error (.unsupportedType (typeOf (tagWire mode i vn)))
               | none => Except.error (.custom "unknown variant")) := by
            cases mode <;> rfl
          rw [hexp, hdi, bind_ok, hvar]
        | true =>
          rw [show expectedWire (.sEnum ename mode variants)
              (.vUnitVariant ename i vn) =
            (if hasData variants then
              GVariant.tuple [tagWire mode i vn, .box (.tuple [])]
            else tagWire mode i vn) from rfl, hhd, if_pos rfl]
          have hexp : deserializeF (f + 1) (.sEnum ename mode variants)
              (GVariant.tuple [tagWire mode i vn, .box (.tuple [])]) =
              (decodeIdent variants (tagWire mode i vn) >>= fun idx =>
               match variants[idx]? with
               | some (vn2, .unitV) => do
                 let val ← enumValue
                   (GVariant.tuple [tagWire mode i vn, .box (.tuple [])])
                 let _ ← isOfType val (.tuple [])
                 Except.ok (SerdeVal.vUnitVariant ename idx vn2)
               | some (vn2, .newtypeV s2) => do
                 let val ← enumValue
                   (GVariant.tuple [tagWire mode i vn, .box (.tuple [])])
                 (deserializeF f s2 val).map (SerdeVal.vNewtypeVariant ename idx vn2)
               | some (vn2, .fieldsV ss2) =>
                 enumValue
                   (GVariant.tuple [tagWire mode i vn, .box (.tuple [])]) >>=
                 fun val2 =>
                 (match val2 with
                  | GVariant.array e vs2 =>
                    (match codeOfTy e with
                     | some c =>
                       fixedArray c (GVariant.array e vs2) >>= fun prims =>
                         (decodeFieldsPrim ss2 prims).map
                           (SerdeVal.vTupleVariant ename idx vn2)
                     | none => (decodeFieldsF f ss2 vs2).map
                         (SerdeVal.vTupleVariant ename idx vn2))
                  | GVariant.tuple vs2 => (decodeFieldsF f ss2 vs2).map
                      (SerdeVal.vTupleVariant ename idx vn2)
                  | val2 => Except.error (.unsupportedType (typeOf val2)))
               | none => Except.error (.custom "unknown variant")) := by
            cases mode <;> rfl
          rw [hexp, hdi, bind_ok, hvar]
          rfl
    case vNewtypeVariant name2 i vn pv =>
      replace hwf : (match variants[i]? with
        | some (vn', .newtypeV sp) => (name2 == ename && vn' == vn) && wfVal sp pv
        | _ => false) = true := hwf
      rcases hvar : variants[i]? with _ | ⟨vn', p⟩ <;> rw [hvar] at hwf
      · exact Bool.noConfusion hwf
      · cases p <;> (try exact Bool.noConfusion hwf)
        rename_i sp
        rw [Bool.and_eq_true, Bool.and_eq_true] at hwf
        obtain ⟨⟨hn2, hvn⟩, hwp⟩ := hwf
        have he1 : ename = name2 := (eq_of_beq hn2).symm
        subst he1
        have he2 : vn = vn' := (eq_of_beq hvn).symm
        subst he2
        have hlen := getElem?_lt_length variants i _ hvar
        have hps := payloadSize_le_variantSizes variants i vn (.newtypeV sp) hvar
        replace hps : shapeSize sp + 1 ≤ variantSizes variants := hps
        have hpay := supportedVariants_lookup variants i vn (.newtypeV sp) hsv hvar
        replace hpay : (supportedShape sp && nodeBlind sp) = true := hpay
        rw [Bool.and_eq_true] at hpay
        obtain ⟨hps2, _⟩ := hpay
        rw [show expectedWire (.sEnum ename mode variants)
            (.vNewtypeVariant ename i vn pv) =
          (match variants[i]? with
           | some (_, .newtypeV s2) =>
             GVariant.tuple [tagWire mode i vn, .box (expectedWire s2 pv)]
           | _ => GVariant.tuple []) from rfl, hvar] at hn hf
        replace hn : 2 * (variantSizes variants + 1) +
          ((wireSize (tagWire mode i vn) +
            (((wireSize (expectedWire sp pv)) + 1) + 0 + 1) + 1) + 1) ≤ n + 1 := hn
        replace hf : 2 * (variantSizes variants + 1) +
          ((wireSize (tagWire mode i vn) +
            (((wireSize (expectedWire sp pv)) + 1) + 0 + 1) + 1) + 1) ≤ f + 1 := hf
        have hdi : decodeIdent variants (tagWire mode i vn) = .ok i := by
          cases mode with
          | nameTag =>
            rw [show decodeIdent variants (tagWire .nameTag i vn) =
              (match findVariant variants vn with
               | some j => Except.ok j
               | none => Except.error (.custom "unknown variant")) from rfl,
              findVariant_nodup variants i vn (.newtypeV sp) hnd hvar]
          | indexTag =>
            rw [show decodeIdent variants (tagWire .indexTag i vn) =
              (if i < variants.length then Except.ok i
               else Except.error (.custom "invalid variant index")) from rfl,
              if_pos hlen]
        rw [show expectedWire (.sEnum ename mode variants)
            (.vNewtypeVariant ename i vn pv) =
          (match variants[i]? with
           | some (_, .newtypeV s2) =>
             GVariant.tuple [tagWire mode i vn, .box (expectedWire s2 pv)]
           | _ => GVariant.tuple []) from rfl, hvar]
        have hexp : deserializeF (f + 1) (.sEnum ename mode variants)
            (GVariant.tuple [tagWire mode i vn, .box (expectedWire sp pv)]) =
            (decodeIdent variants (tagWire mode i vn) >>= fun idx =>
             match variants[idx]? with
             | some (vn2, .unitV) => do
               let val ← enumValue
                 (GVariant.tuple [tagWire mode i vn, .box (expectedWire sp pv)])
               let _ ← isOfType val (.tuple [])
               Except.ok (SerdeVal.vUnitVariant ename idx vn2)
             | some (vn2, .newtypeV s2) => do
               let val ← enumValue
                 (GVariant.tuple [tagWire mode i vn, .box (expectedWire sp pv)])
               (deserializeF f s2 val).map (SerdeVal.vNewtypeVariant ename idx vn2)
             | some (vn2, .fieldsV ss2) =>
               enumValue
                 (GVariant.tuple [tagWire mode i vn,
                   .box (expectedWire sp pv)]) >>= fun val2 =>
               (match val2 with
                | GVariant.array e vs2 =>
                  (match codeOfTy e with
                   | some c =>
                     fixedArray c (GVariant.array e vs2) >>= fun prims =>
                       (decodeFieldsPrim ss2 prims).map
                         (SerdeVal.vTupleVariant ename idx vn2)
                   | none => (decodeFieldsF f ss2 vs2).map
                       (SerdeVal.vTupleVariant ename idx vn2))
                | GVariant.tuple vs2 => (decodeFieldsF f ss2 vs2).map
                    (SerdeVal.vTupleVariant ename idx vn2)
                | val2 => Except.error (.unsupportedType (typeOf val2)))
             | none => Except.error (.custom "unknown variant")) := by
          cases mode <;> rfl
        rw [hexp, hdi, bind_ok, hvar]
        show (deserializeF f sp (expectedWire sp pv)).map
            (SerdeVal.vNewtypeVariant ename i vn)
          = Except.ok (SerdeVal.vNewtypeVariant ename i vn pv)
        rw [ihA f sp pv hps2 hwp (by omega) (by omega)]
        rfl
    case vTupleVariant name2 i vn vs =>
      replace hwf : (match variants[i]? with
        | some (vn', .fieldsV ss) => (name2 == ename && vn' == vn) && wfValZip ss vs
        | _ => false) = true := hwf
      rcases hvar : variants[i]? with _ | ⟨vn', p⟩ <;> rw [hvar] at hwf
      · exact Bool.noConfusion hwf
      · cases p <;> (try exact Bool.noConfusion hwf)
        rename_i ss
        rw [Bool.and_eq_true, Bool.and_eq_true] at hwf
        obtain ⟨⟨hn2, hvn⟩, hwz⟩ := hwf
        have he1 : ename = name2 := (eq_of_beq hn2).symm
        subst he1
        have he2 : vn = vn' := (eq_of_beq hvn).symm
        subst he2
        have hlen := getElem?_lt_length variants i _ hvar
        have hps := payloadSize_le_variantSizes variants i vn (.fieldsV ss) hvar
        replace hps : shapeSizes ss + 1 ≤ variantSizes variants := hps
        have hpay := supportedVariants_lookup variants i vn (.fieldsV ss) hsv hvar
        replace hpay : supportedList ss = true := hpay
        rw [show expectedWire (.sEnum ename mode variants)
            (.vTupleVariant ename i vn vs) =
          (match variants[i]? with
           | some (_, .fieldsV ss2) =>
             GVariant.tuple [tagWire mode i vn,
               .box (.tuple (expectedWireZip ss2 vs))]
           | _ => GVariant.tuple []) from rfl, hvar] at hn hf
        replace hn : 2 * (variantSizes variants + 1) +
          ((wireSize (tagWire mode i vn) +
            ((((wireSizes (expectedWireZip ss vs)) + 1) + 1) + 0 + 1) + 1) + 1)
          ≤ n + 1 := hn
        replace hf : 2 * (variantSizes variants + 1) +
          ((wireSize (tagWire mode i vn) +
            ((((wireSizes (expectedWireZip ss vs)) + 1) + 1) + 0 + 1) + 1) + 1)
          ≤ f + 1 := hf
        have hdi : decodeIdent variants (tagWire mode i vn) = .ok i := by
          cases mode with
          | nameTag =>
            rw [show decodeIdent variants (tagWire .nameTag i vn) =
              (match findVariant variants vn with
               | some j => Except.ok j
               | none => Except.error (.custom "unknown variant")) from rfl,
              findVariant_nodup variants i vn (.fieldsV ss) hnd hvar]
          | indexTag =>
            rw [show decodeIdent variants (tagWire .indexTag i vn) =
              (if i < variants.length then Except.ok i
               else Except.error (.custom "invalid variant index")) from rfl,
              if_pos hlen]
        rw [show expectedWire (.sEnum ename mode variants)
            (.vTupleVariant ename i vn vs) =
          (match variants[i]? with
           | some (_, .fieldsV ss2) =>
             GVariant.tuple [tagWire mode i vn,
               .box (.tuple (expectedWireZip ss2 vs))]
           | _ => GVariant.tuple []) from rfl, hvar]
        have hexp : deserializeF (f + 1) (.sEnum ename mode variants)
            (GVariant.tuple [tagWire mode i vn,
              .box (.tuple (expectedWireZip ss vs))]) =
            (decodeIdent variants (tagWire mode i vn) >>= fun idx =>
             match variants[idx]? with
             | some (vn2, .unitV) => do
               let val ← enumValue (GVariant.tuple [tagWire mode i vn,
                 .box (.tuple (expectedWireZip ss vs))])
               let _ ← isOfType val (.tuple [])
               Except.ok (SerdeVal.vUnitVariant ename idx vn2)
             | some (vn2, .newtypeV s2) => do
               let val ← enumValue (GVariant.tuple [tagWire mode i vn,
                 .box (.tuple (expectedWireZip ss vs))])
               (deserializeF f s2 val).map (SerdeVal.vNewtypeVariant ename idx vn2)
             | some (vn2, .fieldsV ss2) =>
               enumValue (GVariant.tuple [tagWire mode i vn,
                 .box (.tuple (expectedWireZip ss vs))]) >>= fun val2 =>
               (match val2 with
                | GVariant.array e vs2 =>
                  (match codeOfTy e with
                   | some c =>
                     fixedArray c (GVariant.array e vs2) >>= fun prims =>
                       (decodeFieldsPrim ss2 prims).map
                         (SerdeVal.vTupleVariant ename idx vn2)
                   | none => (decodeFieldsF f ss2 vs2).map
                       (SerdeVal.vTupleVariant ename idx vn2))
                | GVariant.tuple vs2 => (decodeFieldsF f ss2 vs2).map
                    (SerdeVal.vTupleVariant ename idx vn2)
                | val2 => Except.error (.unsupportedType (typeOf val2)))
             | none => Except.error (.custom "unknown variant")) := by
          cases mode <;> rfl
        rw [hexp, hdi, bind_ok, hvar]
        obtain ⟨f2, rfl⟩ : ∃ f2, f = f2 + 1 := ⟨f - 1, by omega⟩
        show (decodeFieldsF (f2 + 1) ss (expectedWireZip ss vs)).map
            (SerdeVal.vTupleVariant ename i vn)
          = Except.ok (SerdeVal.vTupleVariant ename i vn vs)
        rw [ihC (f2 + 1) ss vs hpay hwz (by omega) (by omega)]
        rfl
    all_goals exact Bool.noConfusion hwf
  all_goals
    cases v <;> first | exact Bool.noConfusion hwf | rfl
end GlibSerde


namespace GlibSerde
/-- The deserializer recovers every supported well-formed value from its
expected wire form whenever the fuel covers the wire-plus-shape measure. -/
theorem deserialize_eq (n : Nat) :
    DeOne n ∧ DeList n ∧ DeFields n ∧ DeEntries n := by
  induction n with
  | zero => exact ⟨deOne_zero, deList_zero, deFields_zero, deEntries_zero⟩
  | succ n ih =>
    obtain ⟨a, b, c, d⟩ := ih
    exact ⟨deOne_step n a b c d, deList_step n a b,
      deFields_step n a c, deEntries_step n a d⟩

/-- `from_variant` recovers a supported well-formed value from its expected
wire form: the computable fuel `fromVariant` supplies covers the measure. -/
theorem fromVariant_expected (s : Shape) (v : SerdeVal)
    (hsup : supportedShape s = true) (hwf : wfVal s v = true) :
    fromVariant s (expectedWire s v) = .ok v := by
  rw [fromVariant]
  exact (deserialize_eq (2 * shapeSize s + wireSize (expectedWire s v))).1
    (2 * (shapeSize s + wireSize (expectedWire s v))) s v hsup hwf
    (Nat.le_refl _) (by omega)

/-- Claim C1 counterexample: the round-trip fails outright for an enum with
a string newtype-variant payload.  `serialize_newtype_variant` serializes the
payload against the ENUM's own `(sv)` pair node (`value.serialize(self)`),
so `serialize_str` sees the pair type and rejects the payload with
`Error::StrMismatch` — `to_variant(E::B("x"))` is an error, and no wire value
exists for `from_variant` to round-trip. -/
theorem roundtrip_counterexample :
    toVariant (.sEnum "E" .nameTag [("A", .unitV), ("B", .newtypeV .sStr)])
        (.vNewtypeVariant "E" 1 "B" (.vStr "x"))
      = .error (.strMismatch (.tuple [.str, .variant])) ∧
    ∀ w, toVariant (.sEnum "E" .nameTag [("A", .unitV), ("B", .newtypeV .sStr)])
        (.vNewtypeVariant "E" 1 "B" (.vStr "x")) ≠ .ok w := by
  refine ⟨rfl, fun w h => ?_⟩
  rw [show toVariant (.sEnum "E" .nameTag [("A", .unitV), ("B", .newtypeV .sStr)])
      (.vNewtypeVariant "E" 1 "B" (.vStr "x"))
    = .error (.strMismatch (.tuple [.str, .variant])) from rfl] at h
  exact Except.noConfusion h

/-- C1 (amended): on the supported fragment — shapes whose enum
newtype-variant payloads are node-blind scalars, whose newtype-struct inners
are child-blind, whose option/sequence elements and map values are
type-faithful, whose sequence fast-path elements are bare scalars, whose map
keys are basic and type-faithful, and whose variant names are distinct —
serialization succeeds and deserializing the result returns the original
value: `from_variant(to_variant(v)) == v`. -/
theorem roundtrip (s : Shape) (v : SerdeVal)
    (hsup : supportedShape s = true) (hwf : wfVal s v = true) :
    (toVariant s v >>= fromVariant s) = .ok v := by
  rw [toVariant_expected s v hsup hwf, bind_ok, fromVariant_expected s v hsup hwf]

/-- C1 witness: a round trip through a tuple of a scalar, a string, an
option and a mixed enum value, at concrete inputs. -/
theorem roundtrip_witness :
    (toVariant
        (.sTuple [.sI32, .sStr, .sOption .sU8,
          .sEnum "E" .nameTag [("A", .unitV), ("B", .newtypeV .sI32)]])
        (.vTuple [.vI32 (-5), .vStr "hi", .vSome (.vU8 7),
          .vNewtypeVariant "E" 1 "B" (.vI32 42)]) >>=
      fromVariant
        (.sTuple [.sI32, .sStr, .sOption .sU8,
          .sEnum "E" .nameTag [("A", .unitV), ("B", .newtypeV .sI32)]]))
      = .ok (.vTuple [.vI32 (-5), .vStr "hi", .vSome (.vU8 7),
          .vNewtypeVariant "E" 1 "B" (.vI32 42)]) :=
  roundtrip _ _ (by decide) (by decide)
end GlibSerde

namespace GlibSerde
/-- Bit pattern of the `u32` complement-mask `value &= !v` uses: all bits
below 32 except bit `k`. -/
theorem mask_testBit (k : Nat) (hk : k < 32) (i : Nat) :
    (2 ^ 32 - 1 - 2 ^ k).testBit i = (decide (i < 32) && !(decide (i = k))) := by
  have h2 : (2 : Nat) ^ (k + 1) * 2 ^ (31 - k) = 2 ^ 32 := by
    rw [← pow_add]
    congr 1
    omega
  have h3 : (2 : Nat) ^ (k + 1) = 2 * 2 ^ k := by
    rw [pow_succ, Nat.mul_comm]
  have h4 : (1 : Nat) ≤ 2 ^ k := Nat.one_le_two_pow
  have h5 : (2 : Nat) ^ 32 = 4294967296 := by norm_num
  have h6 : (2 : Nat) ^ k ≤ 2 ^ 31 := Nat.pow_le_pow_right (by omega) (by omega)
  have h7 : (2 : Nat) ^ 31 = 2147483648 := by norm_num
  have h1 : 2 ^ (k + 1) * (2 ^ (31 - k) - 1)
      = 2 ^ (k + 1) * 2 ^ (31 - k) - 2 ^ (k + 1) := by
    rw [Nat.mul_sub, Nat.mul_one]
  have hsplit : 2 ^ 32 - 1 - 2 ^ k
      = 2 ^ (k + 1) * (2 ^ (31 - k) - 1) + (2 ^ k - 1) := by
    rw [h1, h2, h3]
    omega
  have hlt : 2 ^ k - 1 < 2 ^ (k + 1) := by omega
  rw [hsplit, Nat.testBit_mul_pow_two_add _ hlt i,
    Nat.testBit_two_pow_sub_one, Nat.testBit_two_pow_sub_one]
  split
  · rename_i hik
    by_cases he : i = k
    · subst he
      simp
    · have hik2 : i < k := by omega
      simp [he, hik2]
      omega
  · rename_i hik
    have hne : i ≠ k := by omega
    simp [hne]
    omega

/-- Clearing one single bit leaves every other single-bit test unchanged. -/
theorem clear_and (value k k2 : Nat) (hk : k < 32) (hk2 : k2 < 32)
    (hne : k ≠ k2) :
    (value &&& (2 ^ 32 - 1 - 2 ^ k)) &&& 2 ^ k2 = value &&& 2 ^ k2 := by
  apply Nat.eq_of_testBit_eq
  intro i
  rw [Nat.testBit_and, Nat.testBit_and, Nat.testBit_and, mask_testBit k hk i,
    Nat.testBit_two_pow]
  by_cases h : k2 = i
  · subst h
    have : k2 ≠ k := fun h2 => hne h2.symm
    simp [this, hk2]
  · simp [h]

/-- `value & v == v` for a single-bit `v` is exactly the bit test. -/
theorem and_two_pow_self (value k : Nat) :
    (value &&& 2 ^ k = 2 ^ k) ↔ value.testBit k = true := by
  rw [Nat.and_two_pow]
  cases h : value.testBit k with
  | true => simp
  | false =>
    simp
    have : (0 : Nat) < 2 ^ k := Nat.pos_pow_of_pos k (by omega)
    omega

/-- Bound on set bits of a `u32`-ranged value. -/
theorem testBit_lt_32 (value i : Nat) (hv : value < 2 ^ 32)
    (hbit : value.testBit i = true) : i < 32 := by
  by_contra hge
  have h32 : (2 : Nat) ^ 32 ≤ 2 ^ i := Nat.pow_le_pow_right (by omega) (by omega)
  have hf := Nat.testBit_eq_false_of_lt (lt_of_lt_of_le hv h32)
  exact Bool.false_ne_true (hf.symm.trans hbit)

-- ===== string helpers =====

theorem string_eq_of_data (s t : String) (h : s.data = t.data) : s = t := by
  cases s
  cases t
  exact congrArg String.mk h

theorem append_ne_empty (s t : String) (h : s ≠ "") : s ++ t ≠ "" := by
  intro he
  apply h
  apply string_eq_of_data
  have hd := congrArg String.data he
  rw [String.data_append] at hd
  have h1 : s.data = [] := (List.append_eq_nil.mp hd).1
  rw [h1]

theorem ne_empty_isEmpty (s : String) (h : s ≠ "") : s.isEmpty = false := by
  cases hb : s.isEmpty
  · rfl
  · exact absurd ((String.isEmpty_iff s).mp hb) h

-- ===== joinBar =====

theorem foldlBar_prefix (l : List String) : ∀ (p m : String),
    l.foldl (fun acc x => acc ++ "|" ++ x) (p ++ m)
      = p ++ l.foldl (fun acc x => acc ++ "|" ++ x) m := by
  induction l with
  | nil => intro p m; rfl
  | cons x xs ih =>
    intro p m
    rw [List.foldl_cons, List.foldl_cons]
    rw [show (p ++ m) ++ "|" ++ x = p ++ (m ++ "|" ++ x) by
      simp [String.append_assoc]]
    exact ih p (m ++ "|" ++ x)

theorem joinBar_cons2 (n m : String) (rest : List String) :
    joinBar (n :: m :: rest) = n ++ "|" ++ joinBar (m :: rest) := by
  show rest.foldl (fun acc x => acc ++ "|" ++ x) ((n ++ "|") ++ m)
    = (n ++ "|") ++ rest.foldl (fun acc x => acc ++ "|" ++ x) m
  exact foldlBar_prefix rest (n ++ "|") m

theorem joinBar_ne_empty (l : List String) (hne : ∀ m ∈ l, m ≠ "")
    (hl : l ≠ []) : joinBar l ≠ "" := by
  cases l with
  | nil => exact absurd rfl hl
  | cons n rest =>
    cases rest with
    | nil => exact hne n (by simp)
    | cons m rest2 =>
      rw [joinBar_cons2]
      exact append_ne_empty _ _ (append_ne_empty n "|" (hne n (by simp)))

-- ===== selection =====

theorem selectedNicks_cons_pos (e : FlagsEntry) (rest : List FlagsEntry)
    (value : Nat) (hsel : value &&& e.value = e.value) :
    selectedNicks (e :: rest) value = e.nick :: selectedNicks rest value := by
  simp only [selectedNicks, selectedEntries]
  rw [List.filter_cons, if_pos (decide_eq_true hsel), List.map_cons]

theorem selectedNicks_cons_neg (e : FlagsEntry) (rest : List FlagsEntry)
    (value : Nat) (hsel : ¬(value &&& e.value = e.value)) :
    selectedNicks (e :: rest) value = selectedNicks rest value := by
  simp only [selectedNicks, selectedEntries]
  rw [List.filter_cons, if_neg (by simp only [decide_eq_true_eq]; exact hsel)]

theorem selectedNicks_clear (rest : List FlagsEntry) (value ev k : Nat)
    (hk : k < 32) (hev : ev = 2 ^ k)
    (hb : ∀ e ∈ rest, ∃ k2, k2 < 32 ∧ e.value = 2 ^ k2 ∧ k2 ≠ k) :
    selectedNicks rest (value &&& (2 ^ 32 - 1 - ev)) = selectedNicks rest value := by
  subst hev
  simp only [selectedNicks, selectedEntries]
  have hf : List.filter
        (fun e => decide ((value &&& (2 ^ 32 - 1 - 2 ^ k)) &&& e.value = e.value)) rest
      = List.filter (fun e => decide (value &&& e.value = e.value)) rest := by
    apply List.filter_congr
    intro e he
    obtain ⟨k2, hk2, hev2, hne⟩ := hb e he
    rw [hev2, clear_and value k k2 hk hk2 (fun h => hne h.symm)]
  rw [hf]

theorem restBits (e : FlagsEntry) (rest : List FlagsEntry) (k : Nat)
    (hek : e.value = 2 ^ k)
    (hb : ∀ e2 ∈ rest, ∃ k2, k2 < 32 ∧ e2.value = 2 ^ k2)
    (hnd : e.value ∉ rest.map FlagsEntry.value) :
    ∀ e2 ∈ rest, ∃ k2, k2 < 32 ∧ e2.value = 2 ^ k2 ∧ k2 ≠ k := by
  intro e2 h2
  obtain ⟨k2, hk2, he2⟩ := hb e2 h2
  refine ⟨k2, hk2, he2, fun hkk => ?_⟩
  apply hnd
  have hm : e2.value ∈ rest.map FlagsEntry.value := List.mem_map_of_mem _ h2
  rw [he2, hkk, ← hek] at hm
  exact hm

-- ===== fmt loop =====

theorem flagsFmtGo_acc (reg : List FlagsEntry) : ∀ (value : Nat) (s : String),
    (∀ e ∈ reg, ∃ k, k < 32 ∧ e.value = 2 ^ k) →
    (reg.map FlagsEntry.value).Nodup → s ≠ "" →
    flagsFmtGo reg value s
      = (selectedNicks reg value).foldl (fun acc m => acc ++ "|" ++ m) s := by
  induction reg with
  | nil => intro value s _ _ _; rfl
  | cons e rest ih =>
    intro value s hb hnd hs
    rw [List.map_cons, List.nodup_cons] at hnd
    obtain ⟨k, hk, hek⟩ := hb e (by simp)
    have hbrest : ∀ e2 ∈ rest, ∃ k2, k2 < 32 ∧ e2.value = 2 ^ k2 :=
      fun e2 h2 => hb e2 (List.mem_cons_of_mem e h2)
    by_cases hsel : value &&& e.value = e.value
    · simp only [flagsFmtGo]
      rw [if_pos hsel]
      have hcond : (if s.isEmpty then s else s ++ "|") = s ++ "|" := by
        rw [ne_empty_isEmpty s hs]
        rfl
      rw [hcond]
      rw [ih (value &&& (2 ^ 32 - 1 - e.value)) ((s ++ "|") ++ e.nick) hbrest hnd.2
        (append_ne_empty _ _ (append_ne_empty s "|" hs))]
      rw [selectedNicks_clear rest value e.value k hk hek
        (restBits e rest k hek hbrest hnd.1)]
      rw [selectedNicks_cons_pos e rest value hsel, List.foldl_cons]
    · simp only [flagsFmtGo]
      rw [if_neg hsel]
      rw [ih value s hbrest hnd.2 hs]
      rw [selectedNicks_cons_neg e rest value hsel]

theorem flagsFmtGo_empty (reg : List FlagsEntry) : ∀ (value : Nat),
    (∀ e ∈ reg, ∃ k, k < 32 ∧ e.value = 2 ^ k) →
    (reg.map FlagsEntry.value).Nodup →
    (∀ e ∈ reg, e.nick ≠ "") →
    flagsFmtGo reg value "" = joinBar (selectedNicks reg value) := by
  induction reg with
  | nil => intro value _ _ _; rfl
  | cons e rest ih =>
    intro value hb hnd hn
    rw [List.map_cons, List.nodup_cons] at hnd
    obtain ⟨k, hk, hek⟩ := hb e (by simp)
    have hbrest : ∀ e2 ∈ rest, ∃ k2, k2 < 32 ∧ e2.value = 2 ^ k2 :=
      fun e2 h2 => hb e2 (List.mem_cons_of_mem e h2)
    by_cases hsel : value &&& e.value = e.value
    · simp only [flagsFmtGo]
      rw [if_pos hsel]
      rw [show ((if ("" : String).isEmpty then ("" : String) else "" ++ "|") ++ e.nick)
          = e.nick from rfl]
      rw [flagsFmtGo_acc rest (value &&& (2 ^ 32 - 1 - e.value)) e.nick hbrest hnd.2
        (hn e (by simp))]
      rw [selectedNicks_clear rest value e.value k hk hek
        (restBits e rest k hek hbrest hnd.1)]
      rw [selectedNicks_cons_pos e rest value hsel]
      rfl
    · simp only [flagsFmtGo]
      rw [if_neg hsel]
      rw [ih value hbrest hnd.2 (fun e2 h2 => hn e2 (List.mem_cons_of_mem e h2))]
      rw [selectedNicks_cons_neg e rest value hsel]

-- ===== parse =====

theorem valueByNick_of_mem (reg : List FlagsEntry) (e : FlagsEntry)
    (hnd : (reg.map FlagsEntry.nick).Nodup) (he : e ∈ reg) :
    valueByNick reg e.nick = some e.value := by
  induction reg with
  | nil => cases he
  | cons a rest ih =>
    rw [List.map_cons, List.nodup_cons] at hnd
    rcases List.mem_cons.mp he with rfl | hmem
    · simp only [valueByNick]
      rw [List.find?_cons_of_pos _ (by simp)]
      rfl
    · have hne2 : (a.nick == e.nick) = false := by
        rw [beq_eq_false_iff_ne]
        intro hcontra
        have hmm : e.nick ∈ rest.map FlagsEntry.nick := List.mem_map_of_mem _ hmem
        rw [← hcontra] at hmm
        exact hnd.1 hmm
      simp only [valueByNick]
      rw [List.find?_cons_of_neg _ (by simp [hne2])]
      exact ih hnd.2 hmem

theorem flagsParseGo_last (reg : List FlagsEntry) (t : List Char) :
    ∀ (cur : List Char) (acc : Nat), (∀ c ∈ t, c ≠ '|') →
    flagsParseGo reg t cur acc =
      match valueByNick reg (String.mk (cur.reverse ++ t)) with
      | some v => some (acc ||| v)
      | none => none := by
  induction t with
  | nil =>
    intro cur acc _
    rw [List.append_nil]
    rfl
  | cons c cs ih =>
    intro cur acc hbar
    have hc : c ≠ '|' := hbar c (by simp)
    simp only [flagsParseGo]
    rw [if_neg hc]
    rw [ih (c :: cur) acc (fun c2 h2 => hbar c2 (by simp [h2]))]
    rw [List.reverse_cons, List.append_assoc]
    rfl

theorem flagsParseGo_sep (reg : List FlagsEntry) (t : List Char) :
    ∀ (rest cur : List Char) (acc : Nat), (∀ c ∈ t, c ≠ '|') →
    flagsParseGo reg (t ++ '|' :: rest) cur acc =
      match valueByNick reg (String.mk (cur.reverse ++ t)) with
      | some v => flagsParseGo reg rest [] (acc ||| v)
      | none => none := by
  induction t with
  | nil =>
    intro rest cur acc _
    rw [List.nil_append, List.append_nil]
    simp only [flagsParseGo]
    rw [if_pos trivial]
  | cons c cs ih =>
    intro rest cur acc hbar
    have hc : c ≠ '|' := hbar c (by simp)
    rw [List.cons_append]
    simp only [flagsParseGo]
    rw [if_neg hc]
    rw [ih rest (c :: cur) acc (fun c2 h2 => hbar c2 (by simp [h2]))]
    rw [List.reverse_cons, List.append_assoc]
    rfl

theorem parse_joinBar (reg : List FlagsEntry)
    (hnd : (reg.map FlagsEntry.nick).Nodup) :
    ∀ (sel : List FlagsEntry) (acc : Nat),
      sel ≠ [] → (∀ e ∈ sel, e ∈ reg) →
      (∀ e ∈ sel, ∀ c ∈ e.nick.data, c ≠ '|') →
      flagsParseGo reg (joinBar (sel.map FlagsEntry.nick)).data [] acc
        = some (sel.foldl (fun a e => a ||| e.value) acc) := by
  intro sel
  induction sel with
  | nil => intro acc h _ _; exact absurd rfl h
  | cons e sel2 ih =>
    intro acc _ hmem hbar
    cases sel2 with
    | nil =>
      show flagsParseGo reg e.nick.data [] acc = some (acc ||| e.value)
      rw [flagsParseGo_last reg e.nick.data [] acc (hbar e (by simp))]
      rw [show String.mk (List.reverse ([] : List Char) ++ e.nick.data) = e.nick
        from rfl]
      rw [valueByNick_of_mem reg e hnd (hmem e (by simp))]
    | cons e2 sel3 =>
      rw [List.map_cons, List.map_cons, joinBar_cons2]
      rw [String.data_append, String.data_append, List.append_assoc]
      rw [show ("|" : String).data
            ++ (joinBar (e2.nick :: sel3.map FlagsEntry.nick)).data
          = '|' :: (joinBar (e2.nick :: sel3.map FlagsEntry.nick)).data from rfl]
      rw [flagsParseGo_sep reg e.nick.data
        ((joinBar (e2.nick :: sel3.map FlagsEntry.nick)).data) [] acc
        (hbar e (by simp))]
      rw [show String.mk (List.reverse ([] : List Char) ++ e.nick.data) = e.nick
        from rfl]
      rw [valueByNick_of_mem reg e hnd (hmem e (by simp))]
      show flagsParseGo reg (joinBar ((e2 :: sel3).map FlagsEntry.nick)).data []
          (acc ||| e.value) = some ((e2 :: sel3).foldl (fun a e => a ||| e.value)
          (acc ||| e.value))
      exact ih (acc ||| e.value) (by simp)
        (fun e3 h3 => hmem e3 (List.mem_cons_of_mem e h3))
        (fun e3 h3 => hbar e3 (List.mem_cons_of_mem e h3))

-- ===== value reconstruction =====

theorem foldl_or_testBit (l : List FlagsEntry) : ∀ (acc i : Nat),
    (l.foldl (fun a e => a ||| e.value) acc).testBit i
      = (acc.testBit i || l.any fun e => e.value.testBit i) := by
  induction l with
  | nil => intro acc i; simp
  | cons e rest ih =>
    intro acc i
    rw [List.foldl_cons, ih (acc ||| e.value) i, Nat.testBit_or]
    simp [Bool.or_assoc]

theorem selected_or (reg : List FlagsEntry) (value : Nat)
    (hb : ∀ e ∈ reg, ∃ k, k < 32 ∧ e.value = 2 ^ k)
    (hv : value < 2 ^ 32)
    (hcov : ∀ i, i < 32 → value.testBit i = true → ∃ e ∈ reg, e.value = 2 ^ i) :
    (selectedEntries reg value).foldl (fun a e => a ||| e.value) 0 = value := by
  apply Nat.eq_of_testBit_eq
  intro i
  rw [foldl_or_testBit, Nat.zero_testBit, Bool.false_or]
  cases hvb : value.testBit i with
  | false =>
    rw [List.any_eq_false]
    intro e he
    simp only [selectedEntries, List.mem_filter] at he
    obtain ⟨hereg, hselx⟩ := he
    obtain ⟨k, hk, hek⟩ := hb e hereg
    intro habs
    have habs2 : e.value.testBit i = true := habs
    rw [hek, Nat.testBit_two_pow] at habs2
    have hki := of_decide_eq_true habs2
    subst hki
    have hsel2 : value &&& 2 ^ k = 2 ^ k := by
      rw [← hek]
      exact of_decide_eq_true hselx
    have hbit := (and_two_pow_self value k).mp hsel2
    exact Bool.false_ne_true (hvb.symm.trans hbit)
  | true =>
    rw [List.any_eq_true]
    have hi : i < 32 := testBit_lt_32 value i hv hvb
    obtain ⟨e, hereg, hev⟩ := hcov i hi hvb
    refine ⟨e, ?_, ?_⟩
    · simp only [selectedEntries, List.mem_filter]
      exact ⟨hereg, decide_eq_true (by
        rw [hev]
        exact (and_two_pow_self value i).mpr hvb)⟩
    · show e.value.testBit i = true
      rw [hev, Nat.testBit_two_pow]
      exact decide_eq_true rfl

/-- Claim C8: for a flags registry of distinct single-bit (`u32`) entries with
distinct, nonempty, `|`-free nicks, and a value composed of registered bits:
the by-name encoding (`FlagsValue::fmt`) is the `|`-joined list of the set
bits' registry nicks in registry declaration order (an entry is selected
exactly when its bit is set in the value); the encoding is the empty string
exactly when the value is zero; decoding (`FlagsValue::from_str`) maps the
empty string to zero; and decoding the encoding returns the original value. -/
theorem flags_by_name_encoding (reg : List FlagsEntry) (value : Nat)
    (hb : ∀ e ∈ reg, ∃ k, k < 32 ∧ e.value = 2 ^ k)
    (hvals : (reg.map FlagsEntry.value).Nodup)
    (hnicks : (reg.map FlagsEntry.nick).Nodup)
    (hnn : ∀ e ∈ reg, e.nick ≠ "")
    (hbar : ∀ e ∈ reg, ∀ c ∈ e.nick.data, c ≠ '|')
    (hv : value < 2 ^ 32)
    (hcov : ∀ i, i < 32 → value.testBit i = true → ∃ e ∈ reg, e.value = 2 ^ i) :
    flagsToString reg value = joinBar (selectedNicks reg value) ∧
    (∀ e ∈ reg, ∀ k, e.value = 2 ^ k →
      (e ∈ selectedEntries reg value ↔ value.testBit k = true)) ∧
    (flagsToString reg value = "" ↔ value = 0) ∧
    flagsFromStr reg "" = some 0 ∧
    flagsFromStr reg (flagsToString reg value) = some value := by
  have henc : flagsToString reg value = joinBar (selectedNicks reg value) :=
    flagsFmtGo_empty reg value hb hvals hnn
  have hmem : ∀ e ∈ reg, ∀ k, e.value = 2 ^ k →
      (e ∈ selectedEntries reg value ↔ value.testBit k = true) := by
    intro e he k hek
    simp only [selectedEntries, List.mem_filter]
    constructor
    · rintro ⟨_, hselx⟩
      apply (and_two_pow_self value k).mp
      rw [← hek]
      exact of_decide_eq_true hselx
    · intro hbit
      refine ⟨he, decide_eq_true ?_⟩
      rw [hek]
      exact (and_two_pow_self value k).mpr hbit
  have hselreg : ∀ e2 ∈ selectedEntries reg value, e2 ∈ reg := by
    intro e2 h2
    simp only [selectedEntries, List.mem_filter] at h2
    exact h2.1
  have hselnn : ∀ m ∈ selectedNicks reg value, m ≠ "" := by
    intro m hm
    obtain ⟨e2, he2, rfl⟩ := List.mem_map.mp hm
    exact hnn e2 (hselreg e2 he2)
  have hzero : flagsToString reg value = "" ↔ value = 0 := by
    constructor
    · intro hstr
      apply Nat.zero_of_testBit_eq_false
      intro i
      cases hbit : value.testBit i with
      | false => rfl
      | true =>
        exfalso
        have hi : i < 32 := testBit_lt_32 value i hv hbit
        obtain ⟨e, hereg, hev⟩ := hcov i hi hbit
        have hesel : e ∈ selectedEntries reg value := (hmem e hereg i hev).mpr hbit
        have hnsel : e.nick ∈ selectedNicks reg value := List.mem_map_of_mem _ hesel
        have hne2 : joinBar (selectedNicks reg value) ≠ "" :=
          joinBar_ne_empty _ hselnn (List.ne_nil_of_mem hnsel)
        rw [henc] at hstr
        exact hne2 hstr
    · intro hz
      subst hz
      rw [henc]
      have hnil : selectedEntries reg 0 = [] := by
        simp only [selectedEntries]
        rw [List.filter_eq_nil_iff]
        intro e he
        obtain ⟨k, hk, hek⟩ := hb e he
        intro habs
        have h0 := of_decide_eq_true habs
        rw [Nat.zero_and] at h0
        have hpos : (0 : Nat) < 2 ^ k := by positivity
        omega
      simp only [selectedNicks]
      rw [hnil]
      rfl
  have hempty : flagsFromStr reg "" = some 0 := rfl
  have hrt : flagsFromStr reg (flagsToString reg value) = some value := by
    rw [henc]
    cases hsel : selectedEntries reg value with
    | nil =>
      have hv0 : value = 0 := by
        apply Nat.zero_of_testBit_eq_false
        intro i
        cases hbit : value.testBit i with
        | false => rfl
        | true =>
          exfalso
          have hi : i < 32 := testBit_lt_32 value i hv hbit
          obtain ⟨e, hereg, hev⟩ := hcov i hi hbit
          have hesel : e ∈ selectedEntries reg value := (hmem e hereg i hev).mpr hbit
          rw [hsel] at hesel
          exact absurd hesel (List.not_mem_nil e)
      subst hv0
      simp only [selectedNicks]
      rw [hsel]
      rfl
    | cons e0 sel2 =>
      have hjne : joinBar (selectedNicks reg value) ≠ "" := by
        apply joinBar_ne_empty _ hselnn
        simp only [selectedNicks]
        rw [hsel]
        simp
      simp only [flagsFromStr]
      rw [if_neg (by
        rw [ne_empty_isEmpty _ hjne]
        exact Bool.false_ne_true)]
      simp only [selectedNicks]
      rw [parse_joinBar reg hnicks (selectedEntries reg value) 0
        (by rw [hsel]; simp) hselreg
        (fun e2 h2 => hbar e2 (hselreg e2 h2))]
      rw [selected_or reg value hb hv hcov]
  exact ⟨henc, hmem, hzero, hempty, hrt⟩

theorem flags_by_name_encoding_witness :
    ((5 : Nat) < 2 ^ 32) ∧
    (flagsToString [⟨"a", 1⟩, ⟨"b", 2⟩, ⟨"c", 4⟩] 5
        = joinBar (selectedNicks [⟨"a", 1⟩, ⟨"b", 2⟩, ⟨"c", 4⟩] 5) ∧
      (∀ e ∈ [(⟨"a", 1⟩ : FlagsEntry), ⟨"b", 2⟩, ⟨"c", 4⟩], ∀ k, e.value = 2 ^ k →
        (e ∈ selectedEntries [⟨"a", 1⟩, ⟨"b", 2⟩, ⟨"c", 4⟩] 5 ↔
          Nat.testBit 5 k = true)) ∧
      (flagsToString [⟨"a", 1⟩, ⟨"b", 2⟩, ⟨"c", 4⟩] 5 = "" ↔ (5 : Nat) = 0) ∧
      flagsFromStr [⟨"a", 1⟩, ⟨"b", 2⟩, ⟨"c", 4⟩] "" = some 0 ∧
      flagsFromStr [⟨"a", 1⟩, ⟨"b", 2⟩, ⟨"c", 4⟩]
        (flagsToString [⟨"a", 1⟩, ⟨"b", 2⟩, ⟨"c", 4⟩] 5) = some 5) :=
  ⟨by decide,
    flags_by_name_encoding [⟨"a", 1⟩, ⟨"b", 2⟩, ⟨"c", 4⟩] 5
      (by
        intro e he
        simp only [List.mem_cons, List.not_mem_nil, or_false] at he
        rcases he with rfl | rfl | rfl
        · exact ⟨0, by omega, rfl⟩
        · exact ⟨1, by omega, rfl⟩
        · exact ⟨2, by omega, rfl⟩)
      (by decide) (by decide) (by decide) (by decide) (by decide)
      (by decide)⟩

end GlibSerde
